import Mathlib

set_option autoImplicit false
set_option exponentiation.threshold 2048

/-!
# off_parser: a shallow embedding of the OFF parser and of the example's type mapper

Sources embedded here:

* `include/off_parser/geometry/{vec,vertex,face,mesh}.hpp`: the data model;
* `include/off_parser/parser.hpp`: `ignore_until_newline`, `ignore_comment_or_empty_lines`,
  `parse_vec`, `parse_vec_within_line`, `parse`;
* `example/type_mapper.hpp`: `type_mapper::map`, `type_mapper::static_map`.

The parser works on a `std::istream`.  The stream is modelled by the characters that are still
to be extracted together with `eofbit` and `failbit` (`badbit` is never set by a stream over a
finite character sequence, and the exception mask is the default one, so no stream operation
throws).  The stream members used by the parser (`peek`, `ignore`, `eof`, `operator>>`) follow
the C++ standard's description of unformatted and formatted input functions in the classic
locale.

Local variables that the source declares without an initialiser (`n_vertices`, `n_faces`,
`mesh.n_edges`, `n_vertices_in_face`, `index`, the components of a fresh `vec3`/`vec4`) hold an
indeterminate value until an extraction stores into them.  That value is supplied by an
explicit environment `Uninit`, one entry per declaration site and loop iteration, and every
theorem quantifies over it.  `reserve` calls are capacity hints without an observable effect
and storage is unbounded.
-/

namespace OffParser

/-! ## Scalars -/

/-- Value read by `operator>>` into a floating-point scalar: the sign, the decimal digits of
the mantissa and the decimal exponent of the token, denoting `± digits * 10 ^ exp`.  The
`double` stored by the program is the rounding of this number; equal `Decimal`s are equal
`double`s. -/
structure Decimal where
  neg : Bool
  digits : Nat
  exp : Int
deriving DecidableEq

/-- Scalar denoted by a natural number literal such as `0` or `255`. -/
def Decimal.ofNat (n : Nat) : Decimal := ⟨false, n, 0⟩

/-! ## geometry/vec.hpp -/

/-- The two vector templates `vec3<T>` and `vec4<T>` (with `T` the scalar above). -/
inductive Vec where
  | vec3 (x y z : Decimal)
  | vec4 (x y z w : Decimal)
deriving DecidableEq

/-- Which of the two vector templates a field uses (`VecT::size` is 3 or 4). -/
inductive VecKind where
  | v3
  | v4
deriving DecidableEq

/-- Component count `VecT::size`. -/
def VecKind.size : VecKind → Nat
  | .v3 => 3
  | .v4 => 4

/-- Component count of a vector value. -/
def Vec.size : Vec → Nat
  | .vec3 _ _ _ => 3
  | .vec4 _ _ _ _ => 4

/-- Components of a vector in index order (`nth<0>`, `nth<1>`, ...). -/
def Vec.toList : Vec → List Decimal
  | .vec3 x y z => [x, y, z]
  | .vec4 x y z w => [x, y, z, w]

/-! ## geometry/vertex.hpp, geometry/face.hpp, geometry/mesh.hpp -/

/-- The three vertex record templates. -/
inductive Vertex where
  | vertex (position : Vec)
  | colored_vertex (position : Vec) (color : Vec)
  | optional_colored_vertex (position : Vec) (color : Option Vec)
deriving DecidableEq

/-- The three face record templates; indices are values of the unsigned index type. -/
inductive Face where
  | face (vertex_indices : List Nat)
  | colored_face (vertex_indices : List Nat) (color : Vec)
  | optional_colored_face (vertex_indices : List Nat) (color : Option Vec)
deriving DecidableEq

/-- Position of a vertex record. -/
def Vertex.position : Vertex → Vec
  | .vertex p => p
  | .colored_vertex p _ => p
  | .optional_colored_vertex p _ => p

/-- Colour of a vertex record, when the record has one. -/
def Vertex.color : Vertex → Option Vec
  | .vertex _ => none
  | .colored_vertex _ c => some c
  | .optional_colored_vertex _ c => c

/-- Index list of a face record. -/
def Face.vertex_indices : Face → List Nat
  | .face l => l
  | .colored_face l _ => l
  | .optional_colored_face l _ => l

/-- Colour of a face record, when the record has one. -/
def Face.color : Face → Option Vec
  | .face _ => none
  | .colored_face _ c => some c
  | .optional_colored_face _ c => c

/-- Vertex type of a mesh instantiation: the template and its vector parameters. -/
inductive VertexShape where
  | vertex (position : VecKind)
  | colored_vertex (position : VecKind) (color : VecKind)
  | optional_colored_vertex (position : VecKind) (color : VecKind)
deriving DecidableEq

/-- Face type of a mesh instantiation: the template, the bit width of its unsigned index type
(`std::uint16_t` in the example, so 16) and its colour vector parameter. -/
inductive FaceShape where
  | face (index_bits : Nat)
  | colored_face (index_bits : Nat) (color : VecKind)
  | optional_colored_face (index_bits : Nat) (color : VecKind)
deriving DecidableEq

/-- Position vector template of a vertex shape. -/
def VertexShape.position_type : VertexShape → VecKind
  | .vertex p => p
  | .colored_vertex p _ => p
  | .optional_colored_vertex p _ => p

/-- Bit width of the index type of a face shape. -/
def FaceShape.index_bits : FaceShape → Nat
  | .face w => w
  | .colored_face w _ => w
  | .optional_colored_face w _ => w

/-- The mesh aggregate. -/
structure Mesh where
  vertices : List Vertex
  faces : List Face
  n_edges : Nat
deriving DecidableEq

/-! ## The stream -/

/-- State of a `std::istream` reading from a finite character sequence. -/
structure IStream where
  buf : List Char
  eofbit : Bool
  failbit : Bool
deriving DecidableEq

/-- A freshly opened stream over the given characters. -/
def IStream.fresh (cs : List Char) : IStream := ⟨cs, false, false⟩

/-- Member `good()`: no state bit is set. -/
def IStream.good (s : IStream) : Bool := !s.eofbit && !s.failbit

/-- Member `eof()`: `eofbit` is set. -/
def IStream.eof (s : IStream) : Bool := s.eofbit

/-- Whitespace of the classic locale (`std::isspace`). -/
def isspace (c : Char) : Bool :=
  c == ' ' || c == '\t' || c == '\n' || c == '\x0b' || c == '\x0c' || c == '\r'

/-- Characters after the first newline, or `none` when there is no newline. -/
def after_newline : List Char → Option (List Char)
  | [] => none
  | c :: cs => if c = '\n' then some cs else after_newline cs

/-- Member `ignore(numeric_limits<streamsize>::max(), delim)` with delimiter newline: when the
stream is good, extracts up to and including the first newline, or everything (setting `eofbit`)
when there is none; a stream that is not good only gets `failbit`. -/
def IStream.ignore_max_newline (s : IStream) : IStream :=
  if s.good then
    match after_newline s.buf with
    | some rest => { s with buf := rest }
    | none => { s with buf := [], eofbit := true }
  else { s with failbit := true }

/-- Member `ignore()`: extracts one character, or sets `eofbit` when there is none. -/
def IStream.ignore (s : IStream) : IStream :=
  if s.good then
    match s.buf with
    | [] => { s with eofbit := true }
    | _ :: rest => { s with buf := rest }
  else { s with failbit := true }

/-- Member `peek()`: the next character without extracting it; `none` is `traits::eof()`,
returned when the stream is not good or has no character left (which sets `eofbit`). -/
def IStream.peek (s : IStream) : Option Char × IStream :=
  if s.good then
    match s.buf with
    | [] => (none, { s with eofbit := true })
    | c :: _ => (some c, s)
  else (none, { s with failbit := true })

/-- Whitespace skipping done by the sentry of a formatted input function. -/
def skipws : List Char → List Char
  | [] => []
  | c :: cs => if isspace c then skipws cs else c :: cs

/-- Sentry of a formatted input function (`skipws` set): on a good stream skip whitespace and
succeed if a character is left, otherwise set `eofbit` and `failbit`; a stream that is not good
gets `failbit`. -/
def IStream.sentry (s : IStream) : Bool × IStream :=
  if s.good then
    match skipws s.buf with
    | [] => (false, { buf := [], eofbit := true, failbit := true })
    | c :: cs => (true, { s with buf := c :: cs })
  else (false, { s with failbit := true })

/-- Longest prefix of decimal digits and the rest. -/
def span_digits : List Char → List Char × List Char
  | [] => ([], [])
  | c :: cs =>
    if c.isDigit then ((span_digits cs).1.cons c, (span_digits cs).2) else ([], c :: cs)

/-- Value of a string of decimal digits. -/
def digits_value (ds : List Char) : Nat :=
  ds.foldl (fun acc c => 10 * acc + (c.toNat - 48)) 0

/-- Optional sign in front of a number: whether it is a minus, and the rest. -/
def take_sign : List Char → Bool × List Char
  | [] => (false, [])
  | c :: cs => if c = '-' then (true, cs) else if c = '+' then (false, cs) else (false, c :: cs)

/-- Result of a `num_get` conversion: the value stored, whether `failbit` is raised, and the
characters left. -/
structure Scan (α : Type) where
  value : α
  fail : Bool
  rest : List Char

/-- The `num_get` conversion for an unsigned integer type of `w` bits in base 10: an optional
sign and the longest run of digits are extracted.  No digit: zero is stored and the conversion
fails.  A magnitude above the maximum: the maximum is stored and the conversion fails.  A minus
sign negates modulo `2 ^ w`. -/
def num_get_unsigned (w : Nat) (cs : List Char) : Scan Nat :=
  let sg := take_sign cs
  let sp := span_digits sg.2
  if sp.1 = [] then ⟨0, true, sp.2⟩
  else
    let n := digits_value sp.1
    if 2 ^ w - 1 < n then ⟨2 ^ w - 1, true, sp.2⟩
    else ⟨if sg.1 then (2 ^ w - n) % 2 ^ w else n, false, sp.2⟩

/-- Formatted extraction `input >> x` for an unsigned integer `x` of `w` bits holding `old`:
if the sentry fails `x` is left untouched, otherwise the conversion result is stored, `failbit`
is raised when the conversion failed and `eofbit` when the characters ran out. -/
def IStream.extract_unsigned (w : Nat) (s : IStream) (old : Nat) : Nat × IStream :=
  match s.sentry with
  | (false, s1) => (old, s1)
  | (true, s1) =>
    let r := num_get_unsigned w s1.buf
    (r.value, { buf := r.rest, eofbit := decide (r.rest = []), failbit := r.fail })

/-- Exponent part of a floating-point token, tried only after a mantissa digit: `e` or `E`, an
optional sign and digits.  Returns whether the marker was extracted, the exponent sign, the
exponent digits and the rest. -/
def take_exponent : List Char → Bool × Bool × List Char × List Char
  | [] => (false, false, [], [])
  | c :: cs =>
    if c = 'e' ∨ c = 'E' then
      let sg := take_sign cs
      let sp := span_digits sg.2
      (true, sg.1, sp.1, sp.2)
    else (false, false, [], c :: cs)

/-- Optional fraction of a floating-point token: a decimal point and digits.  Returns whether
the point was extracted, the fraction digits and the rest. -/
def take_fraction : List Char → Bool × List Char × List Char
  | [] => (false, [], [])
  | c :: cs =>
    if c = '.' then (true, (span_digits cs).1, (span_digits cs).2) else (false, [], c :: cs)

/-- Smallest magnitude that rounds to infinity in binary64. -/
def double_overflow : Nat := 2 ^ 1024 - 2 ^ 970

/-- Largest finite binary64 value. -/
def double_max : Nat := 2 ^ 1024 - 2 ^ 971

/-- Whether `digits * 10 ^ exp` reaches the overflow threshold. -/
def overflows (digits : Nat) (exp : Int) : Bool :=
  if 0 ≤ exp then decide (double_overflow ≤ digits * 10 ^ exp.toNat)
  else decide (double_overflow * 10 ^ (-exp).toNat ≤ digits)

/-- The `num_get` conversion for `double`: an optional sign, digits, an optional fraction and,
after at least one mantissa digit, an optional exponent are extracted.  The conversion fails
(storing zero) when there is no mantissa digit or an exponent marker without exponent digits,
and fails (storing the largest finite value) on overflow. -/
def num_get_double (cs : List Char) : Scan Decimal :=
  let sg := take_sign cs
  let ip := span_digits sg.2
  let fr := take_fraction ip.2
  if ip.1 = [] ∧ fr.2.1 = [] then ⟨⟨false, 0, 0⟩, true, fr.2.2⟩
  else
    let ex := take_exponent fr.2.2
    if ex.1 = true ∧ ex.2.2.1 = [] then ⟨⟨false, 0, 0⟩, true, ex.2.2.2⟩
    else
      let m := digits_value (ip.1 ++ fr.2.1)
      let e : Int := (if ex.2.1 then -(digits_value ex.2.2.1 : Int) else (digits_value ex.2.2.1 : Int))
        - (fr.2.1.length : Int)
      if overflows m e then ⟨⟨sg.1, double_max, 0⟩, true, ex.2.2.2⟩
      else ⟨⟨sg.1, m, e⟩, false, ex.2.2.2⟩

/-- Formatted extraction `input >> x` for a `double` `x` holding `old`. -/
def IStream.extract_double (s : IStream) (old : Decimal) : Decimal × IStream :=
  match s.sentry with
  | (false, s1) => (old, s1)
  | (true, s1) =>
    let r := num_get_double s1.buf
    (r.value, { buf := r.rest, eofbit := decide (r.rest = []), failbit := r.fail })

/-! ## parser.hpp -/

/-- Indeterminate contents of the variables the parser declares without an initialiser, one
entry per declaration site: the three counts, and per record index the position and colour
components, the face's index count and each `index` of the inner loop. -/
structure Uninit where
  n_vertices : Nat
  n_faces : Nat
  n_edges : Nat
  position : Nat → Nat → Decimal
  vertex_color : Nat → Nat → Decimal
  n_vertices_in_face : Nat → Nat
  index : Nat → Nat → Nat
  face_color : Nat → Nat → Decimal

/-- Source `ignore_until_newline`. -/
def ignore_until_newline (input : IStream) : IStream :=
  input.ignore_max_newline

/-- The `while (!input.eof())` loop of `ignore_comment_or_empty_lines`, bounded by `fuel`
iterations. -/
def ignore_comment_or_empty_lines_loop : Nat → IStream → IStream
  | 0, input => input
  | fuel + 1, input =>
    if input.eof then input
    else
      let p := input.peek
      if p.1 = some '\n' then ignore_comment_or_empty_lines_loop fuel p.2.ignore
      else if p.1 = some '#' then ignore_comment_or_empty_lines_loop fuel (ignore_until_newline p.2)
      else p.2

/-- Source `ignore_comment_or_empty_lines`.  Every iteration that does not return extracts at
least one character, so one more iteration than there are characters is always enough. -/
def ignore_comment_or_empty_lines (input : IStream) : IStream :=
  ignore_comment_or_empty_lines_loop (input.buf.length + 1) input

/-- Source `parse_vec`: a fresh vector whose components are extracted in order with
`operator>>`; `init` is the indeterminate content of the fresh vector. -/
def parse_vec (k : VecKind) (init : Nat → Decimal) (input : IStream) : Vec × IStream :=
  let x := input.extract_double (init 0)
  let y := x.2.extract_double (init 1)
  let z := y.2.extract_double (init 2)
  match k with
  | .v3 => (Vec.vec3 x.1 y.1 z.1, z.2)
  | .v4 =>
    let w := z.2.extract_double (init 3)
    (Vec.vec4 x.1 y.1 z.1 w.1, w.2)

/-- One iteration of the loop of `parse_vec_within_line`: `none` when the next character is a
newline (the function then returns `std::nullopt`), otherwise the element extracted. -/
def within_line_elem (old : Decimal) (input : IStream) : Option Decimal × IStream :=
  let p := input.peek
  if p.1 = some '\n' then (none, p.2)
  else
    let e := p.2.extract_double old
    (some e.1, e.2)

/-- Source `parse_vec_within_line`: the range-for over the buffer of `VecT::size` elements,
returning `std::nullopt` as soon as an iteration starts at a newline. -/
def parse_vec_within_line (k : VecKind) (init : Nat → Decimal) (input : IStream) :
    Option Vec × IStream :=
  match within_line_elem (init 0) input with
  | (none, s) => (none, s)
  | (some x, s) =>
    match within_line_elem (init 1) s with
    | (none, s) => (none, s)
    | (some y, s) =>
      match within_line_elem (init 2) s with
      | (none, s) => (none, s)
      | (some z, s) =>
        match k with
        | .v3 => (some (Vec.vec3 x y z), s)
        | .v4 =>
          match within_line_elem (init 3) s with
          | (none, s) => (none, s)
          | (some w, s) => (some (Vec.vec4 x y z w), s)

/-- Body of the vertex loop of `parse` for iteration `i`. -/
def parse_vertex (sh : VertexShape) (u : Uninit) (i : Nat) (input : IStream) :
    Vertex × IStream :=
  let s0 := ignore_comment_or_empty_lines input
  let p := parse_vec sh.position_type (u.position i) s0
  match sh with
  | .vertex _ => (Vertex.vertex p.1, ignore_until_newline p.2)
  | .colored_vertex _ ck =>
    let c := parse_vec ck (u.vertex_color i) p.2
    (Vertex.colored_vertex p.1 c.1, ignore_until_newline c.2)
  | .optional_colored_vertex _ ck =>
    let c := parse_vec_within_line ck (u.vertex_color i) p.2
    (Vertex.optional_colored_vertex p.1 c.1, ignore_until_newline c.2)

/-- The vertex loop `for (i = ...; i < n_vertices; ++i)` of `parse`, with `n` iterations left
and `i` the current index. -/
def parse_vertices (sh : VertexShape) (u : Uninit) : Nat → Nat → IStream → List Vertex × IStream
  | 0, _, input => ([], input)
  | n + 1, i, input =>
    let v := parse_vertex sh u i input
    let r := parse_vertices sh u n (i + 1) v.2
    (v.1 :: r.1, r.2)

/-- The index loop `for (j = ...; j < n_vertices_in_face && input.peek() != newline; ++j)` of
face `i`, with `n` iterations left and `j` the current index. -/
def parse_indices (w : Nat) (u : Uninit) (i : Nat) : Nat → Nat → IStream → List Nat × IStream
  | 0, _, input => ([], input)
  | n + 1, j, input =>
    let p := input.peek
    if p.1 = some '\n' then ([], p.2)
    else
      let x := p.2.extract_unsigned w (u.index i j)
      let r := parse_indices w u i n (j + 1) x.2
      (x.1 :: r.1, r.2)

/-- The face that the body of the face loop of `parse` builds in iteration `i`, and the stream
afterwards, without `face.vertex_indices.reserve(n_vertices_in_face)`, which stores nothing
(`parse_face_outcome` is the body with it). -/
def parse_face (sh : FaceShape) (u : Uninit) (i : Nat) (input : IStream) : Face × IStream :=
  let s0 := ignore_comment_or_empty_lines input
  let k := s0.extract_unsigned 64 (u.n_vertices_in_face i)
  let l := parse_indices sh.index_bits u i k.1 0 k.2
  match sh with
  | .face _ => (Face.face l.1, ignore_until_newline l.2)
  | .colored_face _ ck =>
    let c := parse_vec ck (u.face_color i) l.2
    (Face.colored_face l.1 c.1, ignore_until_newline c.2)
  | .optional_colored_face _ ck =>
    let c := parse_vec_within_line ck (u.face_color i) l.2
    (Face.optional_colored_face l.1 c.1, ignore_until_newline c.2)

/-- The face loop `for (i = ...; i < n_faces; ++i)` of `parse`. -/
def parse_faces (sh : FaceShape) (u : Uninit) : Nat → Nat → IStream → List Face × IStream
  | 0, _, input => ([], input)
  | n + 1, i, input =>
    let f := parse_face sh u i input
    let r := parse_faces sh u n (i + 1) f.2
    (f.1 :: r.1, r.2)

/-- The three counts as stored by `input >> n_vertices >> n_faces >> mesh.n_edges`, and the
stream afterwards. -/
structure Counts where
  n_vertices : Nat
  n_faces : Nat
  n_edges : Nat
  input : IStream

/-- First part of `parse`: the header line is ignored, comment and empty lines are skipped and
the three counts are extracted. -/
def parse_counts (u : Uninit) (input : IStream) : Counts :=
  let s0 := ignore_until_newline input
  let s1 := ignore_comment_or_empty_lines s0
  let v := s1.extract_unsigned 64 u.n_vertices
  let f := v.2.extract_unsigned 64 u.n_faces
  let e := f.2.extract_unsigned 64 u.n_edges
  ⟨v.1, f.1, e.1, e.2⟩

/-- The mesh that source `parse<MeshT>` builds for the mesh type with vertex type `vs` and face
type `fs`: its statements in order, without the three `reserve` calls.  Those store nothing in
the mesh; they either throw, which ends the run before a mesh is returned, or leave the result
as it is.  `parse_outcome` is the function with them, and `parse_outcome_eq` relates the two. -/
def parse (vs : VertexShape) (fs : FaceShape) (u : Uninit) (input : IStream) : Mesh :=
  let c := parse_counts u input
  let s := ignore_until_newline c.input
  let v := parse_vertices vs u c.n_vertices 0 s
  let f := parse_faces fs u c.n_faces 0 v.2
  ⟨v.1, f.1, c.n_edges⟩

/-- The mesh `parse` builds for a freshly opened stream over the given text. -/
def parse_text (vs : VertexShape) (fs : FaceShape) (u : Uninit) (text : String) : Mesh :=
  parse vs fs u (IStream.fresh text.toList)

end OffParser

/-! ## example/type_mapper.hpp -/

/-- Source `type_mapping<T, V>`: the mapped type `T` (here a value naming the shape) and the
runtime key `mapper`. -/
structure type_mapping (T V : Type) where
  type : T
  mapper : V

/-- Source `type_mapper<MappingV, MappingTs...>`: the tuple `mappings`.  The private `map` and
`static_map` templates take `std::tuple<Mapping, Mappings...>`, so the tuple has a first
element; `rest` are the others in declaration order. -/
structure type_mapper (T V : Type) where
  first : type_mapping T V
  rest : List (type_mapping T V)

namespace type_mapper

variable {T V : Type} [DecidableEq V]

/-- All entries of the tuple `mappings` in declaration order. -/
def mappings (tm : type_mapper T V) : List (type_mapping T V) := tm.first :: tm.rest

/-- Message of the `std::runtime_error` thrown by `static_map`. -/
def no_mapping : String := "No mapping found for the given value."

/-- The private recursive `map(value, tuple<Mapping, Mappings...>)`: `none` is
`std::monostate`, `some t` is `std::type_identity<t>`. -/
def map_tuple (value : V) : type_mapping T V → List (type_mapping T V) → Option T
  | m, [] => if value = m.mapper then some m.type else none
  | m, m2 :: ms => if value = m.mapper then some m.type else map_tuple value m2 ms

/-- The private recursive `static_map(value, tuple<Mapping, Mappings...>)`: `Except.error` is
the thrown `std::runtime_error`. -/
def static_map_tuple (value : V) : type_mapping T V → List (type_mapping T V) → Except String T
  | m, [] => if value = m.mapper then Except.ok m.type else Except.error no_mapping
  | m, m2 :: ms => if value = m.mapper then Except.ok m.type else static_map_tuple value m2 ms

/-- Public member `map`. -/
def map (tm : type_mapper T V) (value : V) : Option T :=
  map_tuple value tm.first tm.rest

/-- Public member `static_map`. -/
def static_map (tm : type_mapper T V) (value : V) : Except String T :=
  static_map_tuple value tm.first tm.rest

end type_mapper

/-- Table `vcmap` of `example/main.cpp`: keys are `std::array<int, 2>`. -/
def vcmap : type_mapper OffParser.VertexShape (Int × Int) :=
  ⟨⟨.vertex .v3, (0, -1)⟩,
   [⟨.colored_vertex .v3 .v3, (1, 3)⟩,
    ⟨.colored_vertex .v3 .v4, (1, 4)⟩,
    ⟨.optional_colored_vertex .v3 .v3, (2, 3)⟩,
    ⟨.optional_colored_vertex .v3 .v4, (2, 4)⟩]⟩

/-- Table `fcmap` of `example/main.cpp`. -/
def fcmap : type_mapper OffParser.FaceShape (Int × Int) :=
  ⟨⟨.face 16, (0, -1)⟩,
   [⟨.colored_face 16 .v3, (1, 3)⟩,
    ⟨.colored_face 16 .v4, (1, 4)⟩,
    ⟨.optional_colored_face 16 .v3, (2, 3)⟩,
    ⟨.optional_colored_face 16 .v4, (2, 4)⟩]⟩

/-- Table with two entries carrying the same key `(1, 3)`, used to instantiate the first-match
theorem. -/
def overlapping_table : type_mapper Nat (Int × Int) :=
  ⟨⟨0, (0, -1)⟩, [⟨1, (1, 3)⟩, ⟨2, (1, 3)⟩, ⟨3, (1, 4)⟩]⟩


/-! ## Vocabulary for statements about the text of a record -/

namespace OffParser

/-- Vector template of a vector value. -/
def Vec.kind : Vec → VecKind
  | .vec3 _ _ _ => .v3
  | .vec4 _ _ _ _ => .v4

/-- A run of spaces and tabs. -/
def Blanks (b : List Char) : Prop := ∀ c ∈ b, c = ' ' ∨ c = '\t'

/-- The text `t`, followed by whitespace, is converted by `num_get` to the unsigned `w`-bit
value `n` without failure and without leaving any of its characters. -/
def UnsignedToken (w : Nat) (t : List Char) (n : Nat) : Prop :=
  ∀ c rest, isspace c = true → (num_get_unsigned w (t ++ c :: rest)).value = n ∧
    (num_get_unsigned w (t ++ c :: rest)).fail = false ∧
    (num_get_unsigned w (t ++ c :: rest)).rest = c :: rest

/-- The text `t`, followed by whitespace, is converted by `num_get` to the scalar `d` without
failure and without leaving any of its characters. -/
def ScalarToken (t : List Char) (d : Decimal) : Prop :=
  ∀ c rest, isspace c = true → (num_get_double (t ++ c :: rest)).value = d ∧
    (num_get_double (t ++ c :: rest)).fail = false ∧
    (num_get_double (t ++ c :: rest)).rest = c :: rest

/-- Text of a sequence of fields, each a separator followed by a token. -/
def spaced : List (List Char × List Char) → List Char
  | [] => []
  | f :: fs => f.1 ++ (f.2 ++ spaced fs)

/-- Every field has a non-empty separator in front of its token. -/
def Separated (fs : List (List Char × List Char)) : Prop := ∀ f ∈ fs, f.1 ≠ []

/-- The fields are separated by blanks and their tokens read as the scalars `ds`, in order. -/
def ScalarFields (fs : List (List Char × List Char)) (ds : List Decimal) : Prop :=
  List.Forall₂ (fun f d => Blanks f.1 ∧ ScalarToken f.2 d) fs ds

/-- The fields are separated by blanks and their tokens read as the `w`-bit unsigned values
`ns`, in order. -/
def UnsignedFields (w : Nat) (fs : List (List Char × List Char)) (ns : List Nat) : Prop :=
  List.Forall₂ (fun f n => Blanks f.1 ∧ UnsignedToken w f.2 n) fs ns

/-- Whether the text begins with a whitespace character. -/
def starts_space : List Char → Bool
  | [] => false
  | c :: _ => isspace c

/-- Concatenation of pieces of text. -/
def concat_text : List (List Char) → List Char
  | [] => []
  | l :: ls => l ++ concat_text ls

/-- An empty line, or a line whose first character is the comment mark, with its newline. -/
def SkippedLine (l : List Char) : Prop :=
  l = ['\n'] ∨ ∃ body, '\n' ∉ body ∧ l = '#' :: (body ++ ['\n'])

/-- A block of empty lines and comment lines, in any interleaving. -/
def SkippedBlock (b : List Char) : Prop :=
  ∃ ls : List (List Char), (∀ l ∈ ls, SkippedLine l) ∧ b = concat_text ls

/-- What may follow the last field read on a line: nothing, or text that begins with
whitespace; it does not contain the newline that ends the line. -/
def LineRest (trail : List Char) : Prop :=
  '\n' ∉ trail ∧ starts_space (trail ++ ['\n']) = true

/-- The line holds one vertex record of shape `vs`: started at the beginning of the line, the
body of the vertex loop reads `v` and leaves the stream at the beginning of the next line,
whatever follows and whatever the indeterminate values are. -/
def VertexRecord (vs : VertexShape) (line : List Char) (v : Vertex) : Prop :=
  ∀ (u : Uninit) (i : Nat) (rest : List Char),
    parse_vertex vs u i (IStream.fresh (line ++ '\n' :: rest)) = (v, IStream.fresh rest)

/-- The line holds one face record of shape `fs`: started at the beginning of the line, the
body of the face loop reads `f` and leaves the stream at the beginning of the next line. -/
def FaceRecord (fs : FaceShape) (line : List Char) (f : Face) : Prop :=
  ∀ (u : Uninit) (i : Nat) (rest : List Char),
    parse_face fs u i (IStream.fresh (line ++ '\n' :: rest)) = (f, IStream.fresh rest)

/-- Text of a sequence of record lines, each ended by a newline and each preceded by a
(possibly empty) inserted block. -/
def records_text : List (List Char × List Char) → List Char
  | [] => []
  | r :: rs => r.1 ++ (r.2 ++ '\n' :: records_text rs)

/-- The same record line without the block inserted in front of it. -/
def without_block (r : List Char × List Char) : List Char × List Char := ([], r.2)

/-- Text of a counts line without its newline: three tokens separated by blanks, and trailing
blanks. -/
def counts_line (tV w1 tF w2 tE trail : List Char) : List Char :=
  tV ++ (w1 ++ (tF ++ (w2 ++ (tE ++ trail))))

/-- Text of a whole input: header line, counts line, vertex records, face records and whatever
follows the last record. -/
def off_text (header counts : List Char) (vrecs frecs : List (List Char × List Char))
    (after : List Char) : List Char :=
  header ++ '\n' :: (counts ++ '\n' :: (records_text vrecs ++ (records_text frecs ++ after)))

/-- An environment in which every indeterminate value is zero, for concrete instances. -/
def uninit_zero : Uninit :=
  ⟨0, 0, 0, fun _ _ => ⟨false, 0, 0⟩, fun _ _ => ⟨false, 0, 0⟩, fun _ => 0, fun _ _ => 0,
    fun _ _ => ⟨false, 0, 0⟩⟩

end OffParser

/-! ## Text of complete records -/

namespace OffParser

/-- The line is the text of the vertex record `v` of shape `vs`: its position tokens and, when
the record carries a colour, its colour tokens, separated by blanks, with nothing behind the
last token. -/
def VertexLine : VertexShape → List Char → Vertex → Prop
  | .vertex pk, line, .vertex p =>
    p.kind = pk ∧ ∃ pf, ScalarFields pf p.toList ∧ Separated pf.tail ∧ line = spaced pf
  | .colored_vertex pk ck, line, .colored_vertex p c =>
    p.kind = pk ∧ c.kind = ck ∧ ∃ pf cf, ScalarFields pf p.toList ∧ Separated pf.tail ∧
      ScalarFields cf c.toList ∧ Separated cf ∧ line = spaced pf ++ spaced cf
  | .optional_colored_vertex pk ck, line, .optional_colored_vertex p (some c) =>
    p.kind = pk ∧ c.kind = ck ∧ ∃ pf cf, ScalarFields pf p.toList ∧ Separated pf.tail ∧
      ScalarFields cf c.toList ∧ Separated cf ∧ line = spaced pf ++ spaced cf
  | .optional_colored_vertex pk _, line, .optional_colored_vertex p none =>
    p.kind = pk ∧ ∃ pf, ScalarFields pf p.toList ∧ Separated pf.tail ∧ line = spaced pf
  | _, _, _ => False

/-- The line is the text of the face record `f` of shape `fs`: the count token, as many index
tokens as the count says and, when the record carries a colour, its colour tokens, separated
by blanks, with nothing behind the last token. -/
def FaceLine : FaceShape → List Char → Face → Prop
  | .face w, line, .face ns =>
    ∃ tk idxf, UnsignedToken 64 tk ns.length ∧ UnsignedFields w idxf ns ∧ Separated idxf ∧
      line = tk ++ spaced idxf
  | .colored_face w ck, line, .colored_face ns c =>
    c.kind = ck ∧ ∃ tk idxf cf, UnsignedToken 64 tk ns.length ∧ UnsignedFields w idxf ns ∧
      Separated idxf ∧ ScalarFields cf c.toList ∧ Separated cf ∧
      line = tk ++ (spaced idxf ++ spaced cf)
  | .optional_colored_face w ck, line, .optional_colored_face ns (some c) =>
    c.kind = ck ∧ ∃ tk idxf cf, UnsignedToken 64 tk ns.length ∧ UnsignedFields w idxf ns ∧
      Separated idxf ∧ ScalarFields cf c.toList ∧ Separated cf ∧
      line = tk ++ (spaced idxf ++ spaced cf)
  | .optional_colored_face w _, line, .optional_colored_face ns none =>
    ∃ tk idxf, UnsignedToken 64 tk ns.length ∧ UnsignedFields w idxf ns ∧ Separated idxf ∧
      line = tk ++ spaced idxf
  | _, _, _ => False

/-- The record is of an optional-coloured shape and has no colour: after its last token the
reader still looks for a colour on the line. -/
def Vertex.color_pending : Vertex → Bool
  | .optional_colored_vertex _ none => true
  | _ => false

/-- The record is of an optional-coloured shape and has no colour. -/
def Face.color_pending : Face → Bool
  | .optional_colored_face _ none => true
  | _ => false

/-- Fields separated by arbitrary whitespace (newlines included) whose tokens read as the
scalars `ds`, in order. -/
def WsScalarFields (fs : List (List Char × List Char)) (ds : List Decimal) : Prop :=
  List.Forall₂ (fun f d => (∀ x ∈ f.1, isspace x = true) ∧ ScalarToken f.2 d) fs ds

/-- The same fields with every separator replaced by one space. -/
def on_one_line (fs : List (List Char × List Char)) : List (List Char × List Char) :=
  fs.map (fun f => ([' '], f.2))

end OffParser

/-! ## Canonical text of a mesh -/

namespace OffParser

/-- Components of an optional colour: none when the colour is absent. -/
def option_components : Option Vec → List Decimal
  | none => []
  | some c => c.toList

/-- Scalars of a vertex record: its position components, then its colour components. -/
def Vertex.scalars (v : Vertex) : List Decimal :=
  v.position.toList ++ option_components v.color

/-- Scalars of a face record: its colour components. -/
def Face.scalars (f : Face) : List Decimal :=
  option_components f.color

/-- The vertex record is a value of the vertex type `vs`. -/
def Vertex.has_shape : VertexShape → Vertex → Prop
  | .vertex pk, .vertex p => p.kind = pk
  | .colored_vertex pk ck, .colored_vertex p c => p.kind = pk ∧ c.kind = ck
  | .optional_colored_vertex pk ck, .optional_colored_vertex p (some c) =>
    p.kind = pk ∧ c.kind = ck
  | .optional_colored_vertex pk _, .optional_colored_vertex p none => p.kind = pk
  | _, _ => False

/-- The face record is a value of the face type `fs`. -/
def Face.has_shape : FaceShape → Face → Prop
  | .face _, .face _ => True
  | .colored_face _ ck, .colored_face _ c => c.kind = ck
  | .optional_colored_face _ ck, .optional_colored_face _ (some c) => c.kind = ck
  | .optional_colored_face _ _, .optional_colored_face _ none => True
  | _, _ => False

/-- Printed scalars, each preceded by one space. -/
def scalar_fields_text (ps : Decimal → List Char) (ds : List Decimal) :
    List (List Char × List Char) :=
  ds.map (fun d => ([' '], ps d))

/-- Printed indices, each preceded by one space. -/
def index_fields_text (pi : Nat → List Char) (ns : List Nat) : List (List Char × List Char) :=
  ns.map (fun n => ([' '], pi n))

/-- The same fields without the separator in front of the first one. -/
def first_unspaced : List (List Char × List Char) → List (List Char × List Char)
  | [] => []
  | f :: fs => ([], f.2) :: fs

/-- Canonical line of a vertex, as the round-trip property describes the writer: the position
components and, if present, the colour components, separated by single spaces. -/
def write_vertex (ps : Decimal → List Char) (v : Vertex) : List Char :=
  spaced (first_unspaced (scalar_fields_text ps v.position.toList))
    ++ spaced (scalar_fields_text ps (option_components v.color))

/-- Canonical line of a face: the number of indices, the indices and, if present, the colour
components, separated by single spaces. -/
def write_face (pn pi : Nat → List Char) (ps : Decimal → List Char) (f : Face) : List Char :=
  pn f.vertex_indices.length
    ++ (spaced (index_fields_text pi f.vertex_indices)
      ++ spaced (scalar_fields_text ps (option_components f.color)))

/-- Canonical OFF text of a mesh, as the round-trip property describes the external writer: the
header line `OFF`, the counts line `V F E`, one line per vertex and one line per face, each
line ended by a newline.  `ps`, `pn` and `pi` print a scalar, a count and an index. -/
def write_off (ps : Decimal → List Char) (pn pi : Nat → List Char) (m : Mesh) : List Char :=
  off_text ['O', 'F', 'F']
    (counts_line (pn m.vertices.length) [' '] (pn m.faces.length) [' '] (pn m.n_edges) [])
    (m.vertices.map (fun v => ([], write_vertex ps v)))
    (m.faces.map (fun f => ([], write_face pn pi ps f))) []

end OffParser

/-! ## Streams that have nothing more to give -/

namespace OffParser

/-- A small mesh with an absent and a present optional colour, for concrete instances. -/
def small_mesh : Mesh :=
  ⟨[.optional_colored_vertex (.vec3 (.ofNat 0) (.ofNat 0) (.ofNat 0)) none,
    .optional_colored_vertex (.vec3 (.ofNat 1) (.ofNat 0) (.ofNat 0))
      (some (.vec3 (.ofNat 1) (.ofNat 1) (.ofNat 0)))],
   [.face [0, 1]], 1⟩

/-- Printer of the counts and indices of `small_mesh`: one decimal digit. -/
def print_small_nat (n : Nat) : List Char := [Char.ofNat (48 + n)]

/-- Printer of the scalars of `small_mesh`: one decimal digit. -/
def print_small_scalar (d : Decimal) : List Char := [Char.ofNat (48 + d.digits)]

/-- The stream is not good, or it is good with no character left: every extraction from it
fails. -/
def Exhausted (s : IStream) : Prop := s.good = false ∨ s.buf = []

/-- A fresh vector on which no extraction stored anything: its components are the
indeterminate values. -/
def uninit_vec (k : VecKind) (init : Nat → Decimal) : Vec :=
  match k with
  | .v3 => .vec3 (init 0) (init 1) (init 2)
  | .v4 => .vec4 (init 0) (init 1) (init 2) (init 3)

/-- Vertex `i` when no extraction of its loop iteration stored anything (an optional colour is
then present, with indeterminate components, because the next character is not a newline). -/
def uninit_vertex (vs : VertexShape) (u : Uninit) (i : Nat) : Vertex :=
  match vs with
  | .vertex pk => .vertex (uninit_vec pk (u.position i))
  | .colored_vertex pk ck =>
    .colored_vertex (uninit_vec pk (u.position i)) (uninit_vec ck (u.vertex_color i))
  | .optional_colored_vertex pk ck =>
    .optional_colored_vertex (uninit_vec pk (u.position i))
      (some (uninit_vec ck (u.vertex_color i)))

/-- Face `i` when no extraction of its loop iteration stored anything: as many indices as the
indeterminate count says, each indeterminate. -/
def uninit_face (fs : FaceShape) (u : Uninit) (i : Nat) : Face :=
  match fs with
  | .face _ => .face ((List.range' 0 (u.n_vertices_in_face i)).map (u.index i))
  | .colored_face _ ck =>
    .colored_face ((List.range' 0 (u.n_vertices_in_face i)).map (u.index i))
      (uninit_vec ck (u.face_color i))
  | .optional_colored_face _ ck =>
    .optional_colored_face ((List.range' 0 (u.n_vertices_in_face i)).map (u.index i))
      (some (uninit_vec ck (u.face_color i)))

end OffParser

/-! ## The count declared at the start of a face record -/

namespace OffParser

/-- Value of `n_vertices_in_face` in iteration `i` of the face loop, after
`input >> n_vertices_in_face`: the count the record declares. -/
def declared_index_count (u : Uninit) (i : Nat) (input : IStream) : Nat :=
  ((ignore_comment_or_empty_lines input).extract_unsigned 64 (u.n_vertices_in_face i)).1

/-- The values of `n_vertices_in_face` over the iterations of the face loop, in order. -/
def declared_index_counts (sh : FaceShape) (u : Uninit) : Nat → Nat → IStream → List Nat
  | 0, _, _ => []
  | n + 1, i, input =>
    declared_index_count u i input
      :: declared_index_counts sh u n (i + 1) (parse_face sh u i input).2

/-- The values of `n_vertices_in_face` over the face loop of a whole run of `parse`. -/
def parse_declared_index_counts (vs : VertexShape) (fs : FaceShape) (u : Uninit)
    (input : IStream) : List Nat :=
  let c := parse_counts u input
  let s := ignore_until_newline c.input
  let v := parse_vertices vs u c.n_vertices 0 s
  declared_index_counts fs u c.n_faces 0 v.2

end OffParser

/-! ## The loop of `ignore_comment_or_empty_lines`, with its termination made explicit -/

namespace OffParser

/-- The `while (!input.eof())` loop of `ignore_comment_or_empty_lines` run for at most `fuel`
iterations: `some` is the stream at the moment the function returns, `none` means that the loop
is still running when the fuel is used up. -/
def ignore_comment_or_empty_lines_run : Nat → IStream → Option IStream
  | 0, _ => none
  | fuel + 1, input =>
    if input.eof then some input
    else
      let p := input.peek
      if p.1 = some '\n' then ignore_comment_or_empty_lines_run fuel p.2.ignore
      else if p.1 = some '#' then ignore_comment_or_empty_lines_run fuel (ignore_until_newline p.2)
      else some p.2

/-- A comment line cut short by the end of the input: the comment mark and characters without
a newline. -/
def UnterminatedComment (l : List Char) : Prop :=
  ∃ body, '\n' ∉ body ∧ l = '#' :: body

/-- The text `block`, followed in the input by `rest`, is made of whole lines that are empty or
begin with the comment mark; the last of them may lack its newline only if the input ends
there. -/
def SkippedPrefix (block rest : List Char) : Prop :=
  SkippedBlock block ∨
    (rest = [] ∧ ∃ b l, SkippedBlock b ∧ UnterminatedComment l ∧ block = b ++ l)

/-- Stream over `rest` after the skipping loop has consumed everything before `rest`: at the end
of the input `eofbit` is set, otherwise the stream is untouched. -/
def after_skipped (rest : List Char) : IStream :=
  if rest = [] then ⟨[], true, false⟩ else IStream.fresh rest

end OffParser

/-! ## `parse` with its `reserve` calls -/

namespace OffParser

/-- What a run of `parse` ends with: the value returned, or one of the two exceptions that
`std::vector::reserve` throws (`parse` has no `try`, so they leave `parse`). -/
inductive Outcome (α : Type) where
  | returned (value : α)
  | length_error
  | bad_alloc
deriving DecidableEq

/-- Apply a function to the value returned, if any. -/
def Outcome.map {α β : Type} (f : α → β) : Outcome α → Outcome β
  | .returned a => .returned (f a)
  | .length_error => .length_error
  | .bad_alloc => .bad_alloc

/-- The environment of the three vectors that `parse` fills: the `max_size()` of
`mesh.vertices`, of `mesh.faces` and of a face's `vertex_indices`, and for each `reserve` call
whether the allocation of the requested capacity succeeds (for `vertex_indices` per iteration
of the face loop). -/
structure Storage where
  vertices_max_size : Nat
  faces_max_size : Nat
  indices_max_size : Nat
  vertices_alloc : Nat → Bool
  faces_alloc : Nat → Bool
  indices_alloc : Nat → Nat → Bool

/-- Member `std::vector::reserve(n)` of an empty vector: `std::length_error` when `n` exceeds
`max_size()`; otherwise nothing happens for `n = 0` (the capacity is not smaller), and for a
positive `n` the storage is allocated, which throws `std::bad_alloc` when it fails. -/
def reserve (max_size : Nat) (alloc : Nat → Bool) (n : Nat) : Outcome Unit :=
  if max_size < n then .length_error
  else if n = 0 then .returned ()
  else if alloc n then .returned () else .bad_alloc

/-- Body of the face loop of source `parse` for iteration `i`, with
`face.vertex_indices.reserve(n_vertices_in_face)`.  The `push_back` calls of the index loop stay
within the reserved capacity (at most `n_vertices_in_face` of them) and `emplace_back` stays
within the capacity reserved for `mesh.faces`, so nothing else allocates. -/
def parse_face_outcome (st : Storage) (sh : FaceShape) (u : Uninit) (i : Nat)
    (input : IStream) : Outcome (Face × IStream) :=
  let s0 := ignore_comment_or_empty_lines input
  let k := s0.extract_unsigned 64 (u.n_vertices_in_face i)
  match reserve st.indices_max_size (st.indices_alloc i) k.1 with
  | .length_error => .length_error
  | .bad_alloc => .bad_alloc
  | .returned _ =>
    let l := parse_indices sh.index_bits u i k.1 0 k.2
    match sh with
    | .face _ => .returned (Face.face l.1, ignore_until_newline l.2)
    | .colored_face _ ck =>
      let c := parse_vec ck (u.face_color i) l.2
      .returned (Face.colored_face l.1 c.1, ignore_until_newline c.2)
    | .optional_colored_face _ ck =>
      let c := parse_vec_within_line ck (u.face_color i) l.2
      .returned (Face.optional_colored_face l.1 c.1, ignore_until_newline c.2)

/-- The face loop of source `parse`, ended by the first exception. -/
def parse_faces_outcome (st : Storage) (sh : FaceShape) (u : Uninit) :
    Nat → Nat → IStream → Outcome (List Face × IStream)
  | 0, _, input => .returned ([], input)
  | n + 1, i, input =>
    match parse_face_outcome st sh u i input with
    | .length_error => .length_error
    | .bad_alloc => .bad_alloc
    | .returned f =>
      match parse_faces_outcome st sh u n (i + 1) f.2 with
      | .length_error => .length_error
      | .bad_alloc => .bad_alloc
      | .returned r => .returned (f.1 :: r.1, r.2)

/-- Source `parse<MeshT>` statement by statement, with `mesh.vertices.reserve(n_vertices)`,
`mesh.faces.reserve(n_faces)` and the `reserve` of each face: the mesh returned, or the
exception that leaves `parse`.  The vertex loop pushes `n_vertices` records into the capacity
reserved for them, so it does not allocate. -/
def parse_outcome (st : Storage) (vs : VertexShape) (fs : FaceShape) (u : Uninit)
    (input : IStream) : Outcome Mesh :=
  let c := parse_counts u input
  match reserve st.vertices_max_size st.vertices_alloc c.n_vertices with
  | .length_error => .length_error
  | .bad_alloc => .bad_alloc
  | .returned _ =>
    match reserve st.faces_max_size st.faces_alloc c.n_faces with
    | .length_error => .length_error
    | .bad_alloc => .bad_alloc
    | .returned _ =>
      let s := ignore_until_newline c.input
      let v := parse_vertices vs u c.n_vertices 0 s
      match parse_faces_outcome st fs u c.n_faces 0 v.2 with
      | .length_error => .length_error
      | .bad_alloc => .bad_alloc
      | .returned f => .returned ⟨v.1, f.1, c.n_edges⟩

/-- The `reserve` calls of the face loop for the counts `ks` of the iterations from `i` on: the
first exception thrown, if any. -/
def reserve_indices (st : Storage) : Nat → List Nat → Outcome Unit
  | _, [] => .returned ()
  | i, k :: ks =>
    match reserve st.indices_max_size (st.indices_alloc i) k with
    | .length_error => .length_error
    | .bad_alloc => .bad_alloc
    | .returned _ => reserve_indices st (i + 1) ks

/-- All `reserve` calls of a run of `parse`, in the order of the source: for the vertex count
`nv`, for the face count `nf`, and for the index counts `ks` of the faces. -/
def reserve_all (st : Storage) (nv nf : Nat) (ks : List Nat) : Outcome Unit :=
  match reserve st.vertices_max_size st.vertices_alloc nv with
  | .length_error => .length_error
  | .bad_alloc => .bad_alloc
  | .returned _ =>
    match reserve st.faces_max_size st.faces_alloc nf with
    | .length_error => .length_error
    | .bad_alloc => .bad_alloc
    | .returned _ => reserve_indices st 0 ks

/-- A storage for concrete instances: the `max_size()` of a vector whose elements take the
given number of bytes where `PTRDIFF_MAX` is `2 ^ 63 - 1`, and allocations that never fail. -/
def ample_storage (vertex_bytes face_bytes index_bytes : Nat) : Storage :=
  ⟨(2 ^ 63 - 1) / vertex_bytes, (2 ^ 63 - 1) / face_bytes, (2 ^ 63 - 1) / index_bytes,
    fun _ => true, fun _ => true, fun _ _ => true⟩

/-- An environment of indeterminate values other than zero, for concrete instances: every
never-stored count is the largest `std::size_t` and every never-stored scalar is 7. -/
def uninit_large : Uninit :=
  ⟨2 ^ 64 - 1, 2 ^ 64 - 1, 2 ^ 64 - 1, fun _ _ => ⟨false, 7, 0⟩, fun _ _ => ⟨false, 7, 0⟩,
    fun _ => 2 ^ 64 - 1, fun _ _ => 65535, fun _ _ => ⟨false, 7, 0⟩⟩

/-- What a run of `parse` ends with for a freshly opened stream over the given text. -/
def parse_text_outcome (st : Storage) (vs : VertexShape) (fs : FaceShape) (u : Uninit)
    (text : String) : Outcome Mesh :=
  parse_outcome st vs fs u (IStream.fresh text.toList)

end OffParser

/-! ## example/main.cpp: argument validation -/

/-- Values `program.get` returns once `parse_args` has succeeded: the three flags of each
mutually exclusive group and the two channel counts. -/
structure Arguments where
  nvc : Bool
  vc : Bool
  ovc : Bool
  vcc : Int
  nfc : Bool
  fc : Bool
  ofc : Bool
  fcc : Int

/-- Source `is_one_of`. -/
def is_one_of (value : Int) (valid_values : List Int) : Bool :=
  decide (value ∈ valid_values)

/-- The checks of `main` after `parse_args`: `Except.error` is the `std::invalid_argument`
thrown, with its message. -/
def argument_validation (a : Arguments) : Except String Unit :=
  if !is_one_of a.vcc [3, 4] then
    Except.error "The number of vertex color channel must be 3 (RGB) or 4 (RGBA)."
  else if !is_one_of a.fcc [3, 4] then
    Except.error "The number of face color channel must be 3 (RGB) or 4 (RGBA)."
  else if a.vc && a.fc then
    Except.error "OFF file should not have both colored vertex and colored face."
  else Except.ok ()

/-- What `main` does with the outcome of the checks: the handler for `std::invalid_argument`
returns 2; `none` means that `main` goes on to `parse_file_and_print_result`. -/
def main_validation_status (a : Arguments) : Option Nat :=
  match argument_validation a with
  | Except.error _ => some 2
  | Except.ok _ => none

/-- The three colour modes of a mutually exclusive group. -/
inductive ColorMode where
  | disabled
  | mandatory
  | optional
deriving DecidableEq

/-- Arguments in which exactly the flag of the chosen vertex mode and the flag of the chosen
face mode are set. -/
def arguments_of (vm fm : ColorMode) (vcc fcc : Int) : Arguments :=
  ⟨decide (vm = .disabled), decide (vm = .mandatory), decide (vm = .optional), vcc,
   decide (fm = .disabled), decide (fm = .mandatory), decide (fm = .optional), fcc⟩

/-! ## example/main.cpp: selection of the mesh type -/

/-- The lambda initialising `parse_vertex_color` in `parse_file_and_print_result`: `none` is the
call of `unreachable()`, which ends the process. -/
def parse_vertex_color (a : Arguments) : Option Int :=
  if a.nvc then some 0 else if a.vc then some 1 else if a.ovc then some 2 else none

/-- Initialiser of `n_vertex_color_channel`. -/
def n_vertex_color_channel (a : Arguments) (mode : Int) : Int :=
  if mode = 0 then -1 else a.vcc

/-- The lambda initialising `parse_face_color`. -/
def parse_face_color (a : Arguments) : Option Int :=
  if a.nfc then some 0 else if a.fc then some 1 else if a.ofc then some 2 else none

/-- Initialiser of `n_face_color_channel`. -/
def n_face_color_channel (a : Arguments) (mode : Int) : Int :=
  if mode = 0 then -1 else a.fcc

/-- First variant argument of `std::visit`: `vcmap.static_map(std::array { parse_vertex_color,
n_vertex_color_channel })`; `none` when `unreachable()` was called before. -/
def vertex_type_lookup (a : Arguments) : Option (Except String OffParser.VertexShape) :=
  (parse_vertex_color a).map (fun mode => vcmap.static_map (mode, n_vertex_color_channel a mode))

/-- Second variant argument of `std::visit`: `fcmap.static_map(std::array { parse_face_color,
n_face_color_channel })`. -/
def face_type_lookup (a : Arguments) : Option (Except String OffParser.FaceShape) :=
  (parse_face_color a).map (fun mode => fcmap.static_map (mode, n_face_color_channel a mode))

/-! # Theorems -/

namespace type_mapper

variable {T V : Type} [DecidableEq V]

theorem map_tuple_eq_find (value : V) (m : type_mapping T V) (ms : List (type_mapping T V)) :
    map_tuple value m ms
      = ((m :: ms).find? (fun e => decide (value = e.mapper))).map (fun e => e.type) := by
  induction ms generalizing m with
  | nil => by_cases h : value = m.mapper <;> simp [map_tuple, List.find?, h]
  | cons m2 ms ih =>
    by_cases h : value = m.mapper
    · simp [map_tuple, List.find?, h]
    · rw [map_tuple, if_neg h, ih m2]
      simp [List.find?, h]

theorem static_map_tuple_eq_find (value : V) (m : type_mapping T V)
    (ms : List (type_mapping T V)) :
    static_map_tuple value m ms
      = match (m :: ms).find? (fun e => decide (value = e.mapper)) with
        | some e => Except.ok e.type
        | none => Except.error no_mapping := by
  induction ms generalizing m with
  | nil => by_cases h : value = m.mapper <;> simp [static_map_tuple, List.find?, h]
  | cons m2 ms ih =>
    by_cases h : value = m.mapper
    · simp [static_map_tuple, List.find?, h]
    · rw [static_map_tuple, if_neg h, ih m2]
      simp [List.find?, h]

end type_mapper

namespace type_mapper

variable {T V : Type} [DecidableEq V]

theorem map_eq_find (tm : type_mapper T V) (value : V) :
    tm.map value
      = (tm.mappings.find? (fun e => decide (value = e.mapper))).map (fun e => e.type) :=
  map_tuple_eq_find value tm.first tm.rest

theorem static_map_eq_find (tm : type_mapper T V) (value : V) :
    tm.static_map value
      = match tm.mappings.find? (fun e => decide (value = e.mapper)) with
        | some e => Except.ok e.type
        | none => Except.error no_mapping :=
  static_map_tuple_eq_find value tm.first tm.rest

theorem find_first_match (value : V) (pre post : List (type_mapping T V)) (e : type_mapping T V)
    (hpre : ∀ x ∈ pre, x.mapper ≠ value) (he : e.mapper = value) :
    (pre ++ e :: post).find? (fun x => decide (value = x.mapper)) = some e := by
  induction pre with
  | nil => simp [List.find?, he]
  | cons a pre ih =>
    have ha : ¬ value = a.mapper := fun h => hpre a (List.mem_cons_self _ _) h.symm
    have ih2 := ih (fun x hx => hpre x (List.mem_cons_of_mem _ hx))
    simpa [List.find?, ha] using ih2

theorem find_sound (value : V) (l : List (type_mapping T V)) (e : type_mapping T V)
    (h : l.find? (fun x => decide (value = x.mapper)) = some e) : e ∈ l ∧ e.mapper = value := by
  refine ⟨List.mem_of_find?_eq_some h, ?_⟩
  have := List.find?_some h
  simpa using (of_decide_eq_true this).symm

theorem find_none_iff (value : V) (l : List (type_mapping T V)) :
    l.find? (fun x => decide (value = x.mapper)) = none ↔ ∀ e ∈ l, e.mapper ≠ value := by
  rw [List.find?_eq_none]
  constructor
  · intro h e he hv
    exact h e he (by simp [hv])
  · intro h e he
    simpa using fun hv : value = e.mapper => h e he hv.symm

/-- C2. The strict lookup `static_map` returns the shape declared for the key whenever some
table entry carries the queried key, and it throws (the `std::runtime_error` with the message
"No mapping found for the given value.") if and only if no entry carries the queried key. -/
theorem static_map_strict (tm : type_mapper T V) (value : V) :
    ((∃ e ∈ tm.mappings, e.mapper = value) →
        ∃ e ∈ tm.mappings, e.mapper = value ∧ tm.static_map value = Except.ok e.type) ∧
    ((∃ msg, tm.static_map value = Except.error msg) ↔ ∀ e ∈ tm.mappings, e.mapper ≠ value) ∧
    (∀ msg, tm.static_map value = Except.error msg →
        msg = "No mapping found for the given value.") := by
  rw [static_map_eq_find]
  cases hf : tm.mappings.find? (fun e => decide (value = e.mapper)) with
  | none =>
    have hn := (find_none_iff value tm.mappings).1 hf
    refine ⟨?_, ?_, ?_⟩
    · rintro ⟨e, he, hv⟩
      exact absurd hv (hn e he)
    · exact ⟨fun _ => hn, fun _ => ⟨no_mapping, rfl⟩⟩
    · intro msg h
      simpa [no_mapping] using (Except.error.inj h).symm
  | some e =>
    have hs := find_sound value tm.mappings e hf
    refine ⟨fun _ => ⟨e, hs.1, hs.2, rfl⟩, ?_, ?_⟩
    · constructor
      · rintro ⟨msg, h⟩
        cases h
      · intro h
        exact absurd hs.2 (h e hs.1)
    · intro msg h
      cases h

/-- C3. The fallible lookup `map` is a total function into the tagged union (it cannot throw):
it returns `std::monostate` exactly when no table entry carries the queried key, and otherwise
the shape of an entry that carries it. -/
theorem map_fallible (tm : type_mapper T V) (value : V) :
    (tm.map value = none ↔ ∀ e ∈ tm.mappings, e.mapper ≠ value) ∧
    (tm.map value ≠ none →
        ∃ e ∈ tm.mappings, e.mapper = value ∧ tm.map value = some e.type) := by
  rw [map_eq_find]
  cases hf : tm.mappings.find? (fun e => decide (value = e.mapper)) with
  | none =>
    have hn := (find_none_iff value tm.mappings).1 hf
    exact ⟨⟨fun _ => hn, fun _ => rfl⟩, fun h => absurd rfl h⟩
  | some e =>
    have hs := find_sound value tm.mappings e hf
    exact ⟨⟨fun h => (nomatch h), fun h => absurd hs.2 (h e hs.1)⟩, fun _ => ⟨e, hs.1, hs.2, rfl⟩⟩

/-- C4. First match wins, on equality of the whole key: when the table is `pre ++ e :: post`,
no entry of `pre` carries the queried pair and `e` does, both `map` and `static_map` return the
shape of `e`; if the shapes of the table are pairwise different (as the variant result type
requires), no entry declared after `e` is selected, and an entry whose key agrees with the
query in only one component of the pair is never selected. -/
theorem first_match_wins (tm : type_mapper T (Int × Int)) (value : Int × Int)
    (pre post : List (type_mapping T (Int × Int))) (e : type_mapping T (Int × Int))
    (htable : tm.mappings = pre ++ e :: post)
    (hpre : ∀ x ∈ pre, x.mapper ≠ value) (he : e.mapper = value) :
    tm.map value = some e.type ∧ tm.static_map value = Except.ok e.type ∧
    ((tm.mappings.map (fun x => x.type)).Nodup →
      (∀ l ∈ post, tm.map value ≠ some l.type ∧ tm.static_map value ≠ Except.ok l.type) ∧
      (∀ x ∈ tm.mappings,
        (x.mapper.1 = value.1 ∧ x.mapper.2 ≠ value.2) ∨
          (x.mapper.1 ≠ value.1 ∧ x.mapper.2 = value.2) →
        tm.map value ≠ some x.type ∧ tm.static_map value ≠ Except.ok x.type)) := by
  have hfind := find_first_match value pre post e hpre he
  have hm : tm.map value = some e.type := by rw [map_eq_find, htable, hfind]; rfl
  have hs : tm.static_map value = Except.ok e.type := by rw [static_map_eq_find, htable, hfind]
  refine ⟨hm, hs, fun hnd => ?_⟩
  have hinj : ∀ x ∈ tm.mappings, x.type = e.type → x = e := by
    intro x hx hxe
    have hemem : e ∈ tm.mappings := by rw [htable]; simp
    exact List.inj_on_of_nodup_map hnd hx hemem hxe
  have hne : ∀ x ∈ tm.mappings, x ≠ e →
      tm.map value ≠ some x.type ∧ tm.static_map value ≠ Except.ok x.type := by
    intro x hx hxe
    rw [hm, hs]
    constructor
    · intro h
      exact hxe (hinj x hx (Option.some.inj h).symm)
    · intro h
      exact hxe (hinj x hx (Except.ok.inj h).symm)
  constructor
  · intro l hl
    have hlmem : l ∈ tm.mappings := by rw [htable]; simp [hl]
    refine hne l hlmem ?_
    intro hle
    subst hle
    rw [htable] at hnd
    simp only [List.map_append, List.map_cons] at hnd
    have h2 := (List.nodup_append.1 hnd).2.1
    have h3 := (List.nodup_cons.1 h2).1
    exact h3 (List.mem_map_of_mem _ hl)
  · intro x hx hpart
    refine hne x hx ?_
    intro hxe
    subst hxe
    rcases hpart with ⟨_, h2⟩ | ⟨h1, _⟩
    · exact h2 (by rw [he])
    · exact h1 (by rw [he])

end type_mapper

/-- Instance of C4 on a table whose second and third entries share the key `(1, 3)`. -/
theorem first_match_wins_witness :
    overlapping_table.map (1, 3) = some 1 ∧
    overlapping_table.static_map (1, 3) = Except.ok 1 ∧
    overlapping_table.map (1, 3) ≠ some 2 ∧
    overlapping_table.map (1, 3) ≠ some 3 := by
  have h := type_mapper.first_match_wins overlapping_table (1, 3)
    [⟨0, (0, -1)⟩] [⟨2, (1, 3)⟩, ⟨3, (1, 4)⟩] ⟨1, (1, 3)⟩ rfl (by decide) rfl
  refine ⟨h.1, h.2.1, ?_, ?_⟩
  · exact ((h.2.2 (by decide)).1 ⟨2, (1, 3)⟩ (by simp)).1
  · exact ((h.2.2 (by decide)).2 ⟨3, (1, 4)⟩ (by simp [type_mapper.mappings, overlapping_table])
      (Or.inl ⟨rfl, by decide⟩)).1

namespace OffParser

/-! ## Characters -/

theorem isspace_cases {c : Char} (h : isspace c = true) :
    c = ' ' ∨ c = '\t' ∨ c = '\n' ∨ c = '\x0b' ∨ c = '\x0c' ∨ c = '\r' := by
  simpa [isspace, or_assoc] using h

theorem isspace_not_digit {c : Char} (h : isspace c = true) : c.isDigit = false := by
  rcases isspace_cases h with h | h | h | h | h | h <;> subst h <;> decide

theorem isspace_not_sign {c : Char} (h : isspace c = true) : c ≠ '-' ∧ c ≠ '+' := by
  rcases isspace_cases h with h | h | h | h | h | h <;> subst h <;> decide

theorem isspace_not_point {c : Char} (h : isspace c = true) : c ≠ '.' ∧ c ≠ 'e' ∧ c ≠ 'E' := by
  rcases isspace_cases h with h | h | h | h | h | h <;> subst h <;> decide

theorem blank_isspace {c : Char} (h : c = ' ' ∨ c = '\t') : isspace c = true := by
  rcases h with h | h <;> subst h <;> decide

theorem blank_ne_newline {c : Char} (h : c = ' ' ∨ c = '\t') : c ≠ '\n' := by
  rcases h with h | h <;> subst h <;> decide

theorem blank_ne_hash {c : Char} (h : c = ' ' ∨ c = '\t') : c ≠ '#' := by
  rcases h with h | h <;> subst h <;> decide

/-! ## Whitespace skipping and the sentry -/

theorem skipws_append_of_space (ws l : List Char) (h : ∀ c ∈ ws, isspace c = true) :
    skipws (ws ++ l) = skipws l := by
  induction ws with
  | nil => rfl
  | cons a ws ih =>
    have ha : isspace a = true := h a (List.mem_cons_self _ _)
    simp only [List.cons_append, skipws, ha, if_true]
    exact ih (fun c hc => h c (List.mem_cons_of_mem _ hc))

theorem skipws_cons_of_not_space (c : Char) (l : List Char) (h : isspace c = false) :
    skipws (c :: l) = c :: l := by
  simp [skipws, h]

theorem sentry_fresh (ws : List Char) (c : Char) (l : List Char)
    (hws : ∀ x ∈ ws, isspace x = true) (hc : isspace c = false) :
    (IStream.fresh (ws ++ c :: l)).sentry = (true, IStream.fresh (c :: l)) := by
  simp [IStream.sentry, IStream.fresh, IStream.good, skipws_append_of_space ws _ hws,
    skipws_cons_of_not_space c l hc]

/-! ## Tokens -/

theorem span_digits_of_not_digit (c : Char) (l : List Char) (h : c.isDigit = false) :
    span_digits (c :: l) = ([], c :: l) := by
  simp [span_digits, h]

theorem num_get_unsigned_space (w : Nat) (c : Char) (l : List Char) (h : isspace c = true) :
    (num_get_unsigned w (c :: l)).fail = true := by
  have h1 := isspace_not_sign h
  simp [num_get_unsigned, take_sign, h1.1, h1.2, span_digits_of_not_digit c l (isspace_not_digit h)]

theorem num_get_double_space (c : Char) (l : List Char) (h : isspace c = true) :
    (num_get_double (c :: l)).fail = true := by
  have h1 := isspace_not_sign h
  have h2 := isspace_not_point h
  simp [num_get_double, take_sign, take_fraction, h1.1, h1.2, h2.1,
    span_digits_of_not_digit c l (isspace_not_digit h)]

theorem unsigned_token_head {w : Nat} {t : List Char} {n : Nat} (h : UnsignedToken w t n) :
    ∃ c cs, t = c :: cs ∧ isspace c = false := by
  cases t with
  | nil =>
    have := (h ' ' [] (by decide)).2.1
    rw [List.nil_append, num_get_unsigned_space w ' ' [] (by decide)] at this
    cases this
  | cons c cs =>
    refine ⟨c, cs, rfl, ?_⟩
    cases hc : isspace c with
    | false => rfl
    | true =>
      have := (h ' ' [] (by decide)).2.1
      rw [List.cons_append, num_get_unsigned_space w c _ hc] at this
      cases this

theorem scalar_token_head {t : List Char} {d : Decimal} (h : ScalarToken t d) :
    ∃ c cs, t = c :: cs ∧ isspace c = false := by
  cases t with
  | nil =>
    have := (h ' ' [] (by decide)).2.1
    rw [List.nil_append, num_get_double_space ' ' [] (by decide)] at this
    cases this
  | cons c cs =>
    refine ⟨c, cs, rfl, ?_⟩
    cases hc : isspace c with
    | false => rfl
    | true =>
      have := (h ' ' [] (by decide)).2.1
      rw [List.cons_append, num_get_double_space c _ hc] at this
      cases this

theorem starts_space_iff {l : List Char} (h : starts_space l = true) :
    ∃ c cs, l = c :: cs ∧ isspace c = true := by
  cases l with
  | nil => cases h
  | cons c cs => exact ⟨c, cs, rfl, h⟩

/-- Extraction of an unsigned token that stands after whitespace and before whitespace. -/
theorem extract_unsigned_token (w : Nat) (ws t tail : List Char) (n old : Nat)
    (hws : ∀ x ∈ ws, isspace x = true) (ht : UnsignedToken w t n)
    (htail : starts_space tail = true) :
    (IStream.fresh (ws ++ (t ++ tail))).extract_unsigned w old = (n, IStream.fresh tail) := by
  obtain ⟨c, cs, rfl, hc⟩ := unsigned_token_head ht
  obtain ⟨x, xs, rfl, hx⟩ := starts_space_iff htail
  obtain ⟨h1, h2, h3⟩ := ht x xs hx
  rw [IStream.extract_unsigned, List.cons_append, sentry_fresh ws c _ hws hc]
  simp only [IStream.fresh]
  rw [← List.cons_append, h1, h2]
  simp only [h3, List.cons_ne_nil, decide_False]

/-- Extraction of a scalar token that stands after whitespace and before whitespace. -/
theorem extract_double_token (ws t tail : List Char) (d old : Decimal)
    (hws : ∀ x ∈ ws, isspace x = true) (ht : ScalarToken t d)
    (htail : starts_space tail = true) :
    (IStream.fresh (ws ++ (t ++ tail))).extract_double old = (d, IStream.fresh tail) := by
  obtain ⟨c, cs, rfl, hc⟩ := scalar_token_head ht
  obtain ⟨x, xs, rfl, hx⟩ := starts_space_iff htail
  obtain ⟨h1, h2, h3⟩ := ht x xs hx
  rw [IStream.extract_double, List.cons_append, sentry_fresh ws c _ hws hc]
  simp only [IStream.fresh]
  rw [← List.cons_append, h1, h2]
  simp only [h3, List.cons_ne_nil, decide_False]

end OffParser

namespace OffParser

/-! ## Digit strings are tokens -/

theorem isDigit_not_sign {c : Char} (h : c.isDigit = true) : c ≠ '-' ∧ c ≠ '+' := by
  constructor <;> rintro rfl <;> exact absurd h (by decide)

theorem span_digits_append (ds : List Char) (c : Char) (l : List Char)
    (hd : ∀ x ∈ ds, x.isDigit = true) (hc : c.isDigit = false) :
    span_digits (ds ++ c :: l) = (ds, c :: l) := by
  induction ds with
  | nil => simp [span_digits, hc]
  | cons a ds ih =>
    have ha : a.isDigit = true := hd a (List.mem_cons_self _ _)
    have := ih (fun x hx => hd x (List.mem_cons_of_mem _ hx))
    simp [span_digits, ha, this]

theorem take_sign_digit (c : Char) (l : List Char) (h : c.isDigit = true) :
    take_sign (c :: l) = (false, c :: l) := by
  have := isDigit_not_sign h
  simp [take_sign, this.1, this.2]

/-- A non-empty string of digits whose value fits the type is an unsigned token. -/
theorem unsigned_token_digits (w : Nat) (ds : List Char) (hne : ds ≠ [])
    (hd : ∀ x ∈ ds, x.isDigit = true) (hmax : digits_value ds ≤ 2 ^ w - 1) :
    UnsignedToken w ds (digits_value ds) := by
  intro c rest hc
  cases ds with
  | nil => exact absurd rfl hne
  | cons a as =>
    have ha : a.isDigit = true := hd a (List.mem_cons_self _ _)
    have hsp := span_digits_append (a :: as) c rest hd (isspace_not_digit hc)
    have hlt : ¬ (2 ^ w - 1 < digits_value (a :: as)) := Nat.not_lt.2 hmax
    simp only [num_get_unsigned, List.cons_append, take_sign_digit a _ ha]
    rw [← List.cons_append, hsp]
    simp [hlt]

/-- A non-empty string of digits below the overflow threshold is a scalar token. -/
theorem scalar_token_digits (ds : List Char) (hne : ds ≠ [])
    (hd : ∀ x ∈ ds, x.isDigit = true) (hov : overflows (digits_value ds) 0 = false) :
    ScalarToken ds ⟨false, digits_value ds, 0⟩ := by
  intro c rest hc
  cases ds with
  | nil => exact absurd rfl hne
  | cons a as =>
    have ha : a.isDigit = true := hd a (List.mem_cons_self _ _)
    have hsp := span_digits_append (a :: as) c rest hd (isspace_not_digit hc)
    have h2 := isspace_not_point hc
    simp only [num_get_double, List.cons_append, take_sign_digit a _ ha]
    rw [← List.cons_append, hsp]
    have hz : digits_value [] = 0 := rfl
    simp [take_fraction, take_exponent, h2.1, h2.2.1, h2.2.2, hz, hov]

/-! ## Unformatted input on a good stream -/

theorem after_newline_append (l rest : List Char) (h : '\n' ∉ l) :
    after_newline (l ++ '\n' :: rest) = some rest := by
  induction l with
  | nil => simp [after_newline]
  | cons a l ih =>
    have ha : a ≠ '\n' := fun e => h (by simp [e])
    have := ih (fun hm => h (List.mem_cons_of_mem _ hm))
    simp [after_newline, ha, this]

theorem ignore_until_newline_fresh (l rest : List Char) (h : '\n' ∉ l) :
    ignore_until_newline (IStream.fresh (l ++ '\n' :: rest)) = IStream.fresh rest := by
  simp [ignore_until_newline, IStream.ignore_max_newline, IStream.fresh, IStream.good,
    after_newline_append l rest h]

theorem peek_fresh_cons (c : Char) (l : List Char) :
    (IStream.fresh (c :: l)).peek = (some c, IStream.fresh (c :: l)) := by
  simp [IStream.peek, IStream.fresh, IStream.good]

theorem ignore_fresh_cons (c : Char) (l : List Char) :
    (IStream.fresh (c :: l)).ignore = IStream.fresh l := by
  simp [IStream.ignore, IStream.fresh, IStream.good]

theorem blanks_space {b : List Char} (h : Blanks b) : ∀ x ∈ b, isspace x = true :=
  fun x hx => blank_isspace (h x hx)

theorem starts_space_blanks_append (b l : List Char) (hb : Blanks b) (hne : b ≠ []) :
    starts_space (b ++ l) = true := by
  cases b with
  | nil => exact absurd rfl hne
  | cons a b => exact blank_isspace (hb a (List.mem_cons_self _ _))

theorem starts_space_newline (l : List Char) : starts_space ('\n' :: l) = true := by
  show isspace '\n' = true
  decide

theorem starts_space_cons (c : Char) (l : List Char) (h : isspace c = true) :
    starts_space (c :: l) = true := h

end OffParser

namespace OffParser

/-! ## Skipping comment and empty lines -/

theorem after_newline_length (l r : List Char) (h : after_newline l = some r) :
    r.length < l.length := by
  induction l with
  | nil => cases h
  | cons a l ih =>
    by_cases ha : a = '\n'
    · simp [after_newline, ha] at h
      subst h
      simp
    · simp [after_newline, ha] at h
      have := ih h
      simp
      omega

/-- Any fuel above the number of characters left gives the same result. -/
theorem ignore_loop_fuel (n : Nat) : ∀ (m : Nat) (s : IStream), s.buf.length < n →
    s.buf.length < m →
    ignore_comment_or_empty_lines_loop n s = ignore_comment_or_empty_lines_loop m s := by
  induction n with
  | zero => intro m s hn; exact absurd hn (Nat.not_lt_zero _)
  | succ n ih =>
    intro m s hn hm
    cases m with
    | zero => exact absurd hm (Nat.not_lt_zero _)
    | succ m =>
      obtain ⟨buf, e, f⟩ := s
      cases e with
      | true => simp [ignore_comment_or_empty_lines_loop, IStream.eof]
      | false =>
        cases f with
        | true => simp [ignore_comment_or_empty_lines_loop, IStream.eof, IStream.peek, IStream.good]
        | false =>
          cases buf with
          | nil => simp [ignore_comment_or_empty_lines_loop, IStream.eof, IStream.peek, IStream.good]
          | cons c cs =>
            simp only [List.length_cons] at hn hm
            by_cases h1 : c = '\n'
            · subst h1
              simp only [ignore_comment_or_empty_lines_loop, IStream.eof, IStream.peek,
                IStream.good, IStream.ignore]
              simp only [Bool.not_false, Bool.and_self, if_true, Bool.false_eq_true, if_false]
              exact ih m _ (by simpa using Nat.lt_of_succ_lt_succ hn)
                (by simpa using Nat.lt_of_succ_lt_succ hm)
            · by_cases h2 : c = '#'
              · subst h2
                simp only [ignore_comment_or_empty_lines_loop, IStream.eof, IStream.peek,
                  IStream.good, ignore_until_newline, IStream.ignore_max_newline]
                simp only [Bool.not_false, Bool.and_self, if_true, Bool.false_eq_true, if_false,
                  Option.some.injEq, h1]
                cases har : after_newline ('#' :: cs) with
                | none =>
                  exact ih m _ (by simp; omega) (by simp; omega)
                | some r =>
                  have hl := after_newline_length _ _ har
                  simp only [List.length_cons] at hl
                  exact ih m _ (by simp; omega) (by simp; omega)
              · simp [ignore_comment_or_empty_lines_loop, IStream.eof, IStream.peek,
                  IStream.good, h1, h2]

theorem ignore_comment_stop (c : Char) (l : List Char) (h1 : c ≠ '\n') (h2 : c ≠ '#') :
    ignore_comment_or_empty_lines (IStream.fresh (c :: l)) = IStream.fresh (c :: l) := by
  simp [ignore_comment_or_empty_lines, ignore_comment_or_empty_lines_loop, IStream.fresh,
    IStream.eof, IStream.peek, IStream.good, h1, h2]

theorem ignore_comment_skipped_line (l rest : List Char) (h : SkippedLine l) :
    ignore_comment_or_empty_lines (IStream.fresh (l ++ rest))
      = ignore_comment_or_empty_lines (IStream.fresh rest) := by
  rcases h with rfl | ⟨body, hb, rfl⟩
  · simp [ignore_comment_or_empty_lines, ignore_comment_or_empty_lines_loop, IStream.fresh,
      IStream.eof, IStream.peek, IStream.good, IStream.ignore]
  · have hstep : ignore_until_newline (IStream.fresh ('#' :: (body ++ ['\n']) ++ rest))
        = IStream.fresh rest := by
      have := ignore_until_newline_fresh ('#' :: body) rest
        (by simp only [List.mem_cons, not_or]; exact ⟨by decide, hb⟩)
      simpa using this
    unfold ignore_comment_or_empty_lines
    rw [ignore_comment_or_empty_lines_loop]
    have hp : (IStream.fresh ('#' :: (body ++ ['\n']) ++ rest)).peek
        = (some '#', IStream.fresh ('#' :: (body ++ ['\n']) ++ rest)) := peek_fresh_cons _ _
    have he : (IStream.fresh ('#' :: (body ++ ['\n']) ++ rest)).eof = false := rfl
    simp only [he, hp, hstep, Bool.false_eq_true, if_false]
    rw [if_neg (by decide), if_pos trivial]
    exact ignore_loop_fuel _ _ _ (by simp [IStream.fresh]; omega) (by simp [IStream.fresh])

/-- A block of empty and comment lines in front of the text is skipped entirely. -/
theorem ignore_comment_skipped_block (b rest : List Char) (h : SkippedBlock b) :
    ignore_comment_or_empty_lines (IStream.fresh (b ++ rest))
      = ignore_comment_or_empty_lines (IStream.fresh rest) := by
  obtain ⟨ls, hls, rfl⟩ := h
  induction ls with
  | nil => rfl
  | cons l ls ih =>
    have h1 := ignore_comment_skipped_line l (concat_text ls ++ rest)
      (hls l (List.mem_cons_self _ _))
    have h2 := ih (fun x hx => hls x (List.mem_cons_of_mem _ hx))
    simp only [concat_text, List.append_assoc]
    rw [h1, h2]

end OffParser

namespace OffParser

/-! ## The counts -/

theorem unsigned_token_head_ne_hash {w : Nat} {t : List Char} {n : Nat}
    (h : UnsignedToken w t n) : ∃ c cs, t = c :: cs ∧ c ≠ '\n' ∧ c ≠ '#' := by
  obtain ⟨c, cs, rfl, hc⟩ := unsigned_token_head h
  refine ⟨c, cs, rfl, ?_, ?_⟩
  · rintro rfl
    exact absurd hc (by decide)
  · rintro rfl
    have := (h ' ' [] (by decide)).2.1
    simp [num_get_unsigned, take_sign, span_digits] at this

theorem scalar_token_head_ne_hash {t : List Char} {d : Decimal}
    (h : ScalarToken t d) : ∃ c cs, t = c :: cs ∧ c ≠ '\n' ∧ c ≠ '#' := by
  obtain ⟨c, cs, rfl, hc⟩ := scalar_token_head h
  refine ⟨c, cs, rfl, ?_, ?_⟩
  · rintro rfl
    exact absurd hc (by decide)
  · rintro rfl
    have := (h ' ' [] (by decide)).2.1
    simp [num_get_double, take_sign, span_digits, take_fraction] at this

theorem starts_space_append (w l : List Char) (hw : ∀ c ∈ w, isspace c = true) (hne : w ≠ []) :
    starts_space (w ++ l) = true := by
  cases w with
  | nil => exact absurd rfl hne
  | cons a w => exact hw a (List.mem_cons_self _ _)

theorem line_rest_starts {trail : List Char} (h : LineRest trail) (rest : List Char) :
    starts_space (trail ++ '\n' :: rest) = true := by
  cases trail with
  | nil => exact starts_space_newline rest
  | cons a t => exact h.2

theorem line_rest_of_blanks {trail : List Char} (h : Blanks trail) : LineRest trail := by
  constructor
  · intro hm
    exact blank_ne_newline (h _ hm) rfl
  · cases trail with
    | nil => decide
    | cons a t => exact blank_isspace (h a (List.mem_cons_self _ _))

theorem line_rest_ignore {trail : List Char} (h : LineRest trail) (rest : List Char) :
    ignore_until_newline (IStream.fresh (trail ++ '\n' :: rest)) = IStream.fresh rest :=
  ignore_until_newline_fresh trail rest h.1

/-- The counts read from a header line followed by three unsigned tokens. -/
theorem parse_counts_text (u : Uninit) (header tV w1 tF w2 tE tail : List Char) (V F E : Nat)
    (hh : '\n' ∉ header)
    (hV : UnsignedToken 64 tV V) (hF : UnsignedToken 64 tF F) (hE : UnsignedToken 64 tE E)
    (hw1 : ∀ c ∈ w1, isspace c = true) (h1 : w1 ≠ [])
    (hw2 : ∀ c ∈ w2, isspace c = true) (h2 : w2 ≠ [])
    (htail : starts_space tail = true) :
    parse_counts u (IStream.fresh (header ++ '\n' :: counts_line tV w1 tF w2 tE tail))
      = ⟨V, F, E, IStream.fresh tail⟩ := by
  obtain ⟨c, cs, hc, hc1, hc2⟩ := unsigned_token_head_ne_hash hV
  have e1 := extract_unsigned_token 64 [] tV (w1 ++ (tF ++ (w2 ++ (tE ++ tail)))) V u.n_vertices
    (by simp) hV (starts_space_append _ _ hw1 h1)
  have e2 := extract_unsigned_token 64 w1 tF (w2 ++ (tE ++ tail)) F u.n_faces
    hw1 hF (starts_space_append _ _ hw2 h2)
  have e3 := extract_unsigned_token 64 w2 tE tail E u.n_edges hw2 hE htail
  rw [List.nil_append] at e1
  have hstop : ignore_comment_or_empty_lines (IStream.fresh (counts_line tV w1 tF w2 tE tail))
      = IStream.fresh (counts_line tV w1 tF w2 tE tail) := by
    rw [counts_line, hc]
    exact ignore_comment_stop c _ hc1 hc2
  simp only [parse_counts, ignore_until_newline_fresh header _ hh, hstop]
  simp only [counts_line, e1, e2, e3]

theorem parse_vertices_length (vs : VertexShape) (u : Uninit) (n : Nat) :
    ∀ (i : Nat) (s : IStream), (parse_vertices vs u n i s).1.length = n := by
  induction n with
  | zero => intro i s; rfl
  | succ n ih => intro i s; simp [parse_vertices, ih]

theorem parse_faces_length (fs : FaceShape) (u : Uninit) (n : Nat) :
    ∀ (i : Nat) (s : IStream), (parse_faces fs u n i s).1.length = n := by
  induction n with
  | zero => intro i s; rfl
  | succ n ih => intro i s; simp [parse_faces, ih]

/-- When the counts line reads as the three unsigned integers `V`, `F`, `E`, the mesh built by
the two loops of `parse` has exactly `V` vertices and `F` faces and its `n_edges` is `E`,
whatever text follows the third count (the records are not consulted for the counts).  Whether
the run gets that far depends on the `reserve` calls, which `parse_outcome` adds. -/
theorem parse_counts_respected (vs : VertexShape) (fs : FaceShape) (u : Uninit)
    (header tV w1 tF w2 tE tail : List Char) (V F E : Nat)
    (hh : '\n' ∉ header)
    (hV : UnsignedToken 64 tV V) (hF : UnsignedToken 64 tF F) (hE : UnsignedToken 64 tE E)
    (hw1 : ∀ c ∈ w1, isspace c = true) (h1 : w1 ≠ [])
    (hw2 : ∀ c ∈ w2, isspace c = true) (h2 : w2 ≠ [])
    (htail : starts_space tail = true) :
    (parse vs fs u (IStream.fresh (header ++ '\n' :: counts_line tV w1 tF w2 tE tail))).vertices.length
        = V ∧
    (parse vs fs u (IStream.fresh (header ++ '\n' :: counts_line tV w1 tF w2 tE tail))).faces.length
        = F ∧
    (parse vs fs u (IStream.fresh (header ++ '\n' :: counts_line tV w1 tF w2 tE tail))).n_edges
        = E := by
  have hc := parse_counts_text u header tV w1 tF w2 tE tail V F E hh hV hF hE hw1 h1 hw2 h2 htail
  simp only [parse, hc, parse_vertices_length, parse_faces_length, and_self]

/-- C9. Empty lines and comment lines inserted, in any number and interleaving, between the
header line and what follows it leave the mesh returned by `parse` unchanged. -/
theorem comments_before_counts (vs : VertexShape) (fs : FaceShape) (u : Uninit)
    (header block rest : List Char) (hh : '\n' ∉ header) (hb : SkippedBlock block) :
    parse vs fs u (IStream.fresh (header ++ '\n' :: (block ++ rest)))
      = parse vs fs u (IStream.fresh (header ++ '\n' :: rest)) := by
  have hc : parse_counts u (IStream.fresh (header ++ '\n' :: (block ++ rest)))
      = parse_counts u (IStream.fresh (header ++ '\n' :: rest)) := by
    simp only [parse_counts, ignore_until_newline_fresh header _ hh,
      ignore_comment_skipped_block block rest hb]
  simp only [parse, hc]

end OffParser

namespace OffParser

/-! ## Reading the fields of a record -/

theorem spaced_cons_append (f : List Char × List Char) (fs : List (List Char × List Char))
    (tail : List Char) : spaced (f :: fs) ++ tail = f.1 ++ (f.2 ++ (spaced fs ++ tail)) := by
  simp [spaced, List.append_assoc]

theorem starts_space_spaced (fs : List (List Char × List Char)) (tail : List Char)
    (hb : ∀ f ∈ fs, Blanks f.1) (hsep : Separated fs) (htail : starts_space tail = true) :
    starts_space (spaced fs ++ tail) = true := by
  cases fs with
  | nil => simpa [spaced] using htail
  | cons f fs =>
    rw [spaced_cons_append]
    exact starts_space_blanks_append _ _ (hb f (List.mem_cons_self _ _))
      (hsep f (List.mem_cons_self _ _))

theorem scalar_fields_blanks {fs : List (List Char × List Char)} {ds : List Decimal}
    (h : ScalarFields fs ds) : ∀ f ∈ fs, Blanks f.1 := by
  induction h with
  | nil => intro f hf; cases hf
  | cons hd _ ih =>
    intro f hf
    rcases List.mem_cons.1 hf with rfl | hf
    · exact hd.1
    · exact ih f hf

theorem unsigned_fields_blanks {w : Nat} {fs : List (List Char × List Char)} {ns : List Nat}
    (h : UnsignedFields w fs ns) : ∀ f ∈ fs, Blanks f.1 := by
  induction h with
  | nil => intro f hf; cases hf
  | cons hd _ ih =>
    intro f hf
    rcases List.mem_cons.1 hf with rfl | hf
    · exact hd.1
    · exact ih f hf

/-- The first character of a line that begins with a scalar field is neither a newline nor the
comment mark. -/
theorem scalar_line_head (f : List Char × List Char) (d : Decimal) (tail : List Char)
    (hb : Blanks f.1) (ht : ScalarToken f.2 d) :
    ∃ c l, f.1 ++ (f.2 ++ tail) = c :: l ∧ c ≠ '\n' ∧ c ≠ '#' := by
  cases hs : f.1 with
  | nil =>
    obtain ⟨c, cs, hc, h1, h2⟩ := scalar_token_head_ne_hash ht
    exact ⟨c, cs ++ tail, by simp [hc], h1, h2⟩
  | cons a b =>
    have ha : a = ' ' ∨ a = '\t' := hb a (by simp [hs])
    exact ⟨a, b ++ (f.2 ++ tail), by simp, blank_ne_newline ha, blank_ne_hash ha⟩

/-- Source `parse_vec` on a run of scalar fields followed by whitespace. -/
theorem parse_vec_fields (v : Vec) (fs : List (List Char × List Char)) (tail : List Char)
    (init : Nat → Decimal) (h : ScalarFields fs v.toList) (hsep : Separated fs.tail)
    (htail : starts_space tail = true) :
    parse_vec v.kind init (IStream.fresh (spaced fs ++ tail)) = (v, IStream.fresh tail) := by
  cases v with
  | vec3 x y z =>
    simp only [ScalarFields, Vec.toList] at h
    obtain ⟨f1, r1, h1, hr1, rfl⟩ := List.forall₂_cons_right_iff.1 h
    obtain ⟨f2, r2, h2, hr2, rfl⟩ := List.forall₂_cons_right_iff.1 hr1
    obtain ⟨f3, r3, h3, hr3, rfl⟩ := List.forall₂_cons_right_iff.1 hr2
    obtain rfl := List.forall₂_nil_right_iff.1 hr3
    have s2 : f2.1 ≠ [] := hsep f2 (by simp)
    have s3 : f3.1 ≠ [] := hsep f3 (by simp)
    have e3 := extract_double_token f3.1 f3.2 tail z (init 2) (blanks_space h3.1) h3.2 htail
    have e2 := extract_double_token f2.1 f2.2 (f3.1 ++ (f3.2 ++ tail)) y (init 1)
      (blanks_space h2.1) h2.2 (starts_space_blanks_append _ _ h3.1 s3)
    have e1 := extract_double_token f1.1 f1.2 (f2.1 ++ (f2.2 ++ (f3.1 ++ (f3.2 ++ tail)))) x
      (init 0) (blanks_space h1.1) h1.2 (starts_space_blanks_append _ _ h2.1 s2)
    have hsp : spaced [f1, f2, f3] ++ tail
        = f1.1 ++ (f1.2 ++ (f2.1 ++ (f2.2 ++ (f3.1 ++ (f3.2 ++ tail))))) := by
      simp [spaced, List.append_assoc]
    rw [hsp]
    simp only [parse_vec, Vec.kind, e1, e2, e3]
  | vec4 x y z w =>
    simp only [ScalarFields, Vec.toList] at h
    obtain ⟨f1, r1, h1, hr1, rfl⟩ := List.forall₂_cons_right_iff.1 h
    obtain ⟨f2, r2, h2, hr2, rfl⟩ := List.forall₂_cons_right_iff.1 hr1
    obtain ⟨f3, r3, h3, hr3, rfl⟩ := List.forall₂_cons_right_iff.1 hr2
    obtain ⟨f4, r4, h4, hr4, rfl⟩ := List.forall₂_cons_right_iff.1 hr3
    obtain rfl := List.forall₂_nil_right_iff.1 hr4
    have s2 : f2.1 ≠ [] := hsep f2 (by simp)
    have s3 : f3.1 ≠ [] := hsep f3 (by simp)
    have s4 : f4.1 ≠ [] := hsep f4 (by simp)
    have e4 := extract_double_token f4.1 f4.2 tail w (init 3) (blanks_space h4.1) h4.2 htail
    have e3 := extract_double_token f3.1 f3.2 (f4.1 ++ (f4.2 ++ tail)) z (init 2)
      (blanks_space h3.1) h3.2 (starts_space_blanks_append _ _ h4.1 s4)
    have e2 := extract_double_token f2.1 f2.2 (f3.1 ++ (f3.2 ++ (f4.1 ++ (f4.2 ++ tail)))) y
      (init 1) (blanks_space h2.1) h2.2 (starts_space_blanks_append _ _ h3.1 s3)
    have e1 := extract_double_token f1.1 f1.2
      (f2.1 ++ (f2.2 ++ (f3.1 ++ (f3.2 ++ (f4.1 ++ (f4.2 ++ tail)))))) x
      (init 0) (blanks_space h1.1) h1.2 (starts_space_blanks_append _ _ h2.1 s2)
    have hsp : spaced [f1, f2, f3, f4] ++ tail
        = f1.1 ++ (f1.2 ++ (f2.1 ++ (f2.2 ++ (f3.1 ++ (f3.2 ++ (f4.1 ++ (f4.2 ++ tail))))))) := by
      simp [spaced, List.append_assoc]
    rw [hsp]
    simp only [parse_vec, Vec.kind, e1, e2, e3, e4]

/-- One iteration of `parse_vec_within_line` on a field with a non-empty blank separator. -/
theorem within_line_elem_field (sep tok tail : List Char) (d old : Decimal)
    (hb : Blanks sep) (hne : sep ≠ []) (ht : ScalarToken tok d)
    (htail : starts_space tail = true) :
    within_line_elem old (IStream.fresh (sep ++ (tok ++ tail))) = (some d, IStream.fresh tail) := by
  have e := extract_double_token sep tok tail d old (blanks_space hb) ht htail
  cases sep with
  | nil => exact absurd rfl hne
  | cons a b =>
    have ha : a ≠ '\n' := blank_ne_newline (hb a (List.mem_cons_self _ _))
    rw [List.cons_append] at e ⊢
    simp only [within_line_elem, peek_fresh_cons, Option.some.injEq, ha, if_false, e]

/-- An iteration of `parse_vec_within_line` that starts at a newline returns no element. -/
theorem within_line_elem_newline (old : Decimal) (l : List Char) :
    within_line_elem old (IStream.fresh ('\n' :: l)) = (none, IStream.fresh ('\n' :: l)) := by
  simp [within_line_elem, peek_fresh_cons]

/-- Source `parse_vec_within_line` at a newline: `std::nullopt`, nothing extracted. -/
theorem parse_vec_within_line_newline (k : VecKind) (init : Nat → Decimal) (l : List Char) :
    parse_vec_within_line k init (IStream.fresh ('\n' :: l))
      = (none, IStream.fresh ('\n' :: l)) := by
  simp [parse_vec_within_line, within_line_elem_newline]

/-- Source `parse_vec_within_line` on a run of separated scalar fields. -/
theorem parse_vec_within_line_fields (v : Vec) (fs : List (List Char × List Char))
    (tail : List Char) (init : Nat → Decimal) (h : ScalarFields fs v.toList)
    (hsep : Separated fs) (htail : starts_space tail = true) :
    parse_vec_within_line v.kind init (IStream.fresh (spaced fs ++ tail))
      = (some v, IStream.fresh tail) := by
  cases v with
  | vec3 x y z =>
    simp only [ScalarFields, Vec.toList] at h
    obtain ⟨f1, r1, h1, hr1, rfl⟩ := List.forall₂_cons_right_iff.1 h
    obtain ⟨f2, r2, h2, hr2, rfl⟩ := List.forall₂_cons_right_iff.1 hr1
    obtain ⟨f3, r3, h3, hr3, rfl⟩ := List.forall₂_cons_right_iff.1 hr2
    obtain rfl := List.forall₂_nil_right_iff.1 hr3
    have s1 : f1.1 ≠ [] := hsep f1 (by simp)
    have s2 : f2.1 ≠ [] := hsep f2 (by simp)
    have s3 : f3.1 ≠ [] := hsep f3 (by simp)
    have e3 := within_line_elem_field f3.1 f3.2 tail z (init 2) h3.1 s3 h3.2 htail
    have e2 := within_line_elem_field f2.1 f2.2 (f3.1 ++ (f3.2 ++ tail)) y (init 1)
      h2.1 s2 h2.2 (starts_space_blanks_append _ _ h3.1 s3)
    have e1 := within_line_elem_field f1.1 f1.2 (f2.1 ++ (f2.2 ++ (f3.1 ++ (f3.2 ++ tail)))) x
      (init 0) h1.1 s1 h1.2 (starts_space_blanks_append _ _ h2.1 s2)
    have hsp : spaced [f1, f2, f3] ++ tail
        = f1.1 ++ (f1.2 ++ (f2.1 ++ (f2.2 ++ (f3.1 ++ (f3.2 ++ tail))))) := by
      simp [spaced, List.append_assoc]
    rw [hsp]
    simp only [parse_vec_within_line, Vec.kind, e1, e2, e3]
  | vec4 x y z w =>
    simp only [ScalarFields, Vec.toList] at h
    obtain ⟨f1, r1, h1, hr1, rfl⟩ := List.forall₂_cons_right_iff.1 h
    obtain ⟨f2, r2, h2, hr2, rfl⟩ := List.forall₂_cons_right_iff.1 hr1
    obtain ⟨f3, r3, h3, hr3, rfl⟩ := List.forall₂_cons_right_iff.1 hr2
    obtain ⟨f4, r4, h4, hr4, rfl⟩ := List.forall₂_cons_right_iff.1 hr3
    obtain rfl := List.forall₂_nil_right_iff.1 hr4
    have s1 : f1.1 ≠ [] := hsep f1 (by simp)
    have s2 : f2.1 ≠ [] := hsep f2 (by simp)
    have s3 : f3.1 ≠ [] := hsep f3 (by simp)
    have s4 : f4.1 ≠ [] := hsep f4 (by simp)
    have e4 := within_line_elem_field f4.1 f4.2 tail w (init 3) h4.1 s4 h4.2 htail
    have e3 := within_line_elem_field f3.1 f3.2 (f4.1 ++ (f4.2 ++ tail)) z (init 2)
      h3.1 s3 h3.2 (starts_space_blanks_append _ _ h4.1 s4)
    have e2 := within_line_elem_field f2.1 f2.2 (f3.1 ++ (f3.2 ++ (f4.1 ++ (f4.2 ++ tail)))) y
      (init 1) h2.1 s2 h2.2 (starts_space_blanks_append _ _ h3.1 s3)
    have e1 := within_line_elem_field f1.1 f1.2
      (f2.1 ++ (f2.2 ++ (f3.1 ++ (f3.2 ++ (f4.1 ++ (f4.2 ++ tail)))))) x
      (init 0) h1.1 s1 h1.2 (starts_space_blanks_append _ _ h2.1 s2)
    have hsp : spaced [f1, f2, f3, f4] ++ tail
        = f1.1 ++ (f1.2 ++ (f2.1 ++ (f2.2 ++ (f3.1 ++ (f3.2 ++ (f4.1 ++ (f4.2 ++ tail))))))) := by
      simp [spaced, List.append_assoc]
    rw [hsp]
    simp only [parse_vec_within_line, Vec.kind, e1, e2, e3, e4]

end OffParser

namespace OffParser

/-- The index loop on a run of separated index fields: it stops when the declared count is
reached, or earlier at a newline. -/
theorem parse_indices_fields (w : Nat) (u : Uninit) (i : Nat)
    (fs : List (List Char × List Char)) (ns : List Nat) (h : UnsignedFields w fs ns) :
    ∀ (k j : Nat) (tail : List Char), Separated fs → starts_space tail = true →
      (ns.length = k ∨ (ns.length < k ∧ ∃ r, tail = '\n' :: r)) →
      parse_indices w u i k j (IStream.fresh (spaced fs ++ tail)) = (ns, IStream.fresh tail) := by
  induction h with
  | nil =>
    intro k j tail _ _ hk
    cases k with
    | zero => rfl
    | succ k =>
      rcases hk with hk | ⟨_, r, rfl⟩
      · cases hk
      · simp [spaced, parse_indices, peek_fresh_cons]
  | @cons f n fs ns hd htl ih =>
    intro k j tail hsep htail hk
    cases k with
    | zero =>
      rcases hk with hk | ⟨hk, _⟩
      · cases hk
      · exact absurd hk (Nat.not_lt_zero _)
    | succ k =>
      have hsep2 : Separated fs := fun g hg => hsep g (List.mem_cons_of_mem _ hg)
      have hne : f.1 ≠ [] := hsep f (List.mem_cons_self _ _)
      have hnext : starts_space (spaced fs ++ tail) = true :=
        starts_space_spaced fs tail (unsigned_fields_blanks htl) hsep2 htail
      have e := extract_unsigned_token w f.1 f.2 (spaced fs ++ tail) n (u.index i j)
        (blanks_space hd.1) hd.2 hnext
      have hk2 : ns.length = k ∨ (ns.length < k ∧ ∃ r, tail = '\n' :: r) := by
        rcases hk with hk | ⟨hk, hr⟩
        · exact Or.inl (by simpa using hk)
        · exact Or.inr ⟨by simpa using hk, hr⟩
      have ih2 := ih k (j + 1) tail hsep2 htail hk2
      rw [spaced_cons_append]
      cases hf : f.1 with
      | nil => exact absurd hf hne
      | cons a b =>
        have ha : a ≠ '\n' := blank_ne_newline (hd.1 a (by simp [hf]))
        rw [hf] at e
        rw [List.cons_append] at e ⊢
        simp only [parse_indices, peek_fresh_cons, Option.some.injEq, ha, if_false, e, ih2]

theorem scalar_fields_head (v : Vec) (fs : List (List Char × List Char)) (tail : List Char)
    (h : ScalarFields fs v.toList) :
    ∃ c l, spaced fs ++ tail = c :: l ∧ c ≠ '\n' ∧ c ≠ '#' := by
  cases fs with
  | nil => cases v <;> cases h
  | cons f fs =>
    cases hv : v.toList with
    | nil => cases v <;> cases hv
    | cons d ds =>
      rw [hv] at h
      cases h with
      | cons hd _ =>
        rw [spaced_cons_append]
        exact scalar_line_head f d _ hd.1 hd.2

theorem parse_vertex_of_skip (vs : VertexShape) (u : Uninit) (i : Nat) (s t : IStream)
    (h : ignore_comment_or_empty_lines s = ignore_comment_or_empty_lines t) :
    parse_vertex vs u i s = parse_vertex vs u i t := by
  simp only [parse_vertex, h]

theorem parse_face_of_skip (fs : FaceShape) (u : Uninit) (i : Nat) (s t : IStream)
    (h : ignore_comment_or_empty_lines s = ignore_comment_or_empty_lines t) :
    parse_face fs u i s = parse_face fs u i t := by
  simp only [parse_face, h]

/-! ## Record lines -/

/-- A line of position fields, with anything after whitespace behind them, is a record of the
plain vertex shape. -/
theorem vertex_record_plain (position : Vec) (pf : List (List Char × List Char))
    (trail : List Char) (hp : ScalarFields pf position.toList) (hsep : Separated pf.tail)
    (ht : LineRest trail) :
    VertexRecord (.vertex position.kind) (spaced pf ++ trail) (.vertex position) := by
  intro u i rest
  obtain ⟨c, l, hc, h1, h2⟩ := scalar_fields_head position pf (trail ++ '\n' :: rest) hp
  have hstop := ignore_comment_stop c l h1 h2
  rw [← hc] at hstop
  have e := parse_vec_fields position pf (trail ++ '\n' :: rest) (u.position i) hp hsep
    (line_rest_starts ht rest)
  rw [List.append_assoc]
  simp only [parse_vertex, hstop, VertexShape.position_type, e, line_rest_ignore ht]

/-- A line of position fields and colour fields is a record of the mandatory-coloured vertex
shape. -/
theorem vertex_record_colored (position color : Vec) (pf cf : List (List Char × List Char))
    (trail : List Char) (hp : ScalarFields pf position.toList) (hsep : Separated pf.tail)
    (hc : ScalarFields cf color.toList) (hcsep : Separated cf) (ht : LineRest trail) :
    VertexRecord (.colored_vertex position.kind color.kind) (spaced pf ++ (spaced cf ++ trail))
      (.colored_vertex position color) := by
  intro u i rest
  obtain ⟨c, l, hc0, h1, h2⟩ :=
    scalar_fields_head position pf ((spaced cf ++ trail) ++ '\n' :: rest) hp
  have hstop := ignore_comment_stop c l h1 h2
  rw [← hc0] at hstop
  have hmid : starts_space (spaced cf ++ (trail ++ '\n' :: rest)) = true :=
    starts_space_spaced cf _ (scalar_fields_blanks hc) hcsep (line_rest_starts ht rest)
  have e := parse_vec_fields position pf (spaced cf ++ (trail ++ '\n' :: rest)) (u.position i)
    hp hsep hmid
  have e2 := parse_vec_fields color cf (trail ++ '\n' :: rest) (u.vertex_color i) hc
    (fun f hf => hcsep f (List.mem_of_mem_tail hf)) (line_rest_starts ht rest)
  simp only [List.append_assoc] at hstop ⊢
  simp only [parse_vertex, hstop, VertexShape.position_type, e, e2, line_rest_ignore ht]

/-- A line of position fields and colour fields is a record of the optional-coloured vertex
shape, with the colour present. -/
theorem vertex_record_optional_present (position color : Vec)
    (pf cf : List (List Char × List Char)) (trail : List Char)
    (hp : ScalarFields pf position.toList) (hsep : Separated pf.tail)
    (hc : ScalarFields cf color.toList) (hcsep : Separated cf) (ht : LineRest trail) :
    VertexRecord (.optional_colored_vertex position.kind color.kind)
      (spaced pf ++ (spaced cf ++ trail)) (.optional_colored_vertex position (some color)) := by
  intro u i rest
  obtain ⟨c, l, hc0, h1, h2⟩ :=
    scalar_fields_head position pf ((spaced cf ++ trail) ++ '\n' :: rest) hp
  have hstop := ignore_comment_stop c l h1 h2
  rw [← hc0] at hstop
  have hmid : starts_space (spaced cf ++ (trail ++ '\n' :: rest)) = true :=
    starts_space_spaced cf _ (scalar_fields_blanks hc) hcsep (line_rest_starts ht rest)
  have e := parse_vec_fields position pf (spaced cf ++ (trail ++ '\n' :: rest)) (u.position i)
    hp hsep hmid
  have e2 := parse_vec_within_line_fields color cf (trail ++ '\n' :: rest) (u.vertex_color i) hc
    hcsep (line_rest_starts ht rest)
  simp only [List.append_assoc] at hstop ⊢
  simp only [parse_vertex, hstop, VertexShape.position_type, e, e2, line_rest_ignore ht]

/-- A line of position fields ended at once by its newline is a record of the optional-coloured
vertex shape, with the colour absent. -/
theorem vertex_record_optional_absent (position : Vec) (ck : VecKind)
    (pf : List (List Char × List Char))
    (hp : ScalarFields pf position.toList) (hsep : Separated pf.tail) :
    VertexRecord (.optional_colored_vertex position.kind ck) (spaced pf)
      (.optional_colored_vertex position none) := by
  intro u i rest
  obtain ⟨c, l, hc0, h1, h2⟩ := scalar_fields_head position pf ('\n' :: rest) hp
  have hstop := ignore_comment_stop c l h1 h2
  rw [← hc0] at hstop
  have e := parse_vec_fields position pf ('\n' :: rest) (u.position i) hp hsep
    (starts_space_newline rest)
  have hig : ignore_until_newline (IStream.fresh ('\n' :: rest)) = IStream.fresh rest :=
    ignore_until_newline_fresh [] rest (by simp)
  simp only [parse_vertex, hstop, VertexShape.position_type, e, parse_vec_within_line_newline,
    hig]

end OffParser

namespace OffParser

/-- Beginning of the face loop body on a line that starts with the count token followed by
index fields: nothing is skipped, the count is extracted, and the index loop reads the
indices. -/
theorem parse_face_prefix (w : Nat) (u : Uninit) (i : Nat) (tk : List Char)
    (idxf : List (List Char × List Char)) (ns : List Nat) (k old : Nat) (tail : List Char)
    (hk : UnsignedToken 64 tk k) (hi : UnsignedFields w idxf ns) (hsep : Separated idxf)
    (htail : starts_space tail = true)
    (hlen : ns.length = k ∨ (ns.length < k ∧ ∃ r, tail = '\n' :: r)) :
    ignore_comment_or_empty_lines (IStream.fresh (tk ++ (spaced idxf ++ tail)))
        = IStream.fresh (tk ++ (spaced idxf ++ tail)) ∧
    (IStream.fresh (tk ++ (spaced idxf ++ tail))).extract_unsigned 64 old
        = (k, IStream.fresh (spaced idxf ++ tail)) ∧
    parse_indices w u i k 0 (IStream.fresh (spaced idxf ++ tail)) = (ns, IStream.fresh tail) := by
  obtain ⟨c, cs, hc, h1, h2⟩ := unsigned_token_head_ne_hash hk
  refine ⟨?_, ?_, parse_indices_fields w u i idxf ns hi k 0 tail hsep htail hlen⟩
  · rw [hc, List.cons_append]
    exact ignore_comment_stop c _ h1 h2
  · have e := extract_unsigned_token 64 [] tk (spaced idxf ++ tail) k old (by simp) hk
      (starts_space_spaced idxf tail (unsigned_fields_blanks hi) hsep htail)
    simpa using e

/-- A line with the count and the index fields is a record of the plain face shape: either the
declared count of indices is there and anything may follow after whitespace, or fewer indices
are there and the newline follows at once. -/
theorem face_record_plain (w : Nat) (tk : List Char) (idxf : List (List Char × List Char))
    (ns : List Nat) (k : Nat) (trail : List Char)
    (hk : UnsignedToken 64 tk k) (hi : UnsignedFields w idxf ns) (hsep : Separated idxf)
    (hend : (ns.length = k ∧ LineRest trail) ∨ (ns.length < k ∧ trail = [])) :
    FaceRecord (.face w) (tk ++ (spaced idxf ++ trail)) (.face ns) := by
  intro u i rest
  have ht : LineRest trail := by
    rcases hend with h | h
    · exact h.2
    · rw [h.2]; exact line_rest_of_blanks (fun c hc => by cases hc)
  have hlen : ns.length = k ∨ (ns.length < k ∧ ∃ r, trail ++ '\n' :: rest = '\n' :: r) := by
    rcases hend with h | h
    · exact Or.inl h.1
    · exact Or.inr ⟨h.1, rest, by rw [h.2]; rfl⟩
  obtain ⟨p1, p2, p3⟩ := parse_face_prefix w u i tk idxf ns k (u.n_vertices_in_face i)
    (trail ++ '\n' :: rest) hk hi hsep (line_rest_starts ht rest) hlen
  simp only [List.append_assoc]
  simp only [parse_face, p1, p2, FaceShape.index_bits, p3, line_rest_ignore ht]

/-- A line with the count, that many index fields and the colour fields is a record of the
mandatory-coloured face shape. -/
theorem face_record_colored (w : Nat) (tk : List Char) (idxf cf : List (List Char × List Char))
    (ns : List Nat) (color : Vec) (trail : List Char)
    (hk : UnsignedToken 64 tk ns.length) (hi : UnsignedFields w idxf ns) (hsep : Separated idxf)
    (hc : ScalarFields cf color.toList) (hcsep : Separated cf) (ht : LineRest trail) :
    FaceRecord (.colored_face w color.kind) (tk ++ (spaced idxf ++ (spaced cf ++ trail)))
      (.colored_face ns color) := by
  intro u i rest
  have hmid : starts_space (spaced cf ++ (trail ++ '\n' :: rest)) = true :=
    starts_space_spaced cf _ (scalar_fields_blanks hc) hcsep (line_rest_starts ht rest)
  obtain ⟨p1, p2, p3⟩ := parse_face_prefix w u i tk idxf ns ns.length (u.n_vertices_in_face i)
    (spaced cf ++ (trail ++ '\n' :: rest)) hk hi hsep hmid (Or.inl rfl)
  have e2 := parse_vec_fields color cf (trail ++ '\n' :: rest) (u.face_color i) hc
    (fun f hf => hcsep f (List.mem_of_mem_tail hf)) (line_rest_starts ht rest)
  simp only [List.append_assoc]
  simp only [parse_face, p1, p2, FaceShape.index_bits, p3, e2, line_rest_ignore ht]

/-- A line with the count, that many index fields and the colour fields is a record of the
optional-coloured face shape, with the colour present. -/
theorem face_record_optional_present (w : Nat) (tk : List Char)
    (idxf cf : List (List Char × List Char)) (ns : List Nat) (color : Vec) (trail : List Char)
    (hk : UnsignedToken 64 tk ns.length) (hi : UnsignedFields w idxf ns) (hsep : Separated idxf)
    (hc : ScalarFields cf color.toList) (hcsep : Separated cf) (ht : LineRest trail) :
    FaceRecord (.optional_colored_face w color.kind) (tk ++ (spaced idxf ++ (spaced cf ++ trail)))
      (.optional_colored_face ns (some color)) := by
  intro u i rest
  have hmid : starts_space (spaced cf ++ (trail ++ '\n' :: rest)) = true :=
    starts_space_spaced cf _ (scalar_fields_blanks hc) hcsep (line_rest_starts ht rest)
  obtain ⟨p1, p2, p3⟩ := parse_face_prefix w u i tk idxf ns ns.length (u.n_vertices_in_face i)
    (spaced cf ++ (trail ++ '\n' :: rest)) hk hi hsep hmid (Or.inl rfl)
  have e2 := parse_vec_within_line_fields color cf (trail ++ '\n' :: rest) (u.face_color i) hc
    hcsep (line_rest_starts ht rest)
  simp only [List.append_assoc]
  simp only [parse_face, p1, p2, FaceShape.index_bits, p3, e2, line_rest_ignore ht]

/-- A line with the count and at most that many index fields, ended at once by its newline, is
a record of the optional-coloured face shape, with the colour absent. -/
theorem face_record_optional_absent (w : Nat) (ck : VecKind) (tk : List Char)
    (idxf : List (List Char × List Char)) (ns : List Nat) (k : Nat)
    (hk : UnsignedToken 64 tk k) (hi : UnsignedFields w idxf ns) (hsep : Separated idxf)
    (hlen : ns.length ≤ k) :
    FaceRecord (.optional_colored_face w ck) (tk ++ spaced idxf)
      (.optional_colored_face ns none) := by
  intro u i rest
  have hlen2 : ns.length = k ∨ (ns.length < k ∧ ∃ r, '\n' :: rest = '\n' :: r) := by
    rcases Nat.lt_or_ge ns.length k with h | h
    · exact Or.inr ⟨h, rest, rfl⟩
    · exact Or.inl (Nat.le_antisymm hlen h)
  obtain ⟨p1, p2, p3⟩ := parse_face_prefix w u i tk idxf ns k (u.n_vertices_in_face i)
    ('\n' :: rest) hk hi hsep (starts_space_newline rest) hlen2
  have hig : ignore_until_newline (IStream.fresh ('\n' :: rest)) = IStream.fresh rest :=
    ignore_until_newline_fresh [] rest (by simp)
  simp only [List.append_assoc]
  simp only [parse_face, p1, p2, FaceShape.index_bits, p3, parse_vec_within_line_newline, hig]

/-- In every face shape, the index list read from a line with the count and fewer index fields
than declared, ended at once by its newline, is exactly the indices of the line. -/
theorem short_face_indices (fs : FaceShape) (u : Uninit) (i : Nat) (tk : List Char)
    (idxf : List (List Char × List Char)) (ns : List Nat) (k : Nat) (rest : List Char)
    (hk : UnsignedToken 64 tk k) (hi : UnsignedFields fs.index_bits idxf ns)
    (hsep : Separated idxf) (hlen : ns.length < k) :
    (parse_face fs u i (IStream.fresh ((tk ++ spaced idxf) ++ '\n' :: rest))).1.vertex_indices
      = ns := by
  obtain ⟨p1, p2, p3⟩ := parse_face_prefix fs.index_bits u i tk idxf ns k
    (u.n_vertices_in_face i) ('\n' :: rest) hk hi hsep (starts_space_newline rest)
    (Or.inr ⟨hlen, rest, rfl⟩)
  simp only [List.append_assoc]
  cases fs <;> simp only [parse_face, p1, p2, FaceShape.index_bits] at p3 ⊢ <;>
    simp only [p3, Face.vertex_indices]

end OffParser

namespace OffParser

/-! ## Whole inputs -/

/-- The vertex loop on a sequence of record lines, each preceded by a block of empty and
comment lines. -/
theorem parse_vertices_records (vs : VertexShape) (u : Uninit)
    (recs : List (List Char × List Char)) (vl : List Vertex)
    (h : List.Forall₂ (fun r v => SkippedBlock r.1 ∧ VertexRecord vs r.2 v) recs vl) :
    ∀ (i : Nat) (tail : List Char),
      parse_vertices vs u vl.length i (IStream.fresh (records_text recs ++ tail))
        = (vl, IStream.fresh tail) := by
  induction h with
  | nil => intro i tail; rfl
  | @cons r v recs vl hd _ ih =>
    intro i tail
    have hskip := ignore_comment_skipped_block r.1 (r.2 ++ '\n' :: (records_text recs ++ tail)) hd.1
    have hv := parse_vertex_of_skip vs u i _ _ hskip
    have hrec := hd.2 u i (records_text recs ++ tail)
    have htext : records_text (r :: recs) ++ tail
        = r.1 ++ (r.2 ++ '\n' :: (records_text recs ++ tail)) := by
      simp [records_text, List.append_assoc]
    rw [htext]
    simp only [List.length_cons, parse_vertices, hv, hrec, ih (i + 1) tail]

/-- The face loop on a sequence of record lines, each preceded by a block of empty and comment
lines. -/
theorem parse_faces_records (fs : FaceShape) (u : Uninit)
    (recs : List (List Char × List Char)) (fl : List Face)
    (h : List.Forall₂ (fun r f => SkippedBlock r.1 ∧ FaceRecord fs r.2 f) recs fl) :
    ∀ (i : Nat) (tail : List Char),
      parse_faces fs u fl.length i (IStream.fresh (records_text recs ++ tail))
        = (fl, IStream.fresh tail) := by
  induction h with
  | nil => intro i tail; rfl
  | @cons r f recs fl hd _ ih =>
    intro i tail
    have hskip := ignore_comment_skipped_block r.1 (r.2 ++ '\n' :: (records_text recs ++ tail)) hd.1
    have hv := parse_face_of_skip fs u i _ _ hskip
    have hrec := hd.2 u i (records_text recs ++ tail)
    have htext : records_text (r :: recs) ++ tail
        = r.1 ++ (r.2 ++ '\n' :: (records_text recs ++ tail)) := by
      simp [records_text, List.append_assoc]
    rw [htext]
    simp only [List.length_cons, parse_faces, hv, hrec, ih (i + 1) tail]

/-- The mesh read from a well-formed input: a header line, a counts line whose counts are the
numbers of record lines, and one record per line, with blocks of empty and comment lines in
front of any record. -/
theorem parse_off_text (vs : VertexShape) (fs : FaceShape) (u : Uninit)
    (header tV w1 tF w2 tE trail after : List Char) (E : Nat)
    (vrecs frecs : List (List Char × List Char)) (vl : List Vertex) (fl : List Face)
    (hh : '\n' ∉ header)
    (hV : UnsignedToken 64 tV vl.length) (hF : UnsignedToken 64 tF fl.length)
    (hE : UnsignedToken 64 tE E)
    (hw1 : Blanks w1) (h1 : w1 ≠ []) (hw2 : Blanks w2) (h2 : w2 ≠ []) (ht : LineRest trail)
    (hv : List.Forall₂ (fun r v => SkippedBlock r.1 ∧ VertexRecord vs r.2 v) vrecs vl)
    (hf : List.Forall₂ (fun r f => SkippedBlock r.1 ∧ FaceRecord fs r.2 f) frecs fl) :
    parse vs fs u
        (IStream.fresh (off_text header (counts_line tV w1 tF w2 tE trail) vrecs frecs after))
      = ⟨vl, fl, E⟩ := by
  have hc := parse_counts_text u header tV w1 tF w2 tE
    (trail ++ '\n' :: (records_text vrecs ++ (records_text frecs ++ after)))
    vl.length fl.length E hh hV hF hE (blanks_space hw1) h1 (blanks_space hw2) h2 (line_rest_starts ht _)
  have htext : off_text header (counts_line tV w1 tF w2 tE trail) vrecs frecs after
      = header ++ '\n' :: counts_line tV w1 tF w2 tE
          (trail ++ '\n' :: (records_text vrecs ++ (records_text frecs ++ after))) := by
    simp [off_text, counts_line, List.append_assoc]
  rw [htext]
  simp only [parse, hc, line_rest_ignore ht, parse_vertices_records vs u vrecs vl hv 0,
    parse_faces_records fs u frecs fl hf 0]

theorem forall₂_without_block {α : Type} (P : List Char → α → Prop)
    (recs : List (List Char × List Char)) (l : List α)
    (h : List.Forall₂ (fun r a => SkippedBlock r.1 ∧ P r.2 a) recs l) :
    List.Forall₂ (fun r a => SkippedBlock r.1 ∧ P r.2 a) (recs.map without_block) l := by
  induction h with
  | nil => exact List.Forall₂.nil
  | cons hd _ ih => exact List.Forall₂.cons ⟨⟨[], by simp, rfl⟩, hd.2⟩ ih

end OffParser

namespace OffParser

/-! ## Concrete tokens and lines -/

theorem blanks_nil : Blanks [] := fun _ h => nomatch h

theorem blanks_one_space : Blanks [' '] := by
  intro c hc
  simp only [List.mem_singleton] at hc
  exact Or.inl hc

theorem overflows_small (n : Nat) (h : n < 2 ^ 64) : overflows n 0 = false := by
  have : ¬ (double_overflow ≤ n) := by
    have h2 : (2 : Nat) ^ 64 ≤ double_overflow := by
      unfold double_overflow
      norm_num
    omega
  simp [overflows, this]

/-- A non-empty string of digits with a value below `2 ^ 64` reads as that natural number. -/
theorem scalar_token_nat (ds : List Char) (n : Nat) (hne : ds ≠ [])
    (hd : ∀ x ∈ ds, x.isDigit = true) (hn : digits_value ds = n) (hlt : n < 2 ^ 64) :
    ScalarToken ds (Decimal.ofNat n) := by
  subst hn
  exact scalar_token_digits ds hne hd (overflows_small _ hlt)

/-- A non-empty string of digits with a value that fits `w` bits reads as that number. -/
theorem unsigned_token_nat (w : Nat) (ds : List Char) (n : Nat) (hne : ds ≠ [])
    (hd : ∀ x ∈ ds, x.isDigit = true) (hn : digits_value ds = n) (hmax : n ≤ 2 ^ w - 1) :
    UnsignedToken w ds n := by
  subst hn
  exact unsigned_token_digits w ds hne hd hmax

/-- Three scalar tokens separated by single spaces are a record of the plain vertex shape. -/
theorem vertex_record_plain3 (t1 t2 t3 : List Char) (d1 d2 d3 : Decimal)
    (h1 : ScalarToken t1 d1) (h2 : ScalarToken t2 d2) (h3 : ScalarToken t3 d3) :
    VertexRecord (.vertex .v3) (t1 ++ ' ' :: (t2 ++ ' ' :: t3)) (.vertex (.vec3 d1 d2 d3)) := by
  have h := vertex_record_plain (.vec3 d1 d2 d3) [([], t1), ([' '], t2), ([' '], t3)] []
    (List.Forall₂.cons ⟨blanks_nil, h1⟩ (List.Forall₂.cons ⟨blanks_one_space, h2⟩
      (List.Forall₂.cons ⟨blanks_one_space, h3⟩ List.Forall₂.nil)))
    (by intro f hf; simp at hf; rcases hf with rfl | rfl <;> simp)
    (line_rest_of_blanks blanks_nil)
  simpa [spaced, Vec.kind] using h

/-- A count token and index tokens separated by single spaces, as many as the count or fewer,
are a record of the plain face shape. -/
theorem face_record_plain_spaces (w : Nat) (tk : List Char) (k : Nat) (toks : List (List Char))
    (ns : List Nat) (hk : UnsignedToken 64 tk k)
    (hi : List.Forall₂ (fun t n => UnsignedToken w t n) toks ns) (hlen : ns.length ≤ k) :
    FaceRecord (.face w) (tk ++ spaced (toks.map (fun t => ([' '], t)))) (.face ns) := by
  have hf : UnsignedFields w (toks.map (fun t => ([' '], t))) ns := by
    induction hi with
    | nil => exact List.Forall₂.nil
    | cons hd _ ih => exact List.Forall₂.cons ⟨blanks_one_space, hd⟩ (ih (Nat.le_of_succ_le hlen))
  have hsep : Separated (toks.map (fun t => ([' '], t))) := by
    intro f hf
    obtain ⟨t, _, rfl⟩ := List.mem_map.1 hf
    simp
  have h := face_record_plain w tk (toks.map (fun t => ([' '], t))) ns k [] hk hf hsep
    (by
      rcases Nat.lt_or_ge ns.length k with h | h
      · exact Or.inr ⟨h, rfl⟩
      · exact Or.inl ⟨Nat.le_antisymm hlen h, line_rest_of_blanks blanks_nil⟩)
  simpa using h

end OffParser

namespace OffParser

/-! ## Claims about the parser -/

/-- C1. Parsing the text `OFF / 4 2 5 / 0 0 0 / 1 0 0 / 1 1 0 / 0 1 0 / 3 0 1 2 / 3 0 2 3` with
the plain vertex shape and the plain face shape returns the mesh with the four vertices
(0,0,0), (1,0,0), (1,1,0), (0,1,0) in that order, the two faces [0,1,2] and [0,2,3] in that
order, and `n_edges = 5`, whatever the indeterminate values are. -/
theorem parse_concrete_scenario (u : Uninit) :
    parse_text (.vertex .v3) (.face 16) u
        "OFF\n4 2 5\n0 0 0\n1 0 0\n1 1 0\n0 1 0\n3 0 1 2\n3 0 2 3\n"
      = ⟨[.vertex (.vec3 (.ofNat 0) (.ofNat 0) (.ofNat 0)),
          .vertex (.vec3 (.ofNat 1) (.ofNat 0) (.ofNat 0)),
          .vertex (.vec3 (.ofNat 1) (.ofNat 1) (.ofNat 0)),
          .vertex (.vec3 (.ofNat 0) (.ofNat 1) (.ofNat 0))],
         [.face [0, 1, 2], .face [0, 2, 3]], 5⟩ := by
  have s0 : ScalarToken ['0'] (Decimal.ofNat 0) :=
    scalar_token_nat ['0'] 0 (by decide) (by decide) (by decide) (by decide)
  have s1 : ScalarToken ['1'] (Decimal.ofNat 1) :=
    scalar_token_nat ['1'] 1 (by decide) (by decide) (by decide) (by decide)
  have c2 : UnsignedToken 64 ['2'] 2 :=
    unsigned_token_nat 64 ['2'] 2 (by decide) (by decide) (by decide) (by decide)
  have c3 : UnsignedToken 64 ['3'] 3 :=
    unsigned_token_nat 64 ['3'] 3 (by decide) (by decide) (by decide) (by decide)
  have c4 : UnsignedToken 64 ['4'] 4 :=
    unsigned_token_nat 64 ['4'] 4 (by decide) (by decide) (by decide) (by decide)
  have c5 : UnsignedToken 64 ['5'] 5 :=
    unsigned_token_nat 64 ['5'] 5 (by decide) (by decide) (by decide) (by decide)
  have i0 : UnsignedToken 16 ['0'] 0 :=
    unsigned_token_nat 16 ['0'] 0 (by decide) (by decide) (by decide) (by decide)
  have i1 : UnsignedToken 16 ['1'] 1 :=
    unsigned_token_nat 16 ['1'] 1 (by decide) (by decide) (by decide) (by decide)
  have i2 : UnsignedToken 16 ['2'] 2 :=
    unsigned_token_nat 16 ['2'] 2 (by decide) (by decide) (by decide) (by decide)
  have i3 : UnsignedToken 16 ['3'] 3 :=
    unsigned_token_nat 16 ['3'] 3 (by decide) (by decide) (by decide) (by decide)
  have f1 := face_record_plain_spaces 16 ['3'] 3 [['0'], ['1'], ['2']] [0, 1, 2] c3
    (List.Forall₂.cons i0 (List.Forall₂.cons i1 (List.Forall₂.cons i2 List.Forall₂.nil)))
    (by decide)
  have f2 := face_record_plain_spaces 16 ['3'] 3 [['0'], ['2'], ['3']] [0, 2, 3] c3
    (List.Forall₂.cons i0 (List.Forall₂.cons i2 (List.Forall₂.cons i3 List.Forall₂.nil)))
    (by decide)
  have htext : "OFF\n4 2 5\n0 0 0\n1 0 0\n1 1 0\n0 1 0\n3 0 1 2\n3 0 2 3\n".toList
      = off_text ['O', 'F', 'F'] (counts_line ['4'] [' '] ['2'] [' '] ['5'] [])
          [([], ['0'] ++ ' ' :: (['0'] ++ ' ' :: ['0'])),
           ([], ['1'] ++ ' ' :: (['0'] ++ ' ' :: ['0'])),
           ([], ['1'] ++ ' ' :: (['1'] ++ ' ' :: ['0'])),
           ([], ['0'] ++ ' ' :: (['1'] ++ ' ' :: ['0']))]
          [([], ['3'] ++ spaced ([['0'], ['1'], ['2']].map (fun t => ([' '], t)))),
           ([], ['3'] ++ spaced ([['0'], ['2'], ['3']].map (fun t => ([' '], t))))] [] := by
    decide
  unfold parse_text
  rw [htext]
  exact parse_off_text (.vertex .v3) (.face 16) u ['O', 'F', 'F'] ['4'] [' '] ['2'] [' '] ['5']
    [] [] 5 _ _
    [.vertex (.vec3 (.ofNat 0) (.ofNat 0) (.ofNat 0)),
     .vertex (.vec3 (.ofNat 1) (.ofNat 0) (.ofNat 0)),
     .vertex (.vec3 (.ofNat 1) (.ofNat 1) (.ofNat 0)),
     .vertex (.vec3 (.ofNat 0) (.ofNat 1) (.ofNat 0))]
    [.face [0, 1, 2], .face [0, 2, 3]]
    (by decide) c4 c2 c5 blanks_one_space (by decide) blanks_one_space (by decide)
    (line_rest_of_blanks blanks_nil)
    (List.Forall₂.cons ⟨⟨[], by simp, rfl⟩, vertex_record_plain3 _ _ _ _ _ _ s0 s0 s0⟩
      (List.Forall₂.cons ⟨⟨[], by simp, rfl⟩, vertex_record_plain3 _ _ _ _ _ _ s1 s0 s0⟩
        (List.Forall₂.cons ⟨⟨[], by simp, rfl⟩, vertex_record_plain3 _ _ _ _ _ _ s1 s1 s0⟩
          (List.Forall₂.cons ⟨⟨[], by simp, rfl⟩, vertex_record_plain3 _ _ _ _ _ _ s0 s1 s0⟩
            List.Forall₂.nil))))
    (List.Forall₂.cons ⟨⟨[], by simp, rfl⟩, f1⟩
      (List.Forall₂.cons ⟨⟨[], by simp, rfl⟩, f2⟩ List.Forall₂.nil))

/-- The mesh built on the counts line `4 2 5` followed by arbitrary text that is not a list of
records. -/
theorem parse_counts_respected_witness :
    (parse (.vertex .v3) (.face 16) uninit_zero
        (IStream.fresh ("OFF".toList ++ '\n' ::
          counts_line ['4'] [' '] ['2'] [' ', ' '] ['5'] "\nnot a record".toList))).vertices.length
      = 4 ∧
    (parse (.vertex .v3) (.face 16) uninit_zero
        (IStream.fresh ("OFF".toList ++ '\n' ::
          counts_line ['4'] [' '] ['2'] [' ', ' '] ['5'] "\nnot a record".toList))).faces.length
      = 2 ∧
    (parse (.vertex .v3) (.face 16) uninit_zero
        (IStream.fresh ("OFF".toList ++ '\n' ::
          counts_line ['4'] [' '] ['2'] [' ', ' '] ['5'] "\nnot a record".toList))).n_edges
      = 5 :=
  parse_counts_respected (.vertex .v3) (.face 16) uninit_zero "OFF".toList ['4'] [' '] ['2']
    [' ', ' '] ['5'] "\nnot a record".toList 4 2 5 (by decide)
    (unsigned_token_nat 64 ['4'] 4 (by decide) (by decide) (by decide) (by decide))
    (unsigned_token_nat 64 ['2'] 2 (by decide) (by decide) (by decide) (by decide))
    (unsigned_token_nat 64 ['5'] 5 (by decide) (by decide) (by decide) (by decide))
    (by decide) (by decide) (by decide) (by decide) (by decide)

/-- Instance of C9: a comment line, an empty line and another comment line inserted after the
header line. -/
theorem comments_before_counts_witness :
    parse (.vertex .v3) (.face 16) uninit_zero
        (IStream.fresh ("OFF".toList ++ '\n' ::
          ("# made by hand\n\n#\n".toList ++ "1 0 0\n0 0 0\n".toList)))
      = parse (.vertex .v3) (.face 16) uninit_zero
        (IStream.fresh ("OFF".toList ++ '\n' :: "1 0 0\n0 0 0\n".toList)) :=
  comments_before_counts (.vertex .v3) (.face 16) uninit_zero "OFF".toList
    "# made by hand\n\n#\n".toList "1 0 0\n0 0 0\n".toList (by decide)
    ⟨["# made by hand\n".toList, "\n".toList, "#\n".toList],
      by
        intro l hl
        simp only [List.mem_cons, List.mem_singleton, List.not_mem_nil, or_false] at hl
        rcases hl with rfl | rfl | rfl
        · exact Or.inr ⟨" made by hand".toList, by decide, by decide⟩
        · exact Or.inl (by decide)
        · exact Or.inr ⟨[], by decide, by decide⟩,
      by decide⟩

end OffParser

namespace OffParser

/-- One iteration of `parse_vec_within_line` when the next character is whitespace other than a
newline: the extraction skips all the whitespace that follows, newlines included. -/
theorem within_line_elem_ws (a : Char) (sep tok tail : List Char) (d old : Decimal)
    (ha : isspace a = true) (hn : a ≠ '\n') (hws : ∀ x ∈ sep, isspace x = true)
    (ht : ScalarToken tok d) (htail : starts_space tail = true) :
    within_line_elem old (IStream.fresh (a :: (sep ++ (tok ++ tail))))
      = (some d, IStream.fresh tail) := by
  have e := extract_double_token (a :: sep) tok tail d old
    (by
      intro x hx
      rcases List.mem_cons.1 hx with rfl | hx
      · exact ha
      · exact hws x hx) ht htail
  rw [List.cons_append] at e
  simp only [within_line_elem, peek_fresh_cons, Option.some.injEq, hn, if_false, e]

/-- With the optional-coloured vertex shape, the line `0 0 0` followed by one space before its
newline is read together with the next line `1 1 1`: the body of the vertex loop takes the
colour from the next line and leaves the stream after that next line. -/
theorem optional_color_trailing_blank_record :
    VertexRecord (.optional_colored_vertex .v3 .v3) "0 0 0 \n1 1 1".toList
      (.optional_colored_vertex (.vec3 (.ofNat 0) (.ofNat 0) (.ofNat 0))
        (some (.vec3 (.ofNat 1) (.ofNat 1) (.ofNat 1)))) := by
  intro u i rest
  have s0 : ScalarToken ['0'] (Decimal.ofNat 0) :=
    scalar_token_nat ['0'] 0 (by decide) (by decide) (by decide) (by decide)
  have s1 : ScalarToken ['1'] (Decimal.ofNat 1) :=
    scalar_token_nat ['1'] 1 (by decide) (by decide) (by decide) (by decide)
  have hstop := ignore_comment_stop '0'
    (' ' :: '0' :: ' ' :: '0' :: ' ' :: '\n' :: '1' :: ' ' :: '1' :: ' ' :: '1' :: '\n' :: rest)
    (by decide) (by decide)
  have e := parse_vec_fields (.vec3 (.ofNat 0) (.ofNat 0) (.ofNat 0))
    [([], ['0']), ([' '], ['0']), ([' '], ['0'])]
    (' ' :: '\n' :: '1' :: ' ' :: '1' :: ' ' :: '1' :: '\n' :: rest) (u.position i)
    (List.Forall₂.cons ⟨blanks_nil, s0⟩ (List.Forall₂.cons ⟨blanks_one_space, s0⟩
      (List.Forall₂.cons ⟨blanks_one_space, s0⟩ List.Forall₂.nil)))
    (by intro f hf; simp at hf; subst hf; simp)
    (starts_space_cons _ _ (by decide))
  have w1 := within_line_elem_ws ' ' ['\n'] ['1'] (' ' :: '1' :: ' ' :: '1' :: '\n' :: rest)
    (Decimal.ofNat 1) (u.vertex_color i 0) (by decide) (by decide) (by decide) s1
    (starts_space_cons _ _ (by decide))
  have w2 := within_line_elem_field [' '] ['1'] (' ' :: '1' :: '\n' :: rest)
    (Decimal.ofNat 1) (u.vertex_color i 1) blanks_one_space (by decide) s1
    (starts_space_cons _ _ (by decide))
  have w3 := within_line_elem_field [' '] ['1'] ('\n' :: rest)
    (Decimal.ofNat 1) (u.vertex_color i 2) blanks_one_space (by decide) s1
    (starts_space_cons _ _ (by decide))
  have hig : ignore_until_newline (IStream.fresh ('\n' :: rest)) = IStream.fresh rest :=
    ignore_until_newline_fresh [] rest (by simp)
  simp only [spaced, Vec.kind, List.nil_append, List.cons_append, List.append_nil,
    List.singleton_append] at e w1 w2 w3
  have htext : "0 0 0 \n1 1 1".toList ++ '\n' :: rest
      = '0' :: ' ' :: '0' :: ' ' :: '0' :: ' ' :: '\n' :: '1' :: ' ' :: '1' :: ' ' :: '1'
          :: '\n' :: rest := by
    simp
  rw [htext]
  simp only [parse_vertex, hstop, VertexShape.position_type, e, parse_vec_within_line, w1, w2,
    w3, hig]

/-- C6 (behaviour of the code at the failing input). With the optional-coloured vertex shape of
3 channels, the input `OFF / 2 0 0 / 0 0 0␠ / 1 1 1 / 2 2 2`, whose first vertex line has one
space between its third position token and its newline, gives a first vertex with colour
(1,1,1), taken from the following line, and a second vertex at (2,2,2): the line `1 1 1` is not
parsed as the next record. -/
theorem optional_color_trailing_blank_crosses_line (u : Uninit) :
    parse_text (.optional_colored_vertex .v3 .v3) (.face 16) u
        "OFF\n2 0 0\n0 0 0 \n1 1 1\n2 2 2\n"
      = ⟨[.optional_colored_vertex (.vec3 (.ofNat 0) (.ofNat 0) (.ofNat 0))
            (some (.vec3 (.ofNat 1) (.ofNat 1) (.ofNat 1))),
          .optional_colored_vertex (.vec3 (.ofNat 2) (.ofNat 2) (.ofNat 2)) none],
         [], 0⟩ := by
  have s2 : ScalarToken ['2'] (Decimal.ofNat 2) :=
    scalar_token_nat ['2'] 2 (by decide) (by decide) (by decide) (by decide)
  have c0 : UnsignedToken 64 ['0'] 0 :=
    unsigned_token_nat 64 ['0'] 0 (by decide) (by decide) (by decide) (by decide)
  have c2 : UnsignedToken 64 ['2'] 2 :=
    unsigned_token_nat 64 ['2'] 2 (by decide) (by decide) (by decide) (by decide)
  have r2 := vertex_record_optional_absent (.vec3 (.ofNat 2) (.ofNat 2) (.ofNat 2)) .v3
    [([], ['2']), ([' '], ['2']), ([' '], ['2'])]
    (List.Forall₂.cons ⟨blanks_nil, s2⟩ (List.Forall₂.cons ⟨blanks_one_space, s2⟩
      (List.Forall₂.cons ⟨blanks_one_space, s2⟩ List.Forall₂.nil)))
    (by intro f hf; simp at hf; subst hf; simp)
  have htext : "OFF\n2 0 0\n0 0 0 \n1 1 1\n2 2 2\n".toList
      = off_text ['O', 'F', 'F'] (counts_line ['2'] [' '] ['0'] [' '] ['0'] [])
          [([], "0 0 0 \n1 1 1".toList),
           ([], spaced [([], ['2']), ([' '], ['2']), ([' '], ['2'])])] [] [] := by
    decide
  unfold parse_text
  rw [htext]
  exact parse_off_text (.optional_colored_vertex .v3 .v3) (.face 16) u ['O', 'F', 'F'] ['2']
    [' '] ['0'] [' '] ['0'] [] [] 0 _ _
    [.optional_colored_vertex (.vec3 (.ofNat 0) (.ofNat 0) (.ofNat 0))
        (some (.vec3 (.ofNat 1) (.ofNat 1) (.ofNat 1))),
     .optional_colored_vertex (.vec3 (.ofNat 2) (.ofNat 2) (.ofNat 2)) none]
    []
    (by decide) c2 c0 c0 blanks_one_space (by decide) blanks_one_space (by decide)
    (line_rest_of_blanks blanks_nil)
    (List.Forall₂.cons ⟨⟨[], by simp, rfl⟩, optional_color_trailing_blank_record⟩
      (List.Forall₂.cons ⟨⟨[], by simp, rfl⟩, r2⟩ List.Forall₂.nil))
    List.Forall₂.nil

end OffParser

namespace OffParser

/-- C7. For an optional-coloured vertex or face shape whose colour has 3 or 4 channels (the
vector `color`), a record line that carries, after its position tokens (or after its count and
that many index tokens), exactly the colour tokens and then only blanks before its newline
yields a record whose colour is present with exactly the values of those tokens, in order; the
stream is left at the beginning of the next line. -/
theorem optional_color_present (position color : Vec) (w : Nat) (tk : List Char)
    (pf cf idxf : List (List Char × List Char)) (ns : List Nat) (trail : List Char)
    (hp : ScalarFields pf position.toList) (hpsep : Separated pf.tail)
    (hk : UnsignedToken 64 tk ns.length) (hi : UnsignedFields w idxf ns)
    (hisep : Separated idxf)
    (hc : ScalarFields cf color.toList) (hcsep : Separated cf) (ht : Blanks trail) :
    (∀ (u : Uninit) (i : Nat) (rest : List Char),
      parse_vertex (.optional_colored_vertex position.kind color.kind) u i
          (IStream.fresh ((spaced pf ++ (spaced cf ++ trail)) ++ '\n' :: rest))
        = (.optional_colored_vertex position (some color), IStream.fresh rest)) ∧
    (∀ (u : Uninit) (i : Nat) (rest : List Char),
      parse_face (.optional_colored_face w color.kind) u i
          (IStream.fresh ((tk ++ (spaced idxf ++ (spaced cf ++ trail))) ++ '\n' :: rest))
        = (.optional_colored_face ns (some color), IStream.fresh rest)) :=
  ⟨vertex_record_optional_present position color pf cf trail hp hpsep hc hcsep
      (line_rest_of_blanks ht),
    face_record_optional_present w tk idxf cf ns color trail hk hi hisep hc hcsep
      (line_rest_of_blanks ht)⟩

/-- Instance of C7 with 4 channels: the vertex line `0 0 0 255 0 0 128` and the face line
`3 0 1 2 255 0 0 128`. -/
theorem optional_color_present_witness :
    parse_vertex (.optional_colored_vertex .v3 .v4) uninit_zero 0
        (IStream.fresh "0 0 0 255 0 0 128\n".toList)
      = (.optional_colored_vertex (.vec3 (.ofNat 0) (.ofNat 0) (.ofNat 0))
          (some (.vec4 (.ofNat 255) (.ofNat 0) (.ofNat 0) (.ofNat 128))), IStream.fresh []) ∧
    parse_face (.optional_colored_face 16 .v4) uninit_zero 0
        (IStream.fresh "3 0 1 2 255 0 0 128\n".toList)
      = (.optional_colored_face [0, 1, 2]
          (some (.vec4 (.ofNat 255) (.ofNat 0) (.ofNat 0) (.ofNat 128))), IStream.fresh []) := by
  have s0 : ScalarToken ['0'] (Decimal.ofNat 0) :=
    scalar_token_nat ['0'] 0 (by decide) (by decide) (by decide) (by decide)
  have s255 : ScalarToken ['2', '5', '5'] (Decimal.ofNat 255) :=
    scalar_token_nat ['2', '5', '5'] 255 (by decide) (by decide) (by decide) (by decide)
  have s128 : ScalarToken ['1', '2', '8'] (Decimal.ofNat 128) :=
    scalar_token_nat ['1', '2', '8'] 128 (by decide) (by decide) (by decide) (by decide)
  have c3 : UnsignedToken 64 ['3'] 3 :=
    unsigned_token_nat 64 ['3'] 3 (by decide) (by decide) (by decide) (by decide)
  have i0 : UnsignedToken 16 ['0'] 0 :=
    unsigned_token_nat 16 ['0'] 0 (by decide) (by decide) (by decide) (by decide)
  have i1 : UnsignedToken 16 ['1'] 1 :=
    unsigned_token_nat 16 ['1'] 1 (by decide) (by decide) (by decide) (by decide)
  have i2 : UnsignedToken 16 ['2'] 2 :=
    unsigned_token_nat 16 ['2'] 2 (by decide) (by decide) (by decide) (by decide)
  have h := optional_color_present (.vec3 (.ofNat 0) (.ofNat 0) (.ofNat 0))
    (.vec4 (.ofNat 255) (.ofNat 0) (.ofNat 0) (.ofNat 128)) 16 ['3']
    [([], ['0']), ([' '], ['0']), ([' '], ['0'])]
    [([' '], ['2', '5', '5']), ([' '], ['0']), ([' '], ['0']), ([' '], ['1', '2', '8'])]
    [([' '], ['0']), ([' '], ['1']), ([' '], ['2'])] [0, 1, 2] []
    (List.Forall₂.cons ⟨blanks_nil, s0⟩ (List.Forall₂.cons ⟨blanks_one_space, s0⟩
      (List.Forall₂.cons ⟨blanks_one_space, s0⟩ List.Forall₂.nil)))
    (by intro f hf; simp at hf; subst hf; simp)
    c3
    (List.Forall₂.cons ⟨blanks_one_space, i0⟩ (List.Forall₂.cons ⟨blanks_one_space, i1⟩
      (List.Forall₂.cons ⟨blanks_one_space, i2⟩ List.Forall₂.nil)))
    (by intro f hf; simp at hf; rcases hf with rfl | rfl | rfl <;> simp)
    (List.Forall₂.cons ⟨blanks_one_space, s255⟩ (List.Forall₂.cons ⟨blanks_one_space, s0⟩
      (List.Forall₂.cons ⟨blanks_one_space, s0⟩
        (List.Forall₂.cons ⟨blanks_one_space, s128⟩ List.Forall₂.nil))))
    (by intro f hf; simp at hf; rcases hf with rfl | rfl | rfl <;> simp)
    blanks_nil
  exact ⟨h.1 uninit_zero 0 [], h.2 uninit_zero 0 []⟩

/-- What the body of the face loop builds from a face line that declares `k` indices but carries
only `m < k` index tokens, directly followed by its newline: the face has exactly those `m`
indices in order, in every face shape.  With the plain and the optional-coloured face shapes
(the latter with its colour absent) the stream stays good and is left at the beginning of the
next line.  The `reserve` call of the body is added by `parse_face_outcome`. -/
theorem short_face_record_tolerated (w : Nat) (tk : List Char)
    (idxf : List (List Char × List Char)) (ns : List Nat) (k : Nat)
    (hk : UnsignedToken 64 tk k) (hi : UnsignedFields w idxf ns) (hsep : Separated idxf)
    (hlen : ns.length < k) :
    (∀ (u : Uninit) (i : Nat) (rest : List Char),
      parse_face (.face w) u i (IStream.fresh ((tk ++ spaced idxf) ++ '\n' :: rest))
        = (.face ns, IStream.fresh rest)) ∧
    (∀ (ck : VecKind) (u : Uninit) (i : Nat) (rest : List Char),
      parse_face (.optional_colored_face w ck) u i
          (IStream.fresh ((tk ++ spaced idxf) ++ '\n' :: rest))
        = (.optional_colored_face ns none, IStream.fresh rest)) ∧
    (∀ (ck : VecKind) (u : Uninit) (i : Nat) (rest : List Char),
      (parse_face (.colored_face w ck) u i
          (IStream.fresh ((tk ++ spaced idxf) ++ '\n' :: rest))).1.vertex_indices = ns) := by
  refine ⟨?_, ?_, ?_⟩
  · have h := face_record_plain w tk idxf ns k [] hk hi hsep (Or.inr ⟨hlen, rfl⟩)
    intro u i rest
    have h2 := h u i rest
    simpa using h2
  · intro ck
    exact face_record_optional_absent w ck tk idxf ns k hk hi hsep (Nat.le_of_lt hlen)
  · intro ck u i rest
    exact short_face_indices (.colored_face w ck) u i tk idxf ns k rest hk hi hsep hlen

/-- The face line `4 0 1 2` declares four indices and carries three; the next line `3 4 5 6` is
left in the stream. -/
theorem short_face_record_tolerated_witness :
    parse_face (.face 16) uninit_zero 0 (IStream.fresh "4 0 1 2\n3 4 5 6\n".toList)
      = (.face [0, 1, 2], IStream.fresh "3 4 5 6\n".toList) := by
  have c4 : UnsignedToken 64 ['4'] 4 :=
    unsigned_token_nat 64 ['4'] 4 (by decide) (by decide) (by decide) (by decide)
  have i0 : UnsignedToken 16 ['0'] 0 :=
    unsigned_token_nat 16 ['0'] 0 (by decide) (by decide) (by decide) (by decide)
  have i1 : UnsignedToken 16 ['1'] 1 :=
    unsigned_token_nat 16 ['1'] 1 (by decide) (by decide) (by decide) (by decide)
  have i2 : UnsignedToken 16 ['2'] 2 :=
    unsigned_token_nat 16 ['2'] 2 (by decide) (by decide) (by decide) (by decide)
  have h := short_face_record_tolerated 16 ['4']
    [([' '], ['0']), ([' '], ['1']), ([' '], ['2'])] [0, 1, 2] 4 c4
    (List.Forall₂.cons ⟨blanks_one_space, i0⟩ (List.Forall₂.cons ⟨blanks_one_space, i1⟩
      (List.Forall₂.cons ⟨blanks_one_space, i2⟩ List.Forall₂.nil)))
    (by intro f hf; simp at hf; rcases hf with rfl | rfl | rfl <;> simp)
    (by decide)
  exact h.1 uninit_zero 0 "3 4 5 6\n".toList

/-- C10. In a well-formed input (a counts line whose counts are the numbers of record lines,
and one record per line), blocks of empty lines and comment lines inserted in front of any
vertex record or face record (so between the counts line and the first record, between two
consecutive records, and between the last vertex record and the first face record) leave the
mesh returned by `parse` unchanged: with and without the blocks it is the mesh of the records
of the lines. -/
theorem comments_between_records (vs : VertexShape) (fs : FaceShape) (u : Uninit)
    (header tV w1 tF w2 tE trail after : List Char) (E : Nat)
    (vrecs frecs : List (List Char × List Char)) (vl : List Vertex) (fl : List Face)
    (hh : '\n' ∉ header)
    (hV : UnsignedToken 64 tV vl.length) (hF : UnsignedToken 64 tF fl.length)
    (hE : UnsignedToken 64 tE E)
    (hw1 : Blanks w1) (h1 : w1 ≠ []) (hw2 : Blanks w2) (h2 : w2 ≠ []) (ht : LineRest trail)
    (hv : List.Forall₂ (fun r v => SkippedBlock r.1 ∧ VertexRecord vs r.2 v) vrecs vl)
    (hf : List.Forall₂ (fun r f => SkippedBlock r.1 ∧ FaceRecord fs r.2 f) frecs fl) :
    parse vs fs u
        (IStream.fresh (off_text header (counts_line tV w1 tF w2 tE trail) vrecs frecs after))
      = parse vs fs u
        (IStream.fresh (off_text header (counts_line tV w1 tF w2 tE trail)
          (vrecs.map without_block) (frecs.map without_block) after)) ∧
    parse vs fs u
        (IStream.fresh (off_text header (counts_line tV w1 tF w2 tE trail)
          (vrecs.map without_block) (frecs.map without_block) after))
      = ⟨vl, fl, E⟩ := by
  have ha := parse_off_text vs fs u header tV w1 tF w2 tE trail after E vrecs frecs vl fl
    hh hV hF hE hw1 h1 hw2 h2 ht hv hf
  have hb := parse_off_text vs fs u header tV w1 tF w2 tE trail after E
    (vrecs.map without_block) (frecs.map without_block) vl fl
    hh hV hF hE hw1 h1 hw2 h2 ht (forall₂_without_block _ _ _ hv) (forall₂_without_block _ _ _ hf)
  exact ⟨ha.trans hb.symm, hb⟩

end OffParser

namespace OffParser

/-- Instance of C10: comment lines and empty lines in front of the first vertex, between the two
vertices and in front of the face. -/
theorem comments_between_records_witness :
    parse (.vertex .v3) (.face 16) uninit_zero
        (IStream.fresh "OFF\n2 1 3\n# vertices\n0 0 0\n\n1 0 0\n# faces\n\n2 0 1\n".toList)
      = parse (.vertex .v3) (.face 16) uninit_zero
        (IStream.fresh "OFF\n2 1 3\n0 0 0\n1 0 0\n2 0 1\n".toList) := by
  have s0 : ScalarToken ['0'] (Decimal.ofNat 0) :=
    scalar_token_nat ['0'] 0 (by decide) (by decide) (by decide) (by decide)
  have s1 : ScalarToken ['1'] (Decimal.ofNat 1) :=
    scalar_token_nat ['1'] 1 (by decide) (by decide) (by decide) (by decide)
  have c1 : UnsignedToken 64 ['1'] 1 :=
    unsigned_token_nat 64 ['1'] 1 (by decide) (by decide) (by decide) (by decide)
  have c2 : UnsignedToken 64 ['2'] 2 :=
    unsigned_token_nat 64 ['2'] 2 (by decide) (by decide) (by decide) (by decide)
  have c3 : UnsignedToken 64 ['3'] 3 :=
    unsigned_token_nat 64 ['3'] 3 (by decide) (by decide) (by decide) (by decide)
  have i0 : UnsignedToken 16 ['0'] 0 :=
    unsigned_token_nat 16 ['0'] 0 (by decide) (by decide) (by decide) (by decide)
  have i1 : UnsignedToken 16 ['1'] 1 :=
    unsigned_token_nat 16 ['1'] 1 (by decide) (by decide) (by decide) (by decide)
  have f1 := face_record_plain_spaces 16 ['2'] 2 [['0'], ['1']] [0, 1] c2
    (List.Forall₂.cons i0 (List.Forall₂.cons i1 List.Forall₂.nil)) (by decide)
  have b1 : SkippedBlock "# vertices\n".toList :=
    ⟨["# vertices\n".toList],
      by
        intro l hl
        simp only [List.mem_singleton] at hl
        subst hl
        exact Or.inr ⟨" vertices".toList, by decide, by decide⟩,
      by decide⟩
  have b2 : SkippedBlock "\n".toList :=
    ⟨["\n".toList],
      by
        intro l hl
        simp only [List.mem_singleton] at hl
        subst hl
        exact Or.inl (by decide),
      by decide⟩
  have b3 : SkippedBlock "# faces\n\n".toList :=
    ⟨["# faces\n".toList, "\n".toList],
      by
        intro l hl
        simp only [List.mem_cons, List.mem_singleton, List.not_mem_nil, or_false] at hl
        rcases hl with rfl | rfl
        · exact Or.inr ⟨" faces".toList, by decide, by decide⟩
        · exact Or.inl (by decide),
      by decide⟩
  have h := comments_between_records (.vertex .v3) (.face 16) uninit_zero ['O', 'F', 'F']
    ['2'] [' '] ['1'] [' '] ['3'] [] [] 3
    [("# vertices\n".toList, ['0'] ++ ' ' :: (['0'] ++ ' ' :: ['0'])),
     ("\n".toList, ['1'] ++ ' ' :: (['0'] ++ ' ' :: ['0']))]
    [("# faces\n\n".toList, ['2'] ++ spaced ([['0'], ['1']].map (fun t => ([' '], t))))]
    [.vertex (.vec3 (.ofNat 0) (.ofNat 0) (.ofNat 0)),
     .vertex (.vec3 (.ofNat 1) (.ofNat 0) (.ofNat 0))]
    [.face [0, 1]]
    (by decide) c2 c1 c3 blanks_one_space (by decide) blanks_one_space (by decide)
    (line_rest_of_blanks blanks_nil)
    (List.Forall₂.cons ⟨b1, vertex_record_plain3 _ _ _ _ _ _ s0 s0 s0⟩
      (List.Forall₂.cons ⟨b2, vertex_record_plain3 _ _ _ _ _ _ s1 s0 s0⟩ List.Forall₂.nil))
    (List.Forall₂.cons ⟨b3, f1⟩ List.Forall₂.nil)
  have t1 : "OFF\n2 1 3\n# vertices\n0 0 0\n\n1 0 0\n# faces\n\n2 0 1\n".toList
      = off_text ['O', 'F', 'F'] (counts_line ['2'] [' '] ['1'] [' '] ['3'] [])
          [("# vertices\n".toList, ['0'] ++ ' ' :: (['0'] ++ ' ' :: ['0'])),
           ("\n".toList, ['1'] ++ ' ' :: (['0'] ++ ' ' :: ['0']))]
          [("# faces\n\n".toList, ['2'] ++ spaced ([['0'], ['1']].map (fun t => ([' '], t))))]
          [] := by
    decide
  have t2 : "OFF\n2 1 3\n0 0 0\n1 0 0\n2 0 1\n".toList
      = off_text ['O', 'F', 'F'] (counts_line ['2'] [' '] ['1'] [' '] ['3'] [])
          ([("# vertices\n".toList, ['0'] ++ ' ' :: (['0'] ++ ' ' :: ['0'])),
            ("\n".toList, ['1'] ++ ' ' :: (['0'] ++ ' ' :: ['0']))].map without_block)
          ([("# faces\n\n".toList,
            ['2'] ++ spaced ([['0'], ['1']].map (fun t => ([' '], t))))].map without_block)
          [] := by
    decide
  rw [t1, t2]
  exact h.1

end OffParser

namespace OffParser

/-- C11. The header line is not validated: two inputs that differ only in the characters of the
first line before its first newline (an empty first line included) give the same mesh. -/
theorem header_line_ignored (vs : VertexShape) (fs : FaceShape) (u : Uninit)
    (header1 header2 rest : List Char) (h1 : '\n' ∉ header1) (h2 : '\n' ∉ header2) :
    parse vs fs u (IStream.fresh (header1 ++ '\n' :: rest))
      = parse vs fs u (IStream.fresh (header2 ++ '\n' :: rest)) := by
  have hc : parse_counts u (IStream.fresh (header1 ++ '\n' :: rest))
      = parse_counts u (IStream.fresh (header2 ++ '\n' :: rest)) := by
    simp only [parse_counts, ignore_until_newline_fresh header1 _ h1,
      ignore_until_newline_fresh header2 _ h2]
  simp only [parse, hc]

/-- Instance of C11: the header `OFF` against a first line that looks like a counts line. -/
theorem header_line_ignored_witness :
    parse (.vertex .v3) (.face 16) uninit_zero
        (IStream.fresh ("OFF".toList ++ '\n' :: "1 0 0\n0 0 0\n".toList))
      = parse (.vertex .v3) (.face 16) uninit_zero
        (IStream.fresh ("7 7 7".toList ++ '\n' :: "1 0 0\n0 0 0\n".toList)) :=
  header_line_ignored (.vertex .v3) (.face 16) uninit_zero "OFF".toList "7 7 7".toList
    "1 0 0\n0 0 0\n".toList (by decide) (by decide)

/-- C16. In a well-formed input, whatever follows the newline of the last declared face record
(or of the last vertex record when no face is declared) is not read: appending arbitrary
characters there leaves the mesh returned by `parse` unchanged. -/
theorem content_after_last_record_ignored (vs : VertexShape) (fs : FaceShape) (u : Uninit)
    (header tV w1 tF w2 tE trail after : List Char) (E : Nat)
    (vrecs frecs : List (List Char × List Char)) (vl : List Vertex) (fl : List Face)
    (hh : '\n' ∉ header)
    (hV : UnsignedToken 64 tV vl.length) (hF : UnsignedToken 64 tF fl.length)
    (hE : UnsignedToken 64 tE E)
    (hw1 : Blanks w1) (h1 : w1 ≠ []) (hw2 : Blanks w2) (h2 : w2 ≠ []) (ht : LineRest trail)
    (hv : List.Forall₂ (fun r v => SkippedBlock r.1 ∧ VertexRecord vs r.2 v) vrecs vl)
    (hf : List.Forall₂ (fun r f => SkippedBlock r.1 ∧ FaceRecord fs r.2 f) frecs fl) :
    parse vs fs u
        (IStream.fresh (off_text header (counts_line tV w1 tF w2 tE trail) vrecs frecs after))
      = parse vs fs u
        (IStream.fresh (off_text header (counts_line tV w1 tF w2 tE trail) vrecs frecs [])) := by
  rw [parse_off_text vs fs u header tV w1 tF w2 tE trail after E vrecs frecs vl fl
      hh hV hF hE hw1 h1 hw2 h2 ht hv hf,
    parse_off_text vs fs u header tV w1 tF w2 tE trail [] E vrecs frecs vl fl
      hh hV hF hE hw1 h1 hw2 h2 ht hv hf]

end OffParser

namespace type_mapper

variable {T V : Type} [DecidableEq V]

/-- C20. The two lookups agree: `static_map` succeeds exactly when `map` returns an alternative
other than `std::monostate`, and then both return the same shape. -/
theorem lookups_agree (tm : type_mapper T V) (value : V) :
    ((∃ t, tm.static_map value = Except.ok t) ↔ tm.map value ≠ none) ∧
    (∀ t, tm.static_map value = Except.ok t ↔ tm.map value = some t) := by
  rw [static_map_eq_find, map_eq_find]
  cases tm.mappings.find? (fun e => decide (value = e.mapper)) with
  | none =>
    refine ⟨⟨?_, fun h => absurd rfl h⟩, fun t => ⟨?_, ?_⟩⟩
    · rintro ⟨t, h⟩
      cases h
    · intro h
      cases h
    · intro h
      cases h
  | some e =>
    refine ⟨⟨fun _ h => (nomatch h), fun _ => ⟨e.type, rfl⟩⟩, fun t => ⟨?_, ?_⟩⟩
    · intro h
      cases h
      rfl
    · intro h
      cases h
      rfl

end type_mapper

/-- C19. With channel counts that pass their own checks, the validation of `main` ends with
exit status 2, through the `std::invalid_argument` whose message says that vertices and faces
must not both be coloured, exactly when the vertex mode and the face mode are both mandatory;
for each of the eight other combinations of modes `main` goes on to parse the file. -/
theorem both_mandatory_rejected (vm fm : ColorMode) (vcc fcc : Int)
    (hv : vcc = 3 ∨ vcc = 4) (hf : fcc = 3 ∨ fcc = 4) :
    (main_validation_status (arguments_of vm fm vcc fcc) = some 2
      ↔ vm = .mandatory ∧ fm = .mandatory) ∧
    (main_validation_status (arguments_of vm fm vcc fcc) = none
      ↔ ¬ (vm = .mandatory ∧ fm = .mandatory)) ∧
    (vm = .mandatory ∧ fm = .mandatory →
      argument_validation (arguments_of vm fm vcc fcc)
        = Except.error "OFF file should not have both colored vertex and colored face.") := by
  rcases hv with rfl | rfl <;> rcases hf with rfl | rfl <;> cases vm <;> cases fm <;>
    simp [main_validation_status, argument_validation, arguments_of, is_one_of]

/-- Instance of C19: `-vc -fc` with three channels each is rejected with status 2. -/
theorem both_mandatory_rejected_witness :
    main_validation_status (arguments_of .mandatory .mandatory 3 3) = some 2 :=
  ((both_mandatory_rejected .mandatory .mandatory 3 3 (Or.inl rfl) (Or.inl rfl)).1).2 ⟨rfl, rfl⟩

namespace OffParser

/-- The vertices and the edge count read from an input with a counts line and one record per
vertex line, whatever follows the vertex lines. -/
theorem parse_vertices_part (vs : VertexShape) (fs : FaceShape) (u : Uninit)
    (header tV w1 tF w2 tE trail after : List Char) (F E : Nat)
    (vrecs : List (List Char × List Char)) (vl : List Vertex)
    (hh : '\n' ∉ header)
    (hV : UnsignedToken 64 tV vl.length) (hF : UnsignedToken 64 tF F)
    (hE : UnsignedToken 64 tE E)
    (hw1 : Blanks w1) (h1 : w1 ≠ []) (hw2 : Blanks w2) (h2 : w2 ≠ []) (ht : LineRest trail)
    (hv : List.Forall₂ (fun r v => SkippedBlock r.1 ∧ VertexRecord vs r.2 v) vrecs vl) :
    parse vs fs u (IStream.fresh (header ++ '\n' ::
        (counts_line tV w1 tF w2 tE trail ++ '\n' :: (records_text vrecs ++ after))))
      = ⟨vl, (parse_faces fs u F 0 (IStream.fresh after)).1, E⟩ := by
  have hc := parse_counts_text u header tV w1 tF w2 tE
    (trail ++ '\n' :: (records_text vrecs ++ after))
    vl.length F E hh hV hF hE (blanks_space hw1) h1 (blanks_space hw2) h2 (line_rest_starts ht _)
  have htext : header ++ '\n' ::
        (counts_line tV w1 tF w2 tE trail ++ '\n' :: (records_text vrecs ++ after))
      = header ++ '\n' :: counts_line tV w1 tF w2 tE
          (trail ++ '\n' :: (records_text vrecs ++ after)) := by
    simp [counts_line, List.append_assoc]
  rw [htext]
  simp only [parse, hc, line_rest_ignore ht, parse_vertices_records vs u vrecs vl hv 0]

/-- C12. With the mandatory-coloured vertex shape of 3 channels, when every vertex line consists
of six scalar tokens `x y z r g b` separated by blanks, every vertex of the returned mesh has
the position read from the first three tokens of its line and the colour read from the last
three tokens of the same line, in order, whatever the face part of the input is. -/
theorem mandatory_color_from_line (fs : FaceShape) (u : Uninit)
    (header tV w1 tF w2 tE trail after : List Char) (F E : Nat)
    (lines : List (List Char)) (vals : List (Vec × Vec))
    (hh : '\n' ∉ header)
    (hV : UnsignedToken 64 tV vals.length) (hF : UnsignedToken 64 tF F)
    (hE : UnsignedToken 64 tE E)
    (hw1 : Blanks w1) (h1 : w1 ≠ []) (hw2 : Blanks w2) (h2 : w2 ≠ []) (ht : LineRest trail)
    (hlines : List.Forall₂ (fun line pc =>
      pc.1.kind = .v3 ∧ pc.2.kind = .v3 ∧
      ∃ pf cf tr, ScalarFields pf pc.1.toList ∧ Separated pf.tail ∧
        ScalarFields cf pc.2.toList ∧ Separated cf ∧ Blanks tr ∧
        line = spaced pf ++ (spaced cf ++ tr)) lines vals) :
    (parse (.colored_vertex .v3 .v3) fs u (IStream.fresh (header ++ '\n' ::
        (counts_line tV w1 tF w2 tE trail ++ '\n' ::
          (records_text (lines.map (fun l => ([], l))) ++ after))))).vertices
      = vals.map (fun pc => Vertex.colored_vertex pc.1 pc.2) := by
  have hv : List.Forall₂
      (fun r v => SkippedBlock r.1 ∧ VertexRecord (.colored_vertex .v3 .v3) r.2 v)
      (lines.map (fun l => ([], l))) (vals.map (fun pc => Vertex.colored_vertex pc.1 pc.2)) := by
    clear hV
    induction hlines with
    | nil => exact List.Forall₂.nil
    | @cons line pc lines vals hd _ ih =>
      obtain ⟨k1, k2, pf, cf, tr, hp, hps, hc, hcs, htr, rfl⟩ := hd
      have hr := vertex_record_colored pc.1 pc.2 pf cf tr hp hps hc hcs (line_rest_of_blanks htr)
      rw [k1, k2] at hr
      exact List.Forall₂.cons ⟨⟨[], by simp, rfl⟩, hr⟩ ih
  have hV2 : UnsignedToken 64 tV (vals.map (fun pc => Vertex.colored_vertex pc.1 pc.2)).length := by
    simpa using hV
  rw [parse_vertices_part (.colored_vertex .v3 .v3) fs u header tV w1 tF w2 tE trail after F E
    _ _ hh hV2 hF hE hw1 h1 hw2 h2 ht hv]

/-- Instance of C12: one vertex line `0 0 0 255 0 0` gives position (0, 0, 0) and colour
(255, 0, 0). -/
theorem mandatory_color_from_line_witness :
    (parse_text (.colored_vertex .v3 .v3) (.face 16) uninit_zero
        "OFF\n1 0 0\n0 0 0 255 0 0\n").vertices
      = [.colored_vertex (.vec3 (.ofNat 0) (.ofNat 0) (.ofNat 0))
          (.vec3 (.ofNat 255) (.ofNat 0) (.ofNat 0))] := by
  have s0 : ScalarToken ['0'] (Decimal.ofNat 0) :=
    scalar_token_nat ['0'] 0 (by decide) (by decide) (by decide) (by decide)
  have s255 : ScalarToken ['2', '5', '5'] (Decimal.ofNat 255) :=
    scalar_token_nat ['2', '5', '5'] 255 (by decide) (by decide) (by decide) (by decide)
  have c1 : UnsignedToken 64 ['1'] 1 :=
    unsigned_token_nat 64 ['1'] 1 (by decide) (by decide) (by decide) (by decide)
  have c0 : UnsignedToken 64 ['0'] 0 :=
    unsigned_token_nat 64 ['0'] 0 (by decide) (by decide) (by decide) (by decide)
  have h := mandatory_color_from_line (.face 16) uninit_zero "OFF".toList
    ['1'] [' '] ['0'] [' '] ['0'] [] [] 0 0 ["0 0 0 255 0 0".toList]
    [(.vec3 (.ofNat 0) (.ofNat 0) (.ofNat 0), .vec3 (.ofNat 255) (.ofNat 0) (.ofNat 0))]
    (by decide) c1 c0 c0 blanks_one_space (by simp) blanks_one_space (by simp)
    (line_rest_of_blanks blanks_nil)
    (List.Forall₂.cons
      ⟨rfl, rfl, [([], ['0']), ([' '], ['0']), ([' '], ['0'])],
        [([' '], ['2', '5', '5']), ([' '], ['0']), ([' '], ['0'])], [],
        List.Forall₂.cons ⟨blanks_nil, s0⟩ (List.Forall₂.cons ⟨blanks_one_space, s0⟩
          (List.Forall₂.cons ⟨blanks_one_space, s0⟩ List.Forall₂.nil)),
        (by intro f hf; simp at hf; subst hf; simp),
        List.Forall₂.cons ⟨blanks_one_space, s255⟩ (List.Forall₂.cons ⟨blanks_one_space, s0⟩
          (List.Forall₂.cons ⟨blanks_one_space, s0⟩ List.Forall₂.nil)),
        (by intro f hf; simp at hf; rcases hf with rfl | rfl | rfl <;> simp),
        blanks_nil, by decide⟩
      List.Forall₂.nil)
  exact h

end OffParser

namespace OffParser

/-! ## Complete record lines -/

/-- A complete vertex line, followed by anything after whitespace (by nothing when an optional
colour is still looked for), is read as its record and leaves the stream at the next line. -/
theorem vertex_line_record (vs : VertexShape) (line trail : List Char) (v : Vertex)
    (h : VertexLine vs line v) (ht : LineRest trail)
    (hp : v.color_pending = true → trail = []) : VertexRecord vs (line ++ trail) v := by
  cases vs with
  | vertex pk =>
    cases v with
    | vertex p =>
      obtain ⟨rfl, pf, h1, h2, rfl⟩ := h
      exact vertex_record_plain p pf trail h1 h2 ht
    | colored_vertex p c => exact absurd h (by simp [VertexLine])
    | optional_colored_vertex p c => exact absurd h (by simp [VertexLine])
  | colored_vertex pk ck =>
    cases v with
    | vertex p => exact absurd h (by simp [VertexLine])
    | colored_vertex p c =>
      obtain ⟨rfl, rfl, pf, cf, h1, h2, h3, h4, rfl⟩ := h
      rw [List.append_assoc]
      exact vertex_record_colored p c pf cf trail h1 h2 h3 h4 ht
    | optional_colored_vertex p c => exact absurd h (by simp [VertexLine])
  | optional_colored_vertex pk ck =>
    cases v with
    | vertex p => exact absurd h (by simp [VertexLine])
    | colored_vertex p c => exact absurd h (by simp [VertexLine])
    | optional_colored_vertex p c =>
      cases c with
      | none =>
        obtain ⟨rfl, pf, h1, h2, rfl⟩ := h
        rw [hp rfl, List.append_nil]
        exact vertex_record_optional_absent p ck pf h1 h2
      | some c =>
        obtain ⟨rfl, rfl, pf, cf, h1, h2, h3, h4, rfl⟩ := h
        rw [List.append_assoc]
        exact vertex_record_optional_present p c pf cf trail h1 h2 h3 h4 ht

/-- A complete face line, followed by anything after whitespace (by nothing when an optional
colour is still looked for), is read as its record and leaves the stream at the next line. -/
theorem face_line_record (fs : FaceShape) (line trail : List Char) (f : Face)
    (h : FaceLine fs line f) (ht : LineRest trail)
    (hp : f.color_pending = true → trail = []) : FaceRecord fs (line ++ trail) f := by
  cases fs with
  | face w =>
    cases f with
    | face ns =>
      obtain ⟨tk, idxf, h1, h2, h3, rfl⟩ := h
      rw [List.append_assoc]
      exact face_record_plain w tk idxf ns ns.length trail h1 h2 h3 (Or.inl ⟨rfl, ht⟩)
    | colored_face ns c => exact absurd h (by simp [FaceLine])
    | optional_colored_face ns c => exact absurd h (by simp [FaceLine])
  | colored_face w ck =>
    cases f with
    | face ns => exact absurd h (by simp [FaceLine])
    | colored_face ns c =>
      obtain ⟨rfl, tk, idxf, cf, h1, h2, h3, h4, h5, rfl⟩ := h
      simp only [List.append_assoc]
      exact face_record_colored w tk idxf cf ns c trail h1 h2 h3 h4 h5 ht
    | optional_colored_face ns c => exact absurd h (by simp [FaceLine])
  | optional_colored_face w ck =>
    cases f with
    | face ns => exact absurd h (by simp [FaceLine])
    | colored_face ns c => exact absurd h (by simp [FaceLine])
    | optional_colored_face ns c =>
      cases c with
      | none =>
        obtain ⟨tk, idxf, h1, h2, h3, rfl⟩ := h
        rw [hp rfl, List.append_nil]
        exact face_record_optional_absent w ck tk idxf ns ns.length h1 h2 h3 (Nat.le_refl _)
      | some c =>
        obtain ⟨rfl, tk, idxf, cf, h1, h2, h3, h4, h5, rfl⟩ := h
        simp only [List.append_assoc]
        exact face_record_optional_present w tk idxf cf ns c trail h1 h2 h3 h4 h5 ht

end OffParser

namespace OffParser

theorem vertex_lines_with_rest (vs : VertexShape) (vrecs : List (List Char × List Char))
    (vl : List Vertex)
    (hv : List.Forall₂ (fun r v => VertexLine vs r.1 v ∧ LineRest r.2 ∧
      (v.color_pending = true → r.2 = [])) vrecs vl) :
    List.Forall₂ (fun r v => SkippedBlock r.1 ∧ VertexRecord vs r.2 v)
      (vrecs.map (fun r => ([], r.1 ++ r.2))) vl ∧
    List.Forall₂ (fun r v => SkippedBlock r.1 ∧ VertexRecord vs r.2 v)
      (vrecs.map (fun r => ([], r.1))) vl := by
  induction hv with
  | nil => exact ⟨List.Forall₂.nil, List.Forall₂.nil⟩
  | @cons r v vrecs vl hd _ ih =>
    have r1 := vertex_line_record vs r.1 r.2 v hd.1 hd.2.1 hd.2.2
    have r2 := vertex_line_record vs r.1 [] v hd.1 (line_rest_of_blanks blanks_nil) (fun _ => rfl)
    rw [List.append_nil] at r2
    exact ⟨List.Forall₂.cons ⟨⟨[], by simp, rfl⟩, r1⟩ ih.1,
      List.Forall₂.cons ⟨⟨[], by simp, rfl⟩, r2⟩ ih.2⟩

theorem face_lines_with_rest (fs : FaceShape) (frecs : List (List Char × List Char))
    (fl : List Face)
    (hf : List.Forall₂ (fun r f => FaceLine fs r.1 f ∧ LineRest r.2 ∧
      (f.color_pending = true → r.2 = [])) frecs fl) :
    List.Forall₂ (fun r f => SkippedBlock r.1 ∧ FaceRecord fs r.2 f)
      (frecs.map (fun r => ([], r.1 ++ r.2))) fl ∧
    List.Forall₂ (fun r f => SkippedBlock r.1 ∧ FaceRecord fs r.2 f)
      (frecs.map (fun r => ([], r.1))) fl := by
  induction hf with
  | nil => exact ⟨List.Forall₂.nil, List.Forall₂.nil⟩
  | @cons r f frecs fl hd _ ih =>
    have r1 := face_line_record fs r.1 r.2 f hd.1 hd.2.1 hd.2.2
    have r2 := face_line_record fs r.1 [] f hd.1 (line_rest_of_blanks blanks_nil) (fun _ => rfl)
    rw [List.append_nil] at r2
    exact ⟨List.Forall₂.cons ⟨⟨[], by simp, rfl⟩, r1⟩ ih.1,
      List.Forall₂.cons ⟨⟨[], by simp, rfl⟩, r2⟩ ih.2⟩

/-- C17 (as the code behaves). The rest of a line after the fields of a complete record is
discarded: content that begins with whitespace, placed after the third count of the counts line,
after the last token of a complete vertex line or after the last token of a complete face line
(one that carries all the indices it declares), and before the newline of that line, does not
change the mesh returned by `parse`.  Where the reader still expects fields on the line nothing
is added: for a record of an optional-coloured shape without colour it still looks for the
colour on the line, and a face line with fewer indices than declared is not a complete face
line. -/
theorem rest_of_line_discarded (vs : VertexShape) (fs : FaceShape) (u : Uninit)
    (header tV w1 tF w2 tE ctrail after : List Char) (E : Nat)
    (vrecs frecs : List (List Char × List Char)) (vl : List Vertex) (fl : List Face)
    (hh : '\n' ∉ header)
    (hV : UnsignedToken 64 tV vl.length) (hF : UnsignedToken 64 tF fl.length)
    (hE : UnsignedToken 64 tE E)
    (hw1 : Blanks w1) (h1 : w1 ≠ []) (hw2 : Blanks w2) (h2 : w2 ≠ []) (hct : LineRest ctrail)
    (hv : List.Forall₂ (fun r v => VertexLine vs r.1 v ∧ LineRest r.2 ∧
      (v.color_pending = true → r.2 = [])) vrecs vl)
    (hf : List.Forall₂ (fun r f => FaceLine fs r.1 f ∧ LineRest r.2 ∧
      (f.color_pending = true → r.2 = [])) frecs fl) :
    parse vs fs u (IStream.fresh (off_text header (counts_line tV w1 tF w2 tE ctrail)
        (vrecs.map (fun r => ([], r.1 ++ r.2))) (frecs.map (fun r => ([], r.1 ++ r.2))) after))
      = parse vs fs u (IStream.fresh (off_text header (counts_line tV w1 tF w2 tE [])
        (vrecs.map (fun r => ([], r.1))) (frecs.map (fun r => ([], r.1))) after)) := by
  have hv2 := vertex_lines_with_rest vs vrecs vl hv
  have hf2 := face_lines_with_rest fs frecs fl hf
  rw [parse_off_text vs fs u header tV w1 tF w2 tE ctrail after E _ _ vl fl
      hh hV hF hE hw1 h1 hw2 h2 hct hv2.1 hf2.1,
    parse_off_text vs fs u header tV w1 tF w2 tE [] after E _ _ vl fl
      hh hV hF hE hw1 h1 hw2 h2 (line_rest_of_blanks blanks_nil) hv2.2 hf2.2]

/-- Instance of C17: with the plain shapes, text after the counts, a vertex line `0 0 0 255 0 0`
against `0 0 0`, and a comment after the indices of the face. -/
theorem rest_of_line_discarded_witness :
    parse (.vertex .v3) (.face 16) uninit_zero
        (IStream.fresh "OFF\n1 1 0 counts\n0 0 0 255 0 0\n3 0 1 2 # triangle\n".toList)
      = parse (.vertex .v3) (.face 16) uninit_zero
        (IStream.fresh "OFF\n1 1 0\n0 0 0\n3 0 1 2\n".toList) := by
  have s0 : ScalarToken ['0'] (Decimal.ofNat 0) :=
    scalar_token_nat ['0'] 0 (by decide) (by decide) (by decide) (by decide)
  have c0 : UnsignedToken 64 ['0'] 0 :=
    unsigned_token_nat 64 ['0'] 0 (by decide) (by decide) (by decide) (by decide)
  have c1 : UnsignedToken 64 ['1'] 1 :=
    unsigned_token_nat 64 ['1'] 1 (by decide) (by decide) (by decide) (by decide)
  have c3 : UnsignedToken 64 ['3'] 3 :=
    unsigned_token_nat 64 ['3'] 3 (by decide) (by decide) (by decide) (by decide)
  have i0 : UnsignedToken 16 ['0'] 0 :=
    unsigned_token_nat 16 ['0'] 0 (by decide) (by decide) (by decide) (by decide)
  have i1 : UnsignedToken 16 ['1'] 1 :=
    unsigned_token_nat 16 ['1'] 1 (by decide) (by decide) (by decide) (by decide)
  have i2 : UnsignedToken 16 ['2'] 2 :=
    unsigned_token_nat 16 ['2'] 2 (by decide) (by decide) (by decide) (by decide)
  have hvl : VertexLine (.vertex .v3) (spaced [([], ['0']), ([' '], ['0']), ([' '], ['0'])])
      (.vertex (.vec3 (.ofNat 0) (.ofNat 0) (.ofNat 0))) :=
    ⟨rfl, _, List.Forall₂.cons ⟨blanks_nil, s0⟩ (List.Forall₂.cons ⟨blanks_one_space, s0⟩
      (List.Forall₂.cons ⟨blanks_one_space, s0⟩ List.Forall₂.nil)),
      by intro f hf; simp at hf; subst hf; simp, rfl⟩
  have hfl : FaceLine (.face 16) (['3'] ++ spaced [([' '], ['0']), ([' '], ['1']), ([' '], ['2'])])
      (.face [0, 1, 2]) :=
    ⟨_, _, c3, List.Forall₂.cons ⟨blanks_one_space, i0⟩ (List.Forall₂.cons ⟨blanks_one_space, i1⟩
      (List.Forall₂.cons ⟨blanks_one_space, i2⟩ List.Forall₂.nil)),
      by intro f hf; simp at hf; rcases hf with rfl | rfl | rfl <;> simp, rfl⟩
  have h := rest_of_line_discarded (.vertex .v3) (.face 16) uninit_zero ['O', 'F', 'F']
    ['1'] [' '] ['1'] [' '] ['0'] " counts".toList [] 0
    [(spaced [([], ['0']), ([' '], ['0']), ([' '], ['0'])], " 255 0 0".toList)]
    [(['3'] ++ spaced [([' '], ['0']), ([' '], ['1']), ([' '], ['2'])], " # triangle".toList)]
    [.vertex (.vec3 (.ofNat 0) (.ofNat 0) (.ofNat 0))] [.face [0, 1, 2]]
    (by decide) c1 c1 c0 blanks_one_space (by decide) blanks_one_space (by decide)
    ⟨by decide, by decide⟩
    (List.Forall₂.cons ⟨hvl, ⟨by decide, by decide⟩, fun h => nomatch h⟩ List.Forall₂.nil)
    (List.Forall₂.cons ⟨hfl, ⟨by decide, by decide⟩, fun h => nomatch h⟩ List.Forall₂.nil)
  have t1 : "OFF\n1 1 0 counts\n0 0 0 255 0 0\n3 0 1 2 # triangle\n".toList
      = off_text ['O', 'F', 'F'] (counts_line ['1'] [' '] ['1'] [' '] ['0'] " counts".toList)
        ([(spaced [([], ['0']), ([' '], ['0']), ([' '], ['0'])], " 255 0 0".toList)].map
          (fun r => ([], r.1 ++ r.2)))
        ([(['3'] ++ spaced [([' '], ['0']), ([' '], ['1']), ([' '], ['2'])],
          " # triangle".toList)].map (fun r => ([], r.1 ++ r.2))) [] := by
    decide
  have t2 : "OFF\n1 1 0\n0 0 0\n3 0 1 2\n".toList
      = off_text ['O', 'F', 'F'] (counts_line ['1'] [' '] ['1'] [' '] ['0'] [])
        ([(spaced [([], ['0']), ([' '], ['0']), ([' '], ['0'])], " 255 0 0".toList)].map
          (fun r => ([], r.1)))
        ([(['3'] ++ spaced [([' '], ['0']), ([' '], ['1']), ([' '], ['2'])],
          " # triangle".toList)].map (fun r => ([], r.1))) [] := by
    decide
  rw [t1, t2]
  exact h

/-- Instance of C16: text appended after the last face record of a well-formed input. -/
theorem content_after_last_record_ignored_witness :
    parse (.vertex .v3) (.face 16) uninit_zero
        (IStream.fresh "OFF\n1 1 0\n0 0 0\n3 0 1 2\nnot a record at all".toList)
      = parse (.vertex .v3) (.face 16) uninit_zero
        (IStream.fresh "OFF\n1 1 0\n0 0 0\n3 0 1 2\n".toList) := by
  have s0 : ScalarToken ['0'] (Decimal.ofNat 0) :=
    scalar_token_nat ['0'] 0 (by decide) (by decide) (by decide) (by decide)
  have c0 : UnsignedToken 64 ['0'] 0 :=
    unsigned_token_nat 64 ['0'] 0 (by decide) (by decide) (by decide) (by decide)
  have c1 : UnsignedToken 64 ['1'] 1 :=
    unsigned_token_nat 64 ['1'] 1 (by decide) (by decide) (by decide) (by decide)
  have c3 : UnsignedToken 64 ['3'] 3 :=
    unsigned_token_nat 64 ['3'] 3 (by decide) (by decide) (by decide) (by decide)
  have i0 : UnsignedToken 16 ['0'] 0 :=
    unsigned_token_nat 16 ['0'] 0 (by decide) (by decide) (by decide) (by decide)
  have i1 : UnsignedToken 16 ['1'] 1 :=
    unsigned_token_nat 16 ['1'] 1 (by decide) (by decide) (by decide) (by decide)
  have i2 : UnsignedToken 16 ['2'] 2 :=
    unsigned_token_nat 16 ['2'] 2 (by decide) (by decide) (by decide) (by decide)
  have f1 := face_record_plain_spaces 16 ['3'] 3 [['0'], ['1'], ['2']] [0, 1, 2] c3
    (List.Forall₂.cons i0 (List.Forall₂.cons i1 (List.Forall₂.cons i2 List.Forall₂.nil)))
    (by decide)
  have h := content_after_last_record_ignored (.vertex .v3) (.face 16) uninit_zero
    ['O', 'F', 'F'] ['1'] [' '] ['1'] [' '] ['0'] [] "not a record at all".toList 0
    [([], ['0'] ++ ' ' :: (['0'] ++ ' ' :: ['0']))]
    [([], ['3'] ++ spaced ([['0'], ['1'], ['2']].map (fun t => ([' '], t))))]
    [.vertex (.vec3 (.ofNat 0) (.ofNat 0) (.ofNat 0))] [.face [0, 1, 2]]
    (by decide) c1 c1 c0 blanks_one_space (by decide) blanks_one_space (by decide)
    (line_rest_of_blanks blanks_nil)
    (List.Forall₂.cons ⟨⟨[], by simp, rfl⟩, vertex_record_plain3 _ _ _ _ _ _ s0 s0 s0⟩
      List.Forall₂.nil)
    (List.Forall₂.cons ⟨⟨[], by simp, rfl⟩, f1⟩ List.Forall₂.nil)
  have t1 : "OFF\n1 1 0\n0 0 0\n3 0 1 2\nnot a record at all".toList
      = off_text ['O', 'F', 'F'] (counts_line ['1'] [' '] ['1'] [' '] ['0'] [])
        [([], ['0'] ++ ' ' :: (['0'] ++ ' ' :: ['0']))]
        [([], ['3'] ++ spaced ([['0'], ['1'], ['2']].map (fun t => ([' '], t))))]
        "not a record at all".toList := by
    decide
  have t2 : "OFF\n1 1 0\n0 0 0\n3 0 1 2\n".toList
      = off_text ['O', 'F', 'F'] (counts_line ['1'] [' '] ['1'] [' '] ['0'] [])
        [([], ['0'] ++ ' ' :: (['0'] ++ ' ' :: ['0']))]
        [([], ['3'] ++ spaced ([['0'], ['1'], ['2']].map (fun t => ([' '], t))))] [] := by
    decide
  rw [t1, t2]
  exact h

end OffParser

namespace OffParser

/-! ## Fields separated by arbitrary whitespace -/

theorem ws_scalar_fields_of_blanks {fs : List (List Char × List Char)} {ds : List Decimal}
    (h : ScalarFields fs ds) : WsScalarFields fs ds := by
  induction h with
  | nil => exact List.Forall₂.nil
  | cons hd _ ih => exact List.Forall₂.cons ⟨blanks_space hd.1, hd.2⟩ ih

theorem scalar_fields_on_one_line {fs : List (List Char × List Char)} {ds : List Decimal}
    (h : WsScalarFields fs ds) : ScalarFields (on_one_line fs) ds ∧ Separated (on_one_line fs) := by
  induction h with
  | nil => exact ⟨List.Forall₂.nil, fun f hf => nomatch hf⟩
  | cons hd _ ih =>
    refine ⟨List.Forall₂.cons ⟨blanks_one_space, hd.2⟩ ih.1, ?_⟩
    intro f hf
    rcases List.mem_cons.1 hf with rfl | hf
    · simp
    · exact ih.2 f hf

/-- Source `parse_vec` on a run of scalar fields separated by any whitespace, newlines
included. -/
theorem parse_vec_ws_fields (v : Vec) (fs : List (List Char × List Char)) (tail : List Char)
    (init : Nat → Decimal) (h : WsScalarFields fs v.toList) (hsep : Separated fs.tail)
    (htail : starts_space tail = true) :
    parse_vec v.kind init (IStream.fresh (spaced fs ++ tail)) = (v, IStream.fresh tail) := by
  cases v with
  | vec3 x y z =>
    simp only [WsScalarFields, Vec.toList] at h
    obtain ⟨f1, r1, h1, hr1, rfl⟩ := List.forall₂_cons_right_iff.1 h
    obtain ⟨f2, r2, h2, hr2, rfl⟩ := List.forall₂_cons_right_iff.1 hr1
    obtain ⟨f3, r3, h3, hr3, rfl⟩ := List.forall₂_cons_right_iff.1 hr2
    obtain rfl := List.forall₂_nil_right_iff.1 hr3
    have s2 : f2.1 ≠ [] := hsep f2 (by simp)
    have s3 : f3.1 ≠ [] := hsep f3 (by simp)
    have e3 := extract_double_token f3.1 f3.2 tail z (init 2) h3.1 h3.2 htail
    have e2 := extract_double_token f2.1 f2.2 (f3.1 ++ (f3.2 ++ tail)) y (init 1)
      h2.1 h2.2 (starts_space_append _ _ h3.1 s3)
    have e1 := extract_double_token f1.1 f1.2 (f2.1 ++ (f2.2 ++ (f3.1 ++ (f3.2 ++ tail)))) x
      (init 0) h1.1 h1.2 (starts_space_append _ _ h2.1 s2)
    have hsp : spaced [f1, f2, f3] ++ tail
        = f1.1 ++ (f1.2 ++ (f2.1 ++ (f2.2 ++ (f3.1 ++ (f3.2 ++ tail))))) := by
      simp [spaced, List.append_assoc]
    rw [hsp]
    simp only [parse_vec, Vec.kind, e1, e2, e3]
  | vec4 x y z w =>
    simp only [WsScalarFields, Vec.toList] at h
    obtain ⟨f1, r1, h1, hr1, rfl⟩ := List.forall₂_cons_right_iff.1 h
    obtain ⟨f2, r2, h2, hr2, rfl⟩ := List.forall₂_cons_right_iff.1 hr1
    obtain ⟨f3, r3, h3, hr3, rfl⟩ := List.forall₂_cons_right_iff.1 hr2
    obtain ⟨f4, r4, h4, hr4, rfl⟩ := List.forall₂_cons_right_iff.1 hr3
    obtain rfl := List.forall₂_nil_right_iff.1 hr4
    have s2 : f2.1 ≠ [] := hsep f2 (by simp)
    have s3 : f3.1 ≠ [] := hsep f3 (by simp)
    have s4 : f4.1 ≠ [] := hsep f4 (by simp)
    have e4 := extract_double_token f4.1 f4.2 tail w (init 3) h4.1 h4.2 htail
    have e3 := extract_double_token f3.1 f3.2 (f4.1 ++ (f4.2 ++ tail)) z (init 2)
      h3.1 h3.2 (starts_space_append _ _ h4.1 s4)
    have e2 := extract_double_token f2.1 f2.2 (f3.1 ++ (f3.2 ++ (f4.1 ++ (f4.2 ++ tail)))) y
      (init 1) h2.1 h2.2 (starts_space_append _ _ h3.1 s3)
    have e1 := extract_double_token f1.1 f1.2
      (f2.1 ++ (f2.2 ++ (f3.1 ++ (f3.2 ++ (f4.1 ++ (f4.2 ++ tail)))))) x
      (init 0) h1.1 h1.2 (starts_space_append _ _ h2.1 s2)
    have hsp : spaced [f1, f2, f3, f4] ++ tail
        = f1.1 ++ (f1.2 ++ (f2.1 ++ (f2.2 ++ (f3.1 ++ (f3.2 ++ (f4.1 ++ (f4.2 ++ tail))))))) := by
      simp [spaced, List.append_assoc]
    rw [hsp]
    simp only [parse_vec, Vec.kind, e1, e2, e3, e4]

theorem starts_space_ws_spaced (fs : List (List Char × List Char)) (ds : List Decimal)
    (tail : List Char) (h : WsScalarFields fs ds) (hsep : Separated fs)
    (htail : starts_space tail = true) : starts_space (spaced fs ++ tail) = true := by
  cases h with
  | nil => simpa [spaced] using htail
  | @cons f d fs ds hd _ =>
    rw [spaced_cons_append]
    exact starts_space_append _ _ hd.1 (hsep f (List.mem_cons_self _ _))

/-- The body of the vertex loop for a mandatory-coloured shape on a record whose tokens are
separated by any whitespace: the record may run over several lines. -/
theorem vertex_record_colored_ws (position color : Vec) (pf cf : List (List Char × List Char))
    (trail : List Char) (hp : WsScalarFields pf position.toList)
    (hp0 : ∀ f ∈ pf.head?, Blanks f.1) (hsep : Separated pf.tail)
    (hc : WsScalarFields cf color.toList) (hcsep : Separated cf) (ht : LineRest trail) :
    VertexRecord (.colored_vertex position.kind color.kind) (spaced pf ++ (spaced cf ++ trail))
      (.colored_vertex position color) := by
  intro u i rest
  have hhead : ∃ c l, spaced pf ++ (spaced cf ++ (trail ++ '\n' :: rest)) = c :: l ∧
      c ≠ '\n' ∧ c ≠ '#' := by
    cases pf with
    | nil => cases position <;> cases hp
    | cons f fs =>
      cases hv : position.toList with
      | nil => cases position <;> cases hv
      | cons d ds =>
        rw [WsScalarFields, hv] at hp
        cases hp with
        | cons hd _ =>
          rw [spaced_cons_append]
          exact scalar_line_head f d _ (hp0 f (by simp)) hd.2
  obtain ⟨c, l, hc0, h1, h2⟩ := hhead
  have hstop := ignore_comment_stop c l h1 h2
  rw [← hc0] at hstop
  have hmid : starts_space (spaced cf ++ (trail ++ '\n' :: rest)) = true :=
    starts_space_ws_spaced cf _ _ hc hcsep (line_rest_starts ht rest)
  have e := parse_vec_ws_fields position pf (spaced cf ++ (trail ++ '\n' :: rest)) (u.position i)
    hp hsep hmid
  have e2 := parse_vec_ws_fields color cf (trail ++ '\n' :: rest) (u.vertex_color i) hc
    (fun f hf => hcsep f (List.mem_of_mem_tail hf)) (line_rest_starts ht rest)
  simp only [List.append_assoc]
  simp only [parse_vertex, hstop, VertexShape.position_type, e, e2, line_rest_ignore ht]

/-- The body of the face loop for a mandatory-coloured shape when the colour tokens are
separated by any whitespace: the colour may stand on the following lines. -/
theorem face_record_colored_ws (w : Nat) (tk : List Char)
    (idxf cf : List (List Char × List Char)) (ns : List Nat) (color : Vec) (trail : List Char)
    (hk : UnsignedToken 64 tk ns.length) (hi : UnsignedFields w idxf ns) (hsep : Separated idxf)
    (hc : WsScalarFields cf color.toList) (hcsep : Separated cf) (ht : LineRest trail) :
    FaceRecord (.colored_face w color.kind) (tk ++ (spaced idxf ++ (spaced cf ++ trail)))
      (.colored_face ns color) := by
  intro u i rest
  have hmid : starts_space (spaced cf ++ (trail ++ '\n' :: rest)) = true :=
    starts_space_ws_spaced cf _ _ hc hcsep (line_rest_starts ht rest)
  obtain ⟨p1, p2, p3⟩ := parse_face_prefix w u i tk idxf ns ns.length (u.n_vertices_in_face i)
    (spaced cf ++ (trail ++ '\n' :: rest)) hk hi hsep hmid (Or.inl rfl)
  have e2 := parse_vec_ws_fields color cf (trail ++ '\n' :: rest) (u.face_color i) hc
    (fun f hf => hcsep f (List.mem_of_mem_tail hf)) (line_rest_starts ht rest)
  simp only [List.append_assoc]
  simp only [parse_face, p1, p2, FaceShape.index_bits, p3, e2, line_rest_ignore ht]

/-- C18. For a mandatory-coloured vertex or face shape a newline between tokens is only a
separator: when the position tokens after the first and the colour tokens of a vertex record,
or the colour tokens of a face record, are separated by any whitespace (so they may stand on
the following lines), the record read has exactly the position, indices and colour that it has
when the same tokens stand on one line separated by single spaces. -/
theorem mandatory_color_across_lines (position color : Vec) (w : Nat) (tk : List Char)
    (pf cf idxf : List (List Char × List Char)) (ns : List Nat) (trail : List Char)
    (hp : WsScalarFields pf position.toList) (hp0 : ∀ f ∈ pf.head?, Blanks f.1)
    (hpsep : Separated pf.tail)
    (hc : WsScalarFields cf color.toList) (hcsep : Separated cf)
    (hk : UnsignedToken 64 tk ns.length) (hi : UnsignedFields w idxf ns)
    (hisep : Separated idxf) (ht : LineRest trail) :
    (∀ (u : Uninit) (i : Nat) (rest : List Char),
      parse_vertex (.colored_vertex position.kind color.kind) u i
          (IStream.fresh ((spaced pf ++ (spaced cf ++ trail)) ++ '\n' :: rest))
        = (.colored_vertex position color, IStream.fresh rest) ∧
      parse_vertex (.colored_vertex position.kind color.kind) u i
          (IStream.fresh ((spaced (on_one_line pf) ++ (spaced (on_one_line cf) ++ trail))
            ++ '\n' :: rest))
        = (.colored_vertex position color, IStream.fresh rest)) ∧
    (∀ (u : Uninit) (i : Nat) (rest : List Char),
      parse_face (.colored_face w color.kind) u i
          (IStream.fresh ((tk ++ (spaced idxf ++ (spaced cf ++ trail))) ++ '\n' :: rest))
        = (.colored_face ns color, IStream.fresh rest) ∧
      parse_face (.colored_face w color.kind) u i
          (IStream.fresh ((tk ++ (spaced idxf ++ (spaced (on_one_line cf) ++ trail)))
            ++ '\n' :: rest))
        = (.colored_face ns color, IStream.fresh rest)) := by
  have hp1 := scalar_fields_on_one_line hp
  have hc1 := scalar_fields_on_one_line hc
  refine ⟨fun u i rest => ⟨?_, ?_⟩, fun u i rest => ⟨?_, ?_⟩⟩
  · exact vertex_record_colored_ws position color pf cf trail hp hp0 hpsep hc hcsep ht u i rest
  · exact vertex_record_colored position color (on_one_line pf) (on_one_line cf) trail hp1.1
      (fun f hf => hp1.2 f (List.mem_of_mem_tail hf)) hc1.1 hc1.2 ht u i rest
  · exact face_record_colored_ws w tk idxf cf ns color trail hk hi hisep hc hcsep ht u i rest
  · exact face_record_colored w tk idxf (on_one_line cf) ns color trail hk hi hisep hc1.1 hc1.2
      ht u i rest

end OffParser

namespace OffParser

/-- Instance of C18: the colour of the vertex and the colour of the face stand on the lines
after the one where the record begins. -/
theorem mandatory_color_across_lines_witness :
    parse_vertex (.colored_vertex .v3 .v3) uninit_zero 0
        (IStream.fresh "0 0 0\n255 0\n0\nnext".toList)
      = (.colored_vertex (.vec3 (.ofNat 0) (.ofNat 0) (.ofNat 0))
          (.vec3 (.ofNat 255) (.ofNat 0) (.ofNat 0)), IStream.fresh "next".toList) ∧
    parse_face (.colored_face 16 .v3) uninit_zero 0
        (IStream.fresh "3 0 1 2\n255 0\n0\nnext".toList)
      = (.colored_face [0, 1, 2] (.vec3 (.ofNat 255) (.ofNat 0) (.ofNat 0)),
          IStream.fresh "next".toList) := by
  have s0 : ScalarToken ['0'] (Decimal.ofNat 0) :=
    scalar_token_nat ['0'] 0 (by decide) (by decide) (by decide) (by decide)
  have s255 : ScalarToken ['2', '5', '5'] (Decimal.ofNat 255) :=
    scalar_token_nat ['2', '5', '5'] 255 (by decide) (by decide) (by decide) (by decide)
  have c3 : UnsignedToken 64 ['3'] 3 :=
    unsigned_token_nat 64 ['3'] 3 (by decide) (by decide) (by decide) (by decide)
  have i0 : UnsignedToken 16 ['0'] 0 :=
    unsigned_token_nat 16 ['0'] 0 (by decide) (by decide) (by decide) (by decide)
  have i1 : UnsignedToken 16 ['1'] 1 :=
    unsigned_token_nat 16 ['1'] 1 (by decide) (by decide) (by decide) (by decide)
  have i2 : UnsignedToken 16 ['2'] 2 :=
    unsigned_token_nat 16 ['2'] 2 (by decide) (by decide) (by decide) (by decide)
  have h := mandatory_color_across_lines (.vec3 (.ofNat 0) (.ofNat 0) (.ofNat 0))
    (.vec3 (.ofNat 255) (.ofNat 0) (.ofNat 0)) 16 ['3']
    [([], ['0']), ([' '], ['0']), ([' '], ['0'])]
    [(['\n'], ['2', '5', '5']), ([' '], ['0']), (['\n'], ['0'])]
    [([' '], ['0']), ([' '], ['1']), ([' '], ['2'])] [0, 1, 2] []
    (List.Forall₂.cons ⟨by decide, s0⟩ (List.Forall₂.cons ⟨by decide, s0⟩
      (List.Forall₂.cons ⟨by decide, s0⟩ List.Forall₂.nil)))
    (by intro f hf; simp at hf; subst hf; exact blanks_nil)
    (by intro f hf; simp at hf; subst hf; simp)
    (List.Forall₂.cons ⟨by decide, s255⟩ (List.Forall₂.cons ⟨by decide, s0⟩
      (List.Forall₂.cons ⟨by decide, s0⟩ List.Forall₂.nil)))
    (by intro f hf; simp at hf; rcases hf with rfl | rfl | rfl <;> simp)
    c3
    (List.Forall₂.cons ⟨blanks_one_space, i0⟩ (List.Forall₂.cons ⟨blanks_one_space, i1⟩
      (List.Forall₂.cons ⟨blanks_one_space, i2⟩ List.Forall₂.nil)))
    (by intro f hf; simp at hf; rcases hf with rfl | rfl | rfl <;> simp)
    (line_rest_of_blanks blanks_nil)
  exact ⟨(h.1 uninit_zero 0 "next".toList).1, (h.2 uninit_zero 0 "next".toList).1⟩

end OffParser

namespace OffParser

/-! ## Round trip -/

theorem scalar_fields_text_ok (ps : Decimal → List Char) (ds : List Decimal)
    (h : ∀ d ∈ ds, ScalarToken (ps d) d) :
    ScalarFields (scalar_fields_text ps ds) ds ∧ Separated (scalar_fields_text ps ds) := by
  induction ds with
  | nil => exact ⟨List.Forall₂.nil, fun f hf => nomatch hf⟩
  | cons d ds ih =>
    have ih2 := ih (fun x hx => h x (List.mem_cons_of_mem _ hx))
    refine ⟨List.Forall₂.cons ⟨blanks_one_space, h d (List.mem_cons_self _ _)⟩ ih2.1, ?_⟩
    intro f hf
    rcases List.mem_cons.1 hf with rfl | hf
    · simp
    · exact ih2.2 f hf

theorem first_unspaced_ok (ps : Decimal → List Char) (ds : List Decimal)
    (h : ∀ d ∈ ds, ScalarToken (ps d) d) :
    ScalarFields (first_unspaced (scalar_fields_text ps ds)) ds ∧
      Separated (first_unspaced (scalar_fields_text ps ds)).tail := by
  cases ds with
  | nil => exact ⟨List.Forall₂.nil, fun f hf => nomatch hf⟩
  | cons d ds =>
    have h2 := scalar_fields_text_ok ps ds (fun x hx => h x (List.mem_cons_of_mem _ hx))
    exact ⟨List.Forall₂.cons ⟨blanks_nil, h d (List.mem_cons_self _ _)⟩ h2.1, h2.2⟩

theorem index_fields_text_ok (w : Nat) (pi : Nat → List Char) (ns : List Nat)
    (h : ∀ n ∈ ns, UnsignedToken w (pi n) n) :
    UnsignedFields w (index_fields_text pi ns) ns ∧ Separated (index_fields_text pi ns) := by
  induction ns with
  | nil => exact ⟨List.Forall₂.nil, fun f hf => nomatch hf⟩
  | cons d ds ih =>
    have ih2 := ih (fun x hx => h x (List.mem_cons_of_mem _ hx))
    refine ⟨List.Forall₂.cons ⟨blanks_one_space, h d (List.mem_cons_self _ _)⟩ ih2.1, ?_⟩
    intro f hf
    rcases List.mem_cons.1 hf with rfl | hf
    · simp
    · exact ih2.2 f hf

/-- The canonical line of a vertex is a complete line of its record. -/
theorem write_vertex_line (vs : VertexShape) (ps : Decimal → List Char) (v : Vertex)
    (hs : v.has_shape vs) (h : ∀ d ∈ v.scalars, ScalarToken (ps d) d) :
    VertexLine vs (write_vertex ps v) v := by
  cases vs with
  | vertex pk =>
    cases v with
    | vertex p =>
      have hp := first_unspaced_ok ps p.toList
        (fun d hd => h d (by simp [Vertex.scalars, Vertex.position, hd]))
      exact ⟨hs, _, hp.1, hp.2,
        by simp [write_vertex, Vertex.position, Vertex.color, option_components,
          scalar_fields_text, spaced]⟩
    | colored_vertex p c => exact absurd hs (by simp [Vertex.has_shape])
    | optional_colored_vertex p c => exact absurd hs (by simp [Vertex.has_shape])
  | colored_vertex pk ck =>
    cases v with
    | vertex p => exact absurd hs (by simp [Vertex.has_shape])
    | colored_vertex p c =>
      have hp := first_unspaced_ok ps p.toList
        (fun d hd => h d (by simp [Vertex.scalars, Vertex.position, hd]))
      have hc := scalar_fields_text_ok ps c.toList
        (fun d hd => h d (by simp [Vertex.scalars, Vertex.color, option_components, hd]))
      exact ⟨hs.1, hs.2, _, _, hp.1, hp.2, hc.1, hc.2, rfl⟩
    | optional_colored_vertex p c => exact absurd hs (by simp [Vertex.has_shape])
  | optional_colored_vertex pk ck =>
    cases v with
    | vertex p => exact absurd hs (by simp [Vertex.has_shape])
    | colored_vertex p c => exact absurd hs (by simp [Vertex.has_shape])
    | optional_colored_vertex p c =>
      have hp := first_unspaced_ok ps p.toList
        (fun d hd => h d (by simp [Vertex.scalars, Vertex.position, hd]))
      cases c with
      | none =>
        exact ⟨hs, _, hp.1, hp.2,
          by simp [write_vertex, Vertex.position, Vertex.color, option_components,
            scalar_fields_text, spaced]⟩
      | some c =>
        have hc := scalar_fields_text_ok ps c.toList
          (fun d hd => h d (by simp [Vertex.scalars, Vertex.color, option_components, hd]))
        exact ⟨hs.1, hs.2, _, _, hp.1, hp.2, hc.1, hc.2, rfl⟩

/-- The canonical line of a face is a complete line of its record. -/
theorem write_face_line (fs : FaceShape) (pn pi : Nat → List Char) (ps : Decimal → List Char)
    (f : Face) (hs : f.has_shape fs)
    (hk : UnsignedToken 64 (pn f.vertex_indices.length) f.vertex_indices.length)
    (hi : ∀ n ∈ f.vertex_indices, UnsignedToken fs.index_bits (pi n) n)
    (h : ∀ d ∈ f.scalars, ScalarToken (ps d) d) :
    FaceLine fs (write_face pn pi ps f) f := by
  cases fs with
  | face w =>
    cases f with
    | face ns =>
      have hx := index_fields_text_ok w pi ns hi
      exact ⟨_, _, hk, hx.1, hx.2,
        by simp [write_face, Face.vertex_indices, Face.color, option_components,
          scalar_fields_text, spaced]⟩
    | colored_face ns c => exact absurd hs (by simp [Face.has_shape])
    | optional_colored_face ns c => exact absurd hs (by simp [Face.has_shape])
  | colored_face w ck =>
    cases f with
    | face ns => exact absurd hs (by simp [Face.has_shape])
    | colored_face ns c =>
      have hx := index_fields_text_ok w pi ns hi
      have hc := scalar_fields_text_ok ps c.toList
        (fun d hd => h d (by simp [Face.scalars, Face.color, option_components, hd]))
      exact ⟨hs, _, _, _, hk, hx.1, hx.2, hc.1, hc.2, rfl⟩
    | optional_colored_face ns c => exact absurd hs (by simp [Face.has_shape])
  | optional_colored_face w ck =>
    cases f with
    | face ns => exact absurd hs (by simp [Face.has_shape])
    | colored_face ns c => exact absurd hs (by simp [Face.has_shape])
    | optional_colored_face ns c =>
      have hx := index_fields_text_ok w pi ns hi
      cases c with
      | none =>
        exact ⟨_, _, hk, hx.1, hx.2,
          by simp [write_face, Face.vertex_indices, Face.color, option_components,
            scalar_fields_text, spaced]⟩
      | some c =>
        have hc := scalar_fields_text_ok ps c.toList
          (fun d hd => h d (by simp [Face.scalars, Face.color, option_components, hd]))
        exact ⟨hs, _, _, _, hk, hx.1, hx.2, hc.1, hc.2, rfl⟩

theorem written_vertices_records (vs : VertexShape) (ps : Decimal → List Char)
    (l : List Vertex) (hs : ∀ v ∈ l, v.has_shape vs)
    (h : ∀ v ∈ l, ∀ d ∈ v.scalars, ScalarToken (ps d) d) :
    List.Forall₂ (fun r v => SkippedBlock r.1 ∧ VertexRecord vs r.2 v)
      (l.map (fun v => ([], write_vertex ps v))) l := by
  induction l with
  | nil => exact List.Forall₂.nil
  | cons v l ih =>
    have hl := write_vertex_line vs ps v (hs v (List.mem_cons_self _ _))
      (h v (List.mem_cons_self _ _))
    have hr := vertex_line_record vs _ [] v hl (line_rest_of_blanks blanks_nil) (fun _ => rfl)
    rw [List.append_nil] at hr
    exact List.Forall₂.cons ⟨⟨[], by simp, rfl⟩, hr⟩
      (ih (fun x hx => hs x (List.mem_cons_of_mem _ hx))
        (fun x hx => h x (List.mem_cons_of_mem _ hx)))

theorem written_faces_records (fs : FaceShape) (pn pi : Nat → List Char)
    (ps : Decimal → List Char) (l : List Face) (hs : ∀ f ∈ l, f.has_shape fs)
    (hk : ∀ f ∈ l, UnsignedToken 64 (pn f.vertex_indices.length) f.vertex_indices.length)
    (hi : ∀ f ∈ l, ∀ n ∈ f.vertex_indices, UnsignedToken fs.index_bits (pi n) n)
    (h : ∀ f ∈ l, ∀ d ∈ f.scalars, ScalarToken (ps d) d) :
    List.Forall₂ (fun r f => SkippedBlock r.1 ∧ FaceRecord fs r.2 f)
      (l.map (fun f => ([], write_face pn pi ps f))) l := by
  induction l with
  | nil => exact List.Forall₂.nil
  | cons f l ih =>
    have hl := write_face_line fs pn pi ps f (hs f (List.mem_cons_self _ _))
      (hk f (List.mem_cons_self _ _)) (hi f (List.mem_cons_self _ _))
      (h f (List.mem_cons_self _ _))
    have hr := face_line_record fs _ [] f hl (line_rest_of_blanks blanks_nil) (fun _ => rfl)
    rw [List.append_nil] at hr
    exact List.Forall₂.cons ⟨⟨[], by simp, rfl⟩, hr⟩
      (ih (fun x hx => hs x (List.mem_cons_of_mem _ hx))
        (fun x hx => hk x (List.mem_cons_of_mem _ hx))
        (fun x hx => hi x (List.mem_cons_of_mem _ hx))
        (fun x hx => h x (List.mem_cons_of_mem _ hx)))

/-- C15. Round trip: for a mesh whose records are values of the vertex type `vs` and the face
type `fs`, when every number of the mesh is printed as a token that reads back as that number,
parsing the canonical OFF text of the mesh with the same shapes returns the mesh itself: the
same vertices, faces and `n_edges`, with the same positions, indices and colours in the same
order. -/
theorem round_trip (vs : VertexShape) (fs : FaceShape) (u : Uninit)
    (ps : Decimal → List Char) (pn pi : Nat → List Char) (m : Mesh)
    (hvs : ∀ v ∈ m.vertices, v.has_shape vs) (hfs : ∀ f ∈ m.faces, f.has_shape fs)
    (hV : UnsignedToken 64 (pn m.vertices.length) m.vertices.length)
    (hF : UnsignedToken 64 (pn m.faces.length) m.faces.length)
    (hE : UnsignedToken 64 (pn m.n_edges) m.n_edges)
    (hk : ∀ f ∈ m.faces, UnsignedToken 64 (pn f.vertex_indices.length) f.vertex_indices.length)
    (hi : ∀ f ∈ m.faces, ∀ n ∈ f.vertex_indices, UnsignedToken fs.index_bits (pi n) n)
    (hsv : ∀ v ∈ m.vertices, ∀ d ∈ v.scalars, ScalarToken (ps d) d)
    (hsf : ∀ f ∈ m.faces, ∀ d ∈ f.scalars, ScalarToken (ps d) d) :
    parse vs fs u (IStream.fresh (write_off ps pn pi m)) = m :=
  parse_off_text vs fs u ['O', 'F', 'F'] (pn m.vertices.length) [' '] (pn m.faces.length) [' ']
    (pn m.n_edges) [] [] m.n_edges _ _ m.vertices m.faces (by decide) hV hF hE
    blanks_one_space (by decide) blanks_one_space (by decide) (line_rest_of_blanks blanks_nil)
    (written_vertices_records vs ps m.vertices hvs hsv)
    (written_faces_records fs pn pi ps m.faces hfs hk hi hsf)

end OffParser

namespace OffParser

/-- Instance of C15: the canonical text of `small_mesh`, with an optional colour absent on the
first vertex line and present on the second, parses back to `small_mesh`. -/
theorem round_trip_witness :
    parse (.optional_colored_vertex .v3 .v3) (.face 16) uninit_zero
        (IStream.fresh (write_off print_small_scalar print_small_nat print_small_nat small_mesh))
      = small_mesh := by
  have s0 : ScalarToken ['0'] (Decimal.ofNat 0) :=
    scalar_token_nat ['0'] 0 (by decide) (by decide) (by decide) (by decide)
  have s1 : ScalarToken ['1'] (Decimal.ofNat 1) :=
    scalar_token_nat ['1'] 1 (by decide) (by decide) (by decide) (by decide)
  have c1 : UnsignedToken 64 ['1'] 1 :=
    unsigned_token_nat 64 ['1'] 1 (by decide) (by decide) (by decide) (by decide)
  have c2 : UnsignedToken 64 ['2'] 2 :=
    unsigned_token_nat 64 ['2'] 2 (by decide) (by decide) (by decide) (by decide)
  have i0 : UnsignedToken 16 ['0'] 0 :=
    unsigned_token_nat 16 ['0'] 0 (by decide) (by decide) (by decide) (by decide)
  have i1 : UnsignedToken 16 ['1'] 1 :=
    unsigned_token_nat 16 ['1'] 1 (by decide) (by decide) (by decide) (by decide)
  have hs : ∀ d : Decimal, d = Decimal.ofNat 0 ∨ d = Decimal.ofNat 1 →
      ScalarToken (print_small_scalar d) d := by
    rintro d (rfl | rfl)
    · exact s0
    · exact s1
  refine round_trip (.optional_colored_vertex .v3 .v3) (.face 16) uninit_zero
    print_small_scalar print_small_nat print_small_nat small_mesh ?_ ?_ c2 c1 c1 ?_ ?_ ?_ ?_
  · intro v hv
    simp only [small_mesh, List.mem_cons, List.mem_singleton, List.not_mem_nil, or_false] at hv
    rcases hv with rfl | rfl
    · exact rfl
    · exact ⟨rfl, rfl⟩
  · intro f hf
    simp only [small_mesh, List.mem_singleton] at hf
    subst hf
    trivial
  · intro f hf
    simp only [small_mesh, List.mem_singleton] at hf
    subst hf
    exact c2
  · intro f hf n hn
    simp only [small_mesh, List.mem_singleton] at hf
    subst hf
    simp only [Face.vertex_indices, List.mem_cons, List.mem_singleton, List.not_mem_nil,
      or_false] at hn
    rcases hn with rfl | rfl
    · exact i0
    · exact i1
  · intro v hv d hd
    apply hs
    simp only [small_mesh, List.mem_cons, List.mem_singleton, List.not_mem_nil, or_false] at hv
    rcases hv with rfl | rfl <;>
      simp [Vertex.scalars, Vertex.position, Vertex.color, option_components, Vec.toList] at hd
    · exact Or.inl hd
    · rcases hd with rfl | rfl | rfl | rfl <;> simp
  · intro f hf d hd
    simp only [small_mesh, List.mem_singleton] at hf
    subst hf
    simp [Face.scalars, Face.color, option_components] at hd

end OffParser

namespace OffParser

/-! ## Reading from a stream whose `failbit` is set -/

theorem failed_not_good (s : IStream) (h : s.failbit = true) : s.good = false := by
  simp [IStream.good, h]

theorem failed_setstate (s : IStream) (h : s.failbit = true) :
    ({ s with failbit := true } : IStream) = s := by
  obtain ⟨buf, e, f⟩ := s
  simp only at h
  subst h
  rfl

theorem extract_double_failed (s : IStream) (old : Decimal) (h : s.failbit = true) :
    s.extract_double old = (old, s) := by
  simp [IStream.extract_double, IStream.sentry, failed_not_good s h, failed_setstate s h]

theorem extract_unsigned_failed (w : Nat) (s : IStream) (old : Nat) (h : s.failbit = true) :
    s.extract_unsigned w old = (old, s) := by
  simp [IStream.extract_unsigned, IStream.sentry, failed_not_good s h, failed_setstate s h]

theorem peek_failed (s : IStream) (h : s.failbit = true) : s.peek = (none, s) := by
  simp [IStream.peek, failed_not_good s h, failed_setstate s h]

theorem ignore_until_newline_failed (s : IStream) (h : s.failbit = true) :
    ignore_until_newline s = s := by
  simp [ignore_until_newline, IStream.ignore_max_newline, failed_not_good s h,
    failed_setstate s h]

theorem ignore_comment_failed (s : IStream) (h : s.failbit = true) :
    ignore_comment_or_empty_lines s = s := by
  unfold ignore_comment_or_empty_lines
  rw [ignore_comment_or_empty_lines_loop]
  by_cases he : s.eof = true
  · simp [he]
  · simp [he, peek_failed s h]

theorem parse_vec_failed (k : VecKind) (init : Nat → Decimal) (s : IStream)
    (h : s.failbit = true) : parse_vec k init s = (uninit_vec k init, s) := by
  cases k <;> simp [parse_vec, uninit_vec, extract_double_failed _ _ h]

theorem within_line_elem_failed (old : Decimal) (s : IStream) (h : s.failbit = true) :
    within_line_elem old s = (some old, s) := by
  simp [within_line_elem, peek_failed s h, extract_double_failed _ _ h]

theorem parse_vec_within_line_failed (k : VecKind) (init : Nat → Decimal) (s : IStream)
    (h : s.failbit = true) : parse_vec_within_line k init s = (some (uninit_vec k init), s) := by
  cases k <;> simp [parse_vec_within_line, uninit_vec, within_line_elem_failed _ _ h]

/-- After a position whose first extraction found the stream exhausted or its text malformed,
the stream has `failbit` set and the rest of the loop body stores nothing. -/
theorem parse_vertex_after_position (vs : VertexShape) (u : Uninit) (i : Nat)
    (s t : IStream) (p : Vec) (hp : parse_vec vs.position_type (u.position i)
      (ignore_comment_or_empty_lines s) = (p, t)) (ht : t.failbit = true) :
    parse_vertex vs u i s =
      (match vs with
        | .vertex _ => Vertex.vertex p
        | .colored_vertex _ ck => Vertex.colored_vertex p (uninit_vec ck (u.vertex_color i))
        | .optional_colored_vertex _ ck =>
          Vertex.optional_colored_vertex p (some (uninit_vec ck (u.vertex_color i))), t) := by
  cases vs <;>
    simp [parse_vertex, hp, parse_vec_failed _ _ t ht, parse_vec_within_line_failed _ _ t ht,
      ignore_until_newline_failed t ht]

theorem ignore_comment_exhausted (s : IStream) (h : Exhausted s) :
    (ignore_comment_or_empty_lines s).good = false := by
  obtain ⟨buf, e, f⟩ := s
  unfold ignore_comment_or_empty_lines
  rw [ignore_comment_or_empty_lines_loop]
  cases e with
  | true => simp [IStream.eof, IStream.good]
  | false =>
    cases f with
    | true => simp [IStream.eof, IStream.peek, IStream.good]
    | false =>
      rcases h with h | h
      · simp [IStream.good] at h
      · simp only at h
        subst h
        simp [IStream.eof, IStream.peek, IStream.good]

theorem extract_double_not_good (s : IStream) (old : Decimal) (h : s.good = false) :
    s.extract_double old = (old, { s with failbit := true }) := by
  simp [IStream.extract_double, IStream.sentry, h]

theorem extract_unsigned_not_good (w : Nat) (s : IStream) (old : Nat) (h : s.good = false) :
    s.extract_unsigned w old = (old, { s with failbit := true }) := by
  simp [IStream.extract_unsigned, IStream.sentry, h]

theorem parse_vec_not_good (k : VecKind) (init : Nat → Decimal) (s : IStream)
    (h : s.good = false) :
    parse_vec k init s = (uninit_vec k init, { s with failbit := true }) := by
  have hf : ({ s with failbit := true } : IStream).failbit = true := rfl
  cases k <;>
    simp [parse_vec, uninit_vec, extract_double_not_good s _ h, extract_double_failed _ _ hf]

/-- The body of the vertex loop on an exhausted stream stores nothing and leaves `failbit`
set. -/
theorem parse_vertex_exhausted (vs : VertexShape) (u : Uninit) (i : Nat) (s : IStream)
    (h : Exhausted s) :
    ∃ t, t.failbit = true ∧ parse_vertex vs u i s = (uninit_vertex vs u i, t) := by
  have hg := ignore_comment_exhausted s h
  have hp := parse_vec_not_good vs.position_type (u.position i) _ hg
  refine ⟨{ ignore_comment_or_empty_lines s with failbit := true }, rfl, ?_⟩
  rw [parse_vertex_after_position vs u i s _ _ hp rfl]
  cases vs <;> simp [uninit_vertex, VertexShape.position_type]

theorem parse_vertex_failed (vs : VertexShape) (u : Uninit) (i : Nat) (s : IStream)
    (h : s.failbit = true) : parse_vertex vs u i s = (uninit_vertex vs u i, s) := by
  have hp : parse_vec vs.position_type (u.position i) (ignore_comment_or_empty_lines s)
      = (uninit_vec vs.position_type (u.position i), s) := by
    rw [ignore_comment_failed s h, parse_vec_failed _ _ s h]
  rw [parse_vertex_after_position vs u i s s _ hp h]
  cases vs <;> simp [uninit_vertex, VertexShape.position_type]

theorem parse_vertices_failed (vs : VertexShape) (u : Uninit) (n : Nat) :
    ∀ (i : Nat) (s : IStream), s.failbit = true →
      parse_vertices vs u n i s = ((List.range' i n).map (uninit_vertex vs u), s) := by
  induction n with
  | zero => intro i s _; rfl
  | succ n ih =>
    intro i s h
    simp [parse_vertices, parse_vertex_failed vs u i s h, ih (i + 1) s h, List.range'_succ]

/-- The vertex loop on an exhausted stream: every vertex holds the indeterminate values, and
the stream stays exhausted. -/
theorem parse_vertices_exhausted (vs : VertexShape) (u : Uninit) (n i : Nat) (s : IStream)
    (h : Exhausted s) :
    ∃ t, Exhausted t ∧
      parse_vertices vs u n i s = ((List.range' i n).map (uninit_vertex vs u), t) := by
  cases n with
  | zero => exact ⟨s, h, rfl⟩
  | succ n =>
    obtain ⟨t, ht, hv⟩ := parse_vertex_exhausted vs u i s h
    refine ⟨t, Or.inl (failed_not_good t ht), ?_⟩
    simp [parse_vertices, hv, parse_vertices_failed vs u n (i + 1) t ht, List.range'_succ]

end OffParser

namespace OffParser

theorem parse_indices_failed (w : Nat) (u : Uninit) (i n : Nat) :
    ∀ (j : Nat) (s : IStream), s.failbit = true →
      parse_indices w u i n j s = ((List.range' j n).map (u.index i), s) := by
  induction n with
  | zero => intro j s _; rfl
  | succ n ih =>
    intro j s h
    simp [parse_indices, peek_failed s h, extract_unsigned_failed _ s _ h, ih (j + 1) s h,
      List.range'_succ]

/-- After a count extraction that left `failbit` set, the rest of the face loop body stores
nothing: the indices and the colour are the indeterminate values. -/
theorem parse_face_after_count (fs : FaceShape) (u : Uninit) (i : Nat) (s t : IStream)
    (hk : (ignore_comment_or_empty_lines s).extract_unsigned 64 (u.n_vertices_in_face i)
      = (u.n_vertices_in_face i, t)) (ht : t.failbit = true) :
    parse_face fs u i s = (uninit_face fs u i, t) := by
  cases fs <;>
    simp [parse_face, hk, parse_indices_failed _ u i _ 0 t ht, parse_vec_failed _ _ t ht,
      parse_vec_within_line_failed _ _ t ht, ignore_until_newline_failed t ht, uninit_face]

theorem parse_face_failed (fs : FaceShape) (u : Uninit) (i : Nat) (s : IStream)
    (h : s.failbit = true) : parse_face fs u i s = (uninit_face fs u i, s) :=
  parse_face_after_count fs u i s s
    (by rw [ignore_comment_failed s h, extract_unsigned_failed _ s _ h]) h

/-- The body of the face loop on an exhausted stream stores nothing and leaves `failbit`
set. -/
theorem parse_face_exhausted (fs : FaceShape) (u : Uninit) (i : Nat) (s : IStream)
    (h : Exhausted s) :
    ∃ t, t.failbit = true ∧ parse_face fs u i s = (uninit_face fs u i, t) :=
  ⟨{ ignore_comment_or_empty_lines s with failbit := true }, rfl,
    parse_face_after_count fs u i s _
      (extract_unsigned_not_good 64 _ _ (ignore_comment_exhausted s h)) rfl⟩

theorem parse_faces_failed (fs : FaceShape) (u : Uninit) (n : Nat) :
    ∀ (i : Nat) (s : IStream), s.failbit = true →
      parse_faces fs u n i s = ((List.range' i n).map (uninit_face fs u), s) := by
  induction n with
  | zero => intro i s _; rfl
  | succ n ih =>
    intro i s h
    simp [parse_faces, parse_face_failed fs u i s h, ih (i + 1) s h, List.range'_succ]

/-- The face loop on an exhausted stream: every face holds the indeterminate values. -/
theorem parse_faces_exhausted (fs : FaceShape) (u : Uninit) (n i : Nat) (s : IStream)
    (h : Exhausted s) :
    (parse_faces fs u n i s).1 = (List.range' i n).map (uninit_face fs u) := by
  cases n with
  | zero => rfl
  | succ n =>
    obtain ⟨t, ht, hv⟩ := parse_face_exhausted fs u i s h
    simp [parse_faces, hv, parse_faces_failed fs u n (i + 1) t ht, List.range'_succ]

theorem parse_vertices_add (vs : VertexShape) (u : Uninit) (a b : Nat) :
    ∀ (i : Nat) (s : IStream),
      parse_vertices vs u (a + b) i s
        = ((parse_vertices vs u a i s).1
            ++ (parse_vertices vs u b (i + a) (parse_vertices vs u a i s).2).1,
          (parse_vertices vs u b (i + a) (parse_vertices vs u a i s).2).2) := by
  induction a with
  | zero => intro i s; simp [parse_vertices]
  | succ a ih =>
    intro i s
    have e : a + 1 + b = (a + b) + 1 := by omega
    have e2 : i + (a + 1) = i + 1 + a := by omega
    rw [e]
    simp only [parse_vertices, ih, e2, List.cons_append]

theorem parse_faces_add (fs : FaceShape) (u : Uninit) (a b : Nat) :
    ∀ (i : Nat) (s : IStream),
      parse_faces fs u (a + b) i s
        = ((parse_faces fs u a i s).1
            ++ (parse_faces fs u b (i + a) (parse_faces fs u a i s).2).1,
          (parse_faces fs u b (i + a) (parse_faces fs u a i s).2).2) := by
  induction a with
  | zero => intro i s; simp [parse_faces]
  | succ a ih =>
    intro i s
    have e : a + 1 + b = (a + b) + 1 := by omega
    have e2 : i + (a + 1) = i + 1 + a := by omega
    rw [e]
    simp only [parse_faces, ih, e2, List.cons_append]

/-- The vertex loop on record lines followed by more iterations than there are lines. -/
theorem parse_vertices_records_then (vs : VertexShape) (u : Uninit)
    (recs : List (List Char × List Char)) (vl : List Vertex) (k : Nat) (tail : List Char)
    (h : List.Forall₂ (fun r v => SkippedBlock r.1 ∧ VertexRecord vs r.2 v) recs vl) :
    parse_vertices vs u (vl.length + k) 0 (IStream.fresh (records_text recs ++ tail))
      = (vl ++ (parse_vertices vs u k vl.length (IStream.fresh tail)).1,
          (parse_vertices vs u k vl.length (IStream.fresh tail)).2) := by
  rw [parse_vertices_add, parse_vertices_records vs u recs vl h 0 tail, Nat.zero_add]

/-- The face loop on record lines followed by more iterations than there are lines. -/
theorem parse_faces_records_then (fs : FaceShape) (u : Uninit)
    (recs : List (List Char × List Char)) (fl : List Face) (k : Nat) (tail : List Char)
    (h : List.Forall₂ (fun r f => SkippedBlock r.1 ∧ FaceRecord fs r.2 f) recs fl) :
    parse_faces fs u (fl.length + k) 0 (IStream.fresh (records_text recs ++ tail))
      = (fl ++ (parse_faces fs u k fl.length (IStream.fresh tail)).1,
          (parse_faces fs u k fl.length (IStream.fresh tail)).2) := by
  rw [parse_faces_add, parse_faces_records fs u recs fl h 0 tail, Nat.zero_add]

end OffParser

namespace OffParser

/-! ## Input that ends before the declared records -/

/-- The mesh that the loops of `parse` build when the input ends after fewer vertex and face
record lines than the counts line declares: it has the declared numbers of records, the records
of the lines that are there followed by records in which nothing was stored (they hold the
indeterminate values of the uninitialised locals), and `n_edges` from the counts line.  Whether
a `reserve` call throws before is seen in `parse_outcome`. -/
theorem truncated_input_returns_mesh (vs : VertexShape) (fs : FaceShape) (u : Uninit)
    (header tV w1 tF w2 tE trail : List Char) (V F E : Nat)
    (vrecs frecs : List (List Char × List Char)) (vl : List Vertex) (fl : List Face)
    (hh : '\n' ∉ header)
    (hV : UnsignedToken 64 tV V) (hF : UnsignedToken 64 tF F) (hE : UnsignedToken 64 tE E)
    (hw1 : Blanks w1) (h1 : w1 ≠ []) (hw2 : Blanks w2) (h2 : w2 ≠ []) (ht : LineRest trail)
    (hv : List.Forall₂ (fun r v => SkippedBlock r.1 ∧ VertexRecord vs r.2 v) vrecs vl)
    (hf : List.Forall₂ (fun r f => SkippedBlock r.1 ∧ FaceRecord fs r.2 f) frecs fl)
    (hVle : vl.length ≤ V) (hFle : fl.length ≤ F)
    (hmissing : vl.length < V ∨ fl.length < F)
    (hfaces : vl.length < V → frecs = []) :
    parse vs fs u
        (IStream.fresh (off_text header (counts_line tV w1 tF w2 tE trail) vrecs frecs []))
      = ⟨vl ++ (List.range' vl.length (V - vl.length)).map (uninit_vertex vs u),
          fl ++ (List.range' fl.length (F - fl.length)).map (uninit_face fs u), E⟩ := by
  have hc := parse_counts_text u header tV w1 tF w2 tE
    (trail ++ '\n' :: (records_text vrecs ++ (records_text frecs ++ [])))
    V F E hh hV hF hE (blanks_space hw1) h1 (blanks_space hw2) h2 (line_rest_starts ht _)
  have htext : off_text header (counts_line tV w1 tF w2 tE trail) vrecs frecs []
      = header ++ '\n' :: counts_line tV w1 tF w2 tE
          (trail ++ '\n' :: (records_text vrecs ++ (records_text frecs ++ []))) := by
    simp [off_text, counts_line, List.append_assoc]
  have eV : V = vl.length + (V - vl.length) := by omega
  have eF : F = fl.length + (F - fl.length) := by omega
  have hvs := parse_vertices_records_then vs u vrecs vl (V - vl.length)
    (records_text frecs ++ []) hv
  rw [← eV] at hvs
  have hfs : (parse_faces fs u F 0
      (parse_vertices vs u (V - vl.length) vl.length (IStream.fresh (records_text frecs ++ []))).2).1
        = fl ++ (List.range' fl.length (F - fl.length)).map (uninit_face fs u) ∧
      (parse_vertices vs u (V - vl.length) vl.length (IStream.fresh (records_text frecs ++ []))).1
        = (List.range' vl.length (V - vl.length)).map (uninit_vertex vs u) := by
    by_cases hlt : vl.length < V
    · have hnil := hfaces hlt
      subst hnil
      cases hf
      obtain ⟨t, ht, ht2⟩ := parse_vertices_exhausted vs u (V - vl.length) vl.length
        (IStream.fresh (records_text [] ++ [])) (Or.inr (by simp [IStream.fresh, records_text]))
      rw [ht2]
      exact ⟨by simpa using parse_faces_exhausted fs u F 0 t ht, rfl⟩
    · have hz : V - vl.length = 0 := by omega
      rw [hz]
      have hfr := parse_faces_records_then fs u frecs fl (F - fl.length) [] hf
      rw [← eF] at hfr
      simp only [parse_vertices, hfr, List.range'_zero, List.map_nil, and_true]
      rw [parse_faces_exhausted fs u (F - fl.length) fl.length (IStream.fresh []) (Or.inr (by simp [IStream.fresh]))]
  rw [htext]
  simp only [parse, hc, line_rest_ignore ht, hvs, hfs.1, hfs.2]

end OffParser

namespace OffParser

/-! ## A malformed number -/

end OffParser

namespace OffParser

/-- Counterexample to C17 as stated for every input.  With the optional-coloured vertex shape
the reader takes what follows the position on the line as the colour, so the content ` x` after
the last position token changes the mesh (the vertex gets a colour, and `failbit` is set).  With
the plain face shape, on a face line that declares three indices and carries two, the content
` 9` after the last index is read as the third index.  Content that does not begin with
whitespace can continue the last token: `7` placed right after the third count `5` makes the
count 57. -/
theorem rest_of_line_counterexample :
    parse_text (.optional_colored_vertex .v3 .v3) (.face 16) uninit_zero "OFF\n1 0 0\n0 0 0 x\n"
      = ⟨[.optional_colored_vertex (.vec3 (.ofNat 0) (.ofNat 0) (.ofNat 0))
          (some (.vec3 (.ofNat 0) (.ofNat 0) (.ofNat 0)))], [], 0⟩ ∧
    parse_text (.optional_colored_vertex .v3 .v3) (.face 16) uninit_zero "OFF\n1 0 0\n0 0 0\n"
      = ⟨[.optional_colored_vertex (.vec3 (.ofNat 0) (.ofNat 0) (.ofNat 0)) none], [], 0⟩ ∧
    parse_text (.optional_colored_vertex .v3 .v3) (.face 16) uninit_zero "OFF\n1 0 0\n0 0 0 x\n"
      ≠ parse_text (.optional_colored_vertex .v3 .v3) (.face 16) uninit_zero
          "OFF\n1 0 0\n0 0 0\n" ∧
    parse_text_outcome (ample_storage 24 24 2) (.vertex .v3) (.face 16) uninit_large
        "OFF\n0 1 0\n3 0 1 9\n" = .returned ⟨[], [.face [0, 1, 9]], 0⟩ ∧
    parse_text_outcome (ample_storage 24 24 2) (.vertex .v3) (.face 16) uninit_large
        "OFF\n0 1 0\n3 0 1\n" = .returned ⟨[], [.face [0, 1]], 0⟩ ∧
    parse_text_outcome (ample_storage 24 24 2) (.vertex .v3) (.face 16) uninit_large
        "OFF\n0 0 57\n" = .returned ⟨[], [], 57⟩ ∧
    parse_text_outcome (ample_storage 24 24 2) (.vertex .v3) (.face 16) uninit_large
        "OFF\n0 0 5\n" = .returned ⟨[], [], 5⟩ := by
  decide!

end OffParser

/-! ## Selection of the mesh type in `main.cpp` -/

/-- C21. For arguments that pass the validation of `main`, with a flag of each of the two
required groups set, both strict lookups succeed, so the `std::runtime_error` of `static_map`
is not thrown (and `unreachable()` is not called).  The five keys of each table are
(0,-1), (1,3), (1,4), (2,3), (2,4), pairwise distinct; the five shapes of each table are
pairwise different; and every key resolves to the shape of its own entry, so no entry is
shadowed. -/
theorem validated_lookups_succeed (a : Arguments)
    (hval : argument_validation a = Except.ok ())
    (hv : a.nvc = true ∨ a.vc = true ∨ a.ovc = true)
    (hf : a.nfc = true ∨ a.fc = true ∨ a.ofc = true) :
    ((∃ vs, vertex_type_lookup a = some (Except.ok vs)) ∧
      (∃ fs, face_type_lookup a = some (Except.ok fs))) ∧
    (vcmap.mappings.map (fun e => e.mapper) = [(0, -1), (1, 3), (1, 4), (2, 3), (2, 4)] ∧
      fcmap.mappings.map (fun e => e.mapper) = [(0, -1), (1, 3), (1, 4), (2, 3), (2, 4)] ∧
      (vcmap.mappings.map (fun e => e.mapper)).Nodup ∧
      (fcmap.mappings.map (fun e => e.mapper)).Nodup) ∧
    (vcmap.mappings.map (fun e => e.type)
        = [.vertex .v3, .colored_vertex .v3 .v3, .colored_vertex .v3 .v4,
            .optional_colored_vertex .v3 .v3, .optional_colored_vertex .v3 .v4] ∧
      fcmap.mappings.map (fun e => e.type)
        = [.face 16, .colored_face 16 .v3, .colored_face 16 .v4,
            .optional_colored_face 16 .v3, .optional_colored_face 16 .v4] ∧
      (vcmap.mappings.map (fun e => e.type)).Nodup ∧
      (fcmap.mappings.map (fun e => e.type)).Nodup) ∧
    (∀ e ∈ vcmap.mappings, vcmap.static_map e.mapper = Except.ok e.type) ∧
    (∀ e ∈ fcmap.mappings, fcmap.static_map e.mapper = Except.ok e.type) := by
  have hc : (a.vcc = 3 ∨ a.vcc = 4) ∧ (a.fcc = 3 ∨ a.fcc = 4) := by
    unfold argument_validation at hval
    by_cases h1 : is_one_of a.vcc [3, 4] = true
    · by_cases h2 : is_one_of a.fcc [3, 4] = true
      · simp [is_one_of] at h1 h2
        exact ⟨h1, h2⟩
      · simp [h1, h2] at hval
    · simp [h1] at hval
  refine ⟨⟨?_, ?_⟩, ⟨rfl, rfl, by decide, by decide⟩, ⟨rfl, rfl, by decide, by decide⟩,
    ?_, ?_⟩
  · rcases hc.1 with h | h <;>
      cases h1 : a.nvc <;> cases h2 : a.vc <;> cases h3 : a.ovc <;>
      simp [h1, h2, h3] at hv <;>
      simp [vertex_type_lookup, parse_vertex_color, n_vertex_color_channel, h, h1, h2, h3,
        type_mapper.static_map, type_mapper.static_map_tuple, vcmap]
  · rcases hc.2 with h | h <;>
      cases h1 : a.nfc <;> cases h2 : a.fc <;> cases h3 : a.ofc <;>
      simp [h1, h2, h3] at hf <;>
      simp [face_type_lookup, parse_face_color, n_face_color_channel, h, h1, h2, h3,
        type_mapper.static_map, type_mapper.static_map_tuple, fcmap]
  · intro e he
    simp only [type_mapper.mappings, vcmap, List.mem_cons, List.mem_singleton,
      List.not_mem_nil, or_false] at he
    rcases he with rfl | rfl | rfl | rfl | rfl <;> rfl
  · intro e he
    simp only [type_mapper.mappings, fcmap, List.mem_cons, List.mem_singleton,
      List.not_mem_nil, or_false] at he
    rcases he with rfl | rfl | rfl | rfl | rfl <;> rfl

/-- Instance of C21: `-ovc -vcc 4 -nfc` selects `optional_colored_vertex<vec3, vec4>` and
`face<uint16_t>`. -/
theorem validated_lookups_succeed_witness :
    (∃ vs, vertex_type_lookup ⟨false, false, true, 4, true, false, false, 3⟩
      = some (Except.ok vs)) ∧
    (∃ fs, face_type_lookup ⟨false, false, true, 4, true, false, false, 3⟩
      = some (Except.ok fs)) :=
  (validated_lookups_succeed ⟨false, false, true, 4, true, false, false, 3⟩
    (by simp [argument_validation, is_one_of]) (by decide) (by decide)).1

namespace OffParser

/-! ## Index lists and declared counts -/

theorem parse_indices_length_le (w : Nat) (u : Uninit) (i n : Nat) :
    ∀ (j : Nat) (s : IStream), (parse_indices w u i n j s).1.length ≤ n := by
  induction n with
  | zero => intro j s; simp [parse_indices]
  | succ n ih =>
    intro j s
    unfold parse_indices
    by_cases h : s.peek.1 = some '\n'
    · simp [h]
    · simp only [h, if_false, List.length_cons]
      exact Nat.succ_le_succ (ih _ _)

theorem parse_face_indices_le (fs : FaceShape) (u : Uninit) (i : Nat) (s : IStream) :
    (parse_face fs u i s).1.vertex_indices.length ≤ declared_index_count u i s := by
  cases fs <;>
    simp only [parse_face, declared_index_count, Face.vertex_indices, FaceShape.index_bits] <;>
    exact parse_indices_length_le _ u i _ 0 _

theorem parse_faces_indices_le (fs : FaceShape) (u : Uninit) (n : Nat) :
    ∀ (i : Nat) (s : IStream),
      List.Forall₂ (fun f k => f.vertex_indices.length ≤ k ∧ (k = 0 → f.vertex_indices = []))
        (parse_faces fs u n i s).1 (declared_index_counts fs u n i s) := by
  induction n with
  | zero => intro i s; exact List.Forall₂.nil
  | succ n ih =>
    intro i s
    have h := parse_face_indices_le fs u i s
    refine List.Forall₂.cons ⟨h, fun h0 => ?_⟩ (ih _ _)
    rw [h0] at h
    exact List.length_eq_zero.1 (Nat.le_zero.1 h)

theorem declared_index_count_token (u : Uninit) (i : Nat) (tk rest : List Char) (k : Nat)
    (hk : UnsignedToken 64 tk k) (hrest : starts_space rest = true) :
    declared_index_count u i (IStream.fresh (tk ++ rest)) = k := by
  obtain ⟨c, cs, hc, h1, h2⟩ := unsigned_token_head_ne_hash hk
  have hstop : ignore_comment_or_empty_lines (IStream.fresh (tk ++ rest))
      = IStream.fresh (tk ++ rest) := by
    rw [hc, List.cons_append]
    exact ignore_comment_stop c _ h1 h2
  have e := extract_unsigned_token 64 [] tk rest k (u.n_vertices_in_face i) (by simp) hk hrest
  rw [List.nil_append] at e
  rw [declared_index_count, hstop, e]

/-- C22. For every input stream and every vertex and face shape, each face of the mesh returned
by `parse` holds at most as many vertex indices as the value of `n_vertices_in_face` in its
iteration of the face loop, and a face whose count is 0 has an empty index list.  That value is
the count written at the start of the record: on a line that begins with a count token followed
by whitespace it is the number the token denotes. -/
theorem face_indices_within_declared_count (vs : VertexShape) (fs : FaceShape) (u : Uninit)
    (input : IStream) :
    List.Forall₂ (fun f k => f.vertex_indices.length ≤ k ∧ (k = 0 → f.vertex_indices = []))
      (parse vs fs u input).faces (parse_declared_index_counts vs fs u input) ∧
    (∀ (i : Nat) (tk rest : List Char) (k : Nat), UnsignedToken 64 tk k →
      starts_space rest = true →
      declared_index_count u i (IStream.fresh (tk ++ rest)) = k ∧
      (parse_face fs u i (IStream.fresh (tk ++ rest))).1.vertex_indices.length ≤ k) := by
  refine ⟨parse_faces_indices_le fs u _ 0 _, fun i tk rest k hk hrest => ?_⟩
  have h := declared_index_count_token u i tk rest k hk hrest
  refine ⟨h, ?_⟩
  rw [← h]
  exact parse_face_indices_le fs u i _

/-- Instance of C22: a face line declaring 0 indices and a face line declaring 3 indices that
carries two. -/
theorem face_indices_within_declared_count_witness :
    (parse_text (.vertex .v3) (.face 16) uninit_zero "OFF\n0 2 0\n0\n3 0 1\n").faces
      = [.face [], .face [0, 1]] ∧
    parse_declared_index_counts (.vertex .v3) (.face 16) uninit_zero
        (IStream.fresh "OFF\n0 2 0\n0\n3 0 1\n".toList) = [0, 3] ∧
    List.Forall₂ (fun f k => f.vertex_indices.length ≤ k ∧ (k = 0 → f.vertex_indices = []))
      (parse (.vertex .v3) (.face 16) uninit_zero
        (IStream.fresh "OFF\n0 2 0\n0\n3 0 1\n".toList)).faces
      (parse_declared_index_counts (.vertex .v3) (.face 16) uninit_zero
        (IStream.fresh "OFF\n0 2 0\n0\n3 0 1\n".toList)) :=
  ⟨by decide!, by decide!,
    (face_indices_within_declared_count (.vertex .v3) (.face 16) uninit_zero
      (IStream.fresh "OFF\n0 2 0\n0\n3 0 1\n".toList)).1⟩

end OffParser

namespace OffParser

/-! ## What `ignore_comment_or_empty_lines` consumes -/

/-- The fuelled loop of the definition agrees with the run that reports exhaustion of fuel. -/
theorem ignore_loop_of_run (fuel : Nat) : ∀ (s t : IStream),
    ignore_comment_or_empty_lines_run fuel s = some t →
      ignore_comment_or_empty_lines_loop fuel s = t := by
  induction fuel with
  | zero => intro s t h; cases h
  | succ n ih =>
    intro s t h
    unfold ignore_comment_or_empty_lines_run at h
    unfold ignore_comment_or_empty_lines_loop
    by_cases he : s.eof = true
    · simp only [he, if_true, Option.some.injEq] at h ⊢
      exact h
    · simp only [he, Bool.false_eq_true, if_false] at h ⊢
      by_cases h1 : s.peek.1 = some '\n'
      · simp only [h1, if_true] at h ⊢
        exact ih _ _ h
      · by_cases h2 : s.peek.1 = some '#'
        · simp only [h2, if_true] at h ⊢
          simp only [show ¬ (some '#' = some '\n') by decide, if_false] at h ⊢
          exact ih _ _ h
        · simp only [h1, h2, if_false, Option.some.injEq] at h ⊢
          exact h

/-- The loop returns within one more iteration than there are characters left, whatever the
state of the stream. -/
theorem ignore_run_terminates (n : Nat) : ∀ (s : IStream), s.buf.length < n →
    ∃ t, ignore_comment_or_empty_lines_run n s = some t := by
  induction n with
  | zero => intro s h; exact absurd h (Nat.not_lt_zero _)
  | succ n ih =>
    intro s hn
    obtain ⟨buf, e, f⟩ := s
    cases e with
    | true => simp [ignore_comment_or_empty_lines_run, IStream.eof]
    | false =>
      cases f with
      | true =>
        simp [ignore_comment_or_empty_lines_run, IStream.eof, IStream.peek, IStream.good]
      | false =>
        cases buf with
        | nil =>
          simp [ignore_comment_or_empty_lines_run, IStream.eof, IStream.peek, IStream.good]
        | cons c cs =>
          simp only [List.length_cons] at hn
          by_cases h1 : c = '\n'
          · subst h1
            obtain ⟨t, ht⟩ := ih ⟨cs, false, false⟩ (by simpa using Nat.lt_of_succ_lt_succ hn)
            exact ⟨t, by simpa [ignore_comment_or_empty_lines_run, IStream.eof, IStream.peek,
              IStream.good, IStream.ignore] using ht⟩
          · by_cases h2 : c = '#'
            · subst h2
              cases har : after_newline ('#' :: cs) with
              | none =>
                obtain ⟨t, ht⟩ := ih ⟨[], true, false⟩ (by simp; omega)
                exact ⟨t, by simpa [ignore_comment_or_empty_lines_run, IStream.eof,
                  IStream.peek, IStream.good, ignore_until_newline,
                  IStream.ignore_max_newline, har] using ht⟩
              | some r =>
                have hl := after_newline_length _ _ har
                simp only [List.length_cons] at hl
                obtain ⟨t, ht⟩ := ih ⟨r, false, false⟩ (by simp; omega)
                exact ⟨t, by simpa [ignore_comment_or_empty_lines_run, IStream.eof,
                  IStream.peek, IStream.good, ignore_until_newline,
                  IStream.ignore_max_newline, har] using ht⟩
            · simp [ignore_comment_or_empty_lines_run, IStream.eof, IStream.peek,
                IStream.good, h1, h2]

end OffParser

namespace OffParser

theorem after_newline_some (l r : List Char) (h : after_newline l = some r) :
    ∃ body, '\n' ∉ body ∧ l = body ++ '\n' :: r := by
  induction l with
  | nil => cases h
  | cons a l ih =>
    by_cases ha : a = '\n'
    · simp [after_newline, ha] at h
      subst h
      exact ⟨[], by simp, by simp [ha]⟩
    · simp [after_newline, ha] at h
      obtain ⟨body, hb, rfl⟩ := ih h
      refine ⟨a :: body, ?_, rfl⟩
      intro hm
      rcases List.mem_cons.1 hm with e | e
      · exact ha e.symm
      · exact hb e

theorem after_newline_none (l : List Char) (h : after_newline l = none) : '\n' ∉ l := by
  induction l with
  | nil => simp
  | cons a l ih =>
    by_cases ha : a = '\n'
    · simp [after_newline, ha] at h
    · simp [after_newline, ha] at h
      intro hm
      rcases List.mem_cons.1 hm with e | e
      · exact ha e.symm
      · exact ih h e

theorem skipped_block_nil : SkippedBlock [] := ⟨[], ⟨fun _ h => (nomatch h), rfl⟩⟩

theorem skipped_block_cons {l b : List Char} (hl : SkippedLine l) (hb : SkippedBlock b) :
    SkippedBlock (l ++ b) := by
  obtain ⟨ls, hls, rfl⟩ := hb
  refine ⟨l :: ls, ?_, rfl⟩
  intro x hx
  rcases List.mem_cons.1 hx with rfl | hx
  · exact hl
  · exact hls x hx

theorem skipped_prefix_cons {l block rest : List Char} (hl : SkippedLine l)
    (h : SkippedPrefix block rest) : SkippedPrefix (l ++ block) rest := by
  rcases h with h | ⟨hr, b, u, hb, hu, rfl⟩
  · exact Or.inl (skipped_block_cons hl h)
  · exact Or.inr ⟨hr, l ++ b, u, skipped_block_cons hl hb, hu, by simp⟩

/-- Run of the loop on a fresh stream: the text splits into a prefix of skipped lines and a rest
at which the loop returns. -/
theorem ignore_run_fresh (n : Nat) : ∀ (buf : List Char), buf.length < n →
    ∃ block rest, buf = block ++ rest ∧ SkippedPrefix block rest ∧
      (rest = [] ∨ ∃ c cs, rest = c :: cs ∧ c ≠ '\n' ∧ c ≠ '#') ∧
      ∀ fuel, buf.length < fuel →
        ignore_comment_or_empty_lines_run fuel (IStream.fresh buf) = some (after_skipped rest) := by
  induction n with
  | zero => intro buf h; exact absurd h (Nat.not_lt_zero _)
  | succ n ih =>
    intro buf hn
    cases buf with
    | nil =>
      refine ⟨[], [], rfl, Or.inl skipped_block_nil, Or.inl rfl, ?_⟩
      intro fuel hf
      cases fuel with
      | zero => exact absurd hf (Nat.not_lt_zero _)
      | succ fuel =>
        simp [ignore_comment_or_empty_lines_run, IStream.eof, IStream.peek, IStream.good,
          IStream.fresh, after_skipped]
    | cons c cs =>
      simp only [List.length_cons] at hn
      by_cases h1 : c = '\n'
      · subst h1
        obtain ⟨block, rest, hb, hp, hs, hrun⟩ := ih cs (Nat.lt_of_succ_lt_succ hn)
        refine ⟨['\n'] ++ block, rest, by simp [hb], skipped_prefix_cons (Or.inl rfl) hp, hs, ?_⟩
        intro fuel hf
        cases fuel with
        | zero => exact absurd hf (Nat.not_lt_zero _)
        | succ fuel =>
          have := hrun fuel (by simpa using Nat.lt_of_succ_lt_succ hf)
          simpa [ignore_comment_or_empty_lines_run, IStream.eof, IStream.peek, IStream.good,
            IStream.fresh, IStream.ignore] using this
      · by_cases h2 : c = '#'
        · subst h2
          cases har : after_newline cs with
          | none =>
            have hnl := after_newline_none cs har
            refine ⟨'#' :: cs, [], by simp,
              Or.inr ⟨rfl, [], '#' :: cs, skipped_block_nil, ⟨cs, hnl, rfl⟩, rfl⟩, Or.inl rfl, ?_⟩
            intro fuel hf
            cases fuel with
            | zero => exact absurd hf (Nat.not_lt_zero _)
            | succ fuel =>
              cases fuel with
              | zero => simp at hf
              | succ fuel =>
                simp [ignore_comment_or_empty_lines_run, IStream.eof, IStream.peek,
                  IStream.good, IStream.fresh, ignore_until_newline,
                  IStream.ignore_max_newline, after_newline, har, after_skipped]
          | some r =>
            obtain ⟨body, hbody, rfl⟩ := after_newline_some cs r har
            obtain ⟨block, rest, hb, hp, hs, hrun⟩ := ih r (by
              simp only [List.length_append, List.length_cons] at hn
              omega)
            refine ⟨('#' :: (body ++ ['\n'])) ++ block, rest, by simp [hb],
              skipped_prefix_cons (Or.inr ⟨body, hbody, rfl⟩) hp, hs, ?_⟩
            intro fuel hf
            cases fuel with
            | zero => exact absurd hf (Nat.not_lt_zero _)
            | succ fuel =>
              have := hrun fuel (by
                simp only [List.length_append, List.length_cons] at hf
                omega)
              simpa [ignore_comment_or_empty_lines_run, IStream.eof, IStream.peek,
                IStream.good, IStream.fresh, ignore_until_newline,
                IStream.ignore_max_newline, after_newline, har] using this
        · refine ⟨[], c :: cs, rfl, Or.inl skipped_block_nil, Or.inr ⟨c, cs, rfl, h1, h2⟩, ?_⟩
          intro fuel hf
          cases fuel with
          | zero => exact absurd hf (Nat.not_lt_zero _)
          | succ fuel =>
            simp [ignore_comment_or_empty_lines_run, IStream.eof, IStream.peek, IStream.good,
              IStream.fresh, after_skipped, h1, h2]

end OffParser

namespace OffParser

theorem skipped_line_head {l : List Char} (h : SkippedLine l) :
    ∃ a t, l = a :: t ∧ (a = '\n' ∨ a = '#') := by
  rcases h with rfl | ⟨body, _, rfl⟩
  · exact ⟨'\n', [], rfl, Or.inl rfl⟩
  · exact ⟨'#', body ++ ['\n'], rfl, Or.inr rfl⟩

/-- The first line of a text is determined by the text. -/
theorem skipped_line_unique {l l2 a b : List Char} (hl : SkippedLine l) (hl2 : SkippedLine l2)
    (h : l ++ a = l2 ++ b) : l = l2 ∧ a = b := by
  rcases hl with rfl | ⟨body, hb, rfl⟩ <;> rcases hl2 with rfl | ⟨body2, hb2, rfl⟩
  · simpa using h
  · simp at h
  · simp at h
  · simp only [List.cons_append, List.append_assoc, List.singleton_append, List.cons.injEq,
      true_and, List.nil_append] at h
    have e1 := after_newline_append body a hb
    have e2 := after_newline_append body2 b hb2
    rw [h, e2] at e1
    have hab : a = b := (Option.some.inj e1).symm
    subst hab
    have hbody : body = body2 := by
      have h3 : body ++ ('\n' :: a) = body2 ++ ('\n' :: a) := h
      exact List.append_cancel_right h3
    subst hbody
    exact ⟨rfl, rfl⟩

/-- Two ways of cutting whole skipped lines off a text whose remainder starts no skipped line:
the second cuts off a part of what the first does. -/
theorem skipped_lines_prefix (c : Char) (cs : List Char) (h1 : c ≠ '\n') (h2 : c ≠ '#')
    (ls2 : List (List Char)) :
    ∀ (ls : List (List Char)) (y : List Char), (∀ l ∈ ls, SkippedLine l) →
      (∀ l ∈ ls2, SkippedLine l) → concat_text ls ++ c :: cs = concat_text ls2 ++ y →
      ∃ ls3, ls = ls2 ++ ls3 ∧ y = concat_text ls3 ++ c :: cs := by
  induction ls2 with
  | nil =>
    intro ls y _ _ h
    exact ⟨ls, rfl, by simpa [concat_text] using h.symm⟩
  | cons l2 ls2 ih =>
    intro ls y hls hls2 h
    have hl2 := hls2 l2 (List.mem_cons_self _ _)
    cases ls with
    | nil =>
      obtain ⟨a, t, rfl, ha⟩ := skipped_line_head hl2
      simp only [concat_text, List.nil_append, List.cons_append, List.cons.injEq] at h
      rcases ha with ha | ha
      · exact absurd (h.1.trans ha) h1
      · exact absurd (h.1.trans ha) h2
    | cons l ls =>
      simp only [concat_text, List.append_assoc] at h
      obtain ⟨rfl, h3⟩ := skipped_line_unique (hls l (List.mem_cons_self _ _)) hl2 h
      obtain ⟨ls3, rfl, hy⟩ := ih ls y (fun x hx => hls x (List.mem_cons_of_mem _ hx))
        (fun x hx => hls2 x (List.mem_cons_of_mem _ hx)) h3
      exact ⟨ls3, rfl, hy⟩

theorem concat_text_append (a b : List (List Char)) :
    concat_text (a ++ b) = concat_text a ++ concat_text b := by
  induction a with
  | nil => rfl
  | cons x a ih => simp [concat_text, ih]

/-- No prefix of whole skipped lines is longer than one after which the text is at its end or
starts no skipped line. -/
theorem skipped_prefix_longest (block rest block2 rest2 : List Char)
    (h : block ++ rest = block2 ++ rest2) (hp : SkippedPrefix block rest)
    (hs : rest = [] ∨ ∃ c cs, rest = c :: cs ∧ c ≠ '\n' ∧ c ≠ '#')
    (hp2 : SkippedPrefix block2 rest2) : block2.length ≤ block.length := by
  rcases hs with rfl | ⟨c, cs, rfl, h1, h2⟩
  · have := congrArg List.length h
    simp only [List.append_nil, List.length_append] at this
    omega
  · rcases hp with ⟨ls, hls, rfl⟩ | ⟨hr, _⟩
    · rcases hp2 with ⟨ls2, hls2, rfl⟩ | ⟨rfl, b, u, ⟨ls2, hls2, rfl⟩, ⟨body, hbody, rfl⟩, rfl⟩
      · obtain ⟨ls3, rfl, _⟩ := skipped_lines_prefix c cs h1 h2 ls2 ls rest2 hls hls2 h
        simp [concat_text_append]
      · rw [List.append_nil] at h
        obtain ⟨ls3, rfl, hy⟩ := skipped_lines_prefix c cs h1 h2 ls2 ls _ hls hls2 h
        exfalso
        cases ls3 with
        | nil =>
          simp only [concat_text, List.nil_append, List.cons.injEq] at hy
          exact h2 hy.1.symm
        | cons l ls3 =>
          have hl := hls l (by simp)
          rcases hl with rfl | ⟨body3, _, rfl⟩
          · simp [concat_text] at hy
          · simp only [concat_text, List.cons_append, List.append_assoc, List.cons.injEq,
              true_and] at hy
            exact hbody (by rw [hy]; simp)
    · cases hr

end OffParser

namespace OffParser

theorem after_newline_of_not_mem (l : List Char) (h : '\n' ∉ l) : after_newline l = none := by
  induction l with
  | nil => rfl
  | cons a l ih =>
    have ha : a ≠ '\n' := fun e => h (by simp [e])
    simp [after_newline, ha, ih (fun hm => h (List.mem_cons_of_mem _ hm))]

/-- With enough fuel the run returns, and what it returns is the result of
`ignore_comment_or_empty_lines`. -/
theorem ignore_run_result (s : IStream) (fuel : Nat) (h : s.buf.length < fuel) :
    ∃ t, ignore_comment_or_empty_lines_run fuel s = some t ∧
      ignore_comment_or_empty_lines s = t := by
  obtain ⟨t, ht⟩ := ignore_run_terminates fuel s h
  refine ⟨t, ht, ?_⟩
  rw [ignore_comment_or_empty_lines,
    ignore_loop_fuel (s.buf.length + 1) fuel s (Nat.lt_succ_self _) h]
  exact ignore_loop_of_run fuel s t ht

/-- C23. `ignore_comment_or_empty_lines` terminates on every stream: the loop returns within one
more iteration than there are characters left.  On a fresh stream over any text it consumes
exactly the longest prefix made of whole lines that are empty or begin with `#` (the last one
may be a comment cut short by the end of the input): afterwards the stream is at the end of the
input, or its next character is neither a newline nor `#`.  A line whose `#` stands behind a
space or a tab is not consumed, and a final comment line without newline is consumed up to the
end of the input. -/
theorem ignore_comment_longest_prefix_consumed (buf : List Char) :
    (∀ (s : IStream) (fuel : Nat), s.buf.length < fuel →
      ∃ t, ignore_comment_or_empty_lines_run fuel s = some t ∧
        ignore_comment_or_empty_lines s = t) ∧
    (∃ block rest, buf = block ++ rest ∧ SkippedPrefix block rest ∧
      (rest = [] ∨ ∃ c cs, rest = c :: cs ∧ c ≠ '\n' ∧ c ≠ '#') ∧
      (∀ block2 rest2, buf = block2 ++ rest2 → SkippedPrefix block2 rest2 →
        block2.length ≤ block.length) ∧
      (∀ fuel, buf.length < fuel →
        ignore_comment_or_empty_lines_run fuel (IStream.fresh buf)
          = some (after_skipped rest)) ∧
      ignore_comment_or_empty_lines (IStream.fresh buf) = after_skipped rest) ∧
    (∀ (c : Char) (l : List Char), c = ' ' ∨ c = '\t' →
      ignore_comment_or_empty_lines (IStream.fresh (c :: '#' :: l))
        = IStream.fresh (c :: '#' :: l)) ∧
    (∀ body : List Char, '\n' ∉ body →
      ignore_comment_or_empty_lines (IStream.fresh ('#' :: body)) = ⟨[], true, false⟩) := by
  refine ⟨fun s fuel h => ignore_run_result s fuel h, ?_, ?_, ?_⟩
  · obtain ⟨block, rest, hb, hp, hs, hrun⟩ := ignore_run_fresh (buf.length + 1) buf
      (Nat.lt_succ_self _)
    refine ⟨block, rest, hb, hp, hs, ?_, hrun, ?_⟩
    · intro block2 rest2 h2 hp2
      exact skipped_prefix_longest block rest block2 rest2 (hb.symm.trans h2) hp hs hp2
    · obtain ⟨t, ht, hres⟩ := ignore_run_result (IStream.fresh buf) (buf.length + 1)
        (Nat.lt_succ_self _)
      rw [hrun (buf.length + 1) (Nat.lt_succ_self _)] at ht
      rw [hres]
      exact (Option.some.inj ht).symm
  · intro c l hc
    exact ignore_comment_stop c _ (blank_ne_newline hc) (blank_ne_hash hc)
  · intro body hbody
    have har := after_newline_of_not_mem body hbody
    simp [ignore_comment_or_empty_lines, ignore_comment_or_empty_lines_loop, IStream.fresh,
      IStream.eof, IStream.peek, IStream.good, ignore_until_newline,
      IStream.ignore_max_newline, after_newline, har]

/-- Instance of C23: an empty line, a comment line and an empty line are consumed and the line
` #x`, whose comment mark stands behind a space, is not; a final comment without newline is
consumed up to the end of the input. -/
theorem ignore_comment_longest_prefix_consumed_witness :
    ignore_comment_or_empty_lines (IStream.fresh "\n# c\n\n #x\n".toList)
      = IStream.fresh " #x\n".toList ∧
    ignore_comment_or_empty_lines_run 11 (IStream.fresh "\n# c\n\n #x\n".toList)
      = some (IStream.fresh " #x\n".toList) ∧
    ignore_comment_or_empty_lines (IStream.fresh "#abc".toList) = ⟨[], true, false⟩ :=
  ⟨by decide!, by decide!,
    (ignore_comment_longest_prefix_consumed []).2.2.2 "abc".toList (by decide)⟩

end OffParser

namespace OffParser

/-! ## Optional colour with fewer tokens than channels -/

/-- Source `parse_vec_within_line` on fewer fields than the vector has components, ended at once
by the newline: `std::nullopt`; the fields are extracted and dropped, the newline is left. -/
theorem parse_vec_within_line_partial (k : VecKind) (cf : List (List Char × List Char))
    (ds : List Decimal) (init : Nat → Decimal) (rest : List Char)
    (h : ScalarFields cf ds) (hsep : Separated cf) (hlen : ds.length < k.size) :
    parse_vec_within_line k init (IStream.fresh (spaced cf ++ '\n' :: rest))
      = (none, IStream.fresh ('\n' :: rest)) := by
  have hnl := starts_space_newline rest
  cases ds with
  | nil =>
    obtain rfl := List.forall₂_nil_right_iff.1 h
    exact parse_vec_within_line_newline k init rest
  | cons d1 ds =>
    obtain ⟨f1, r1, h1, hr1, rfl⟩ := List.forall₂_cons_right_iff.1 h
    have s1 : f1.1 ≠ [] := hsep f1 (by simp)
    cases ds with
    | nil =>
      obtain rfl := List.forall₂_nil_right_iff.1 hr1
      have e1 := within_line_elem_field f1.1 f1.2 ('\n' :: rest) d1 (init 0) h1.1 s1 h1.2 hnl
      have hsp : spaced [f1] ++ '\n' :: rest = f1.1 ++ (f1.2 ++ '\n' :: rest) := by
        simp [spaced, List.append_assoc]
      rw [hsp]
      simp only [parse_vec_within_line, e1, within_line_elem_newline]
    | cons d2 ds =>
      obtain ⟨f2, r2, h2, hr2, rfl⟩ := List.forall₂_cons_right_iff.1 hr1
      have s2 : f2.1 ≠ [] := hsep f2 (by simp)
      cases ds with
      | nil =>
        obtain rfl := List.forall₂_nil_right_iff.1 hr2
        have e2 := within_line_elem_field f2.1 f2.2 ('\n' :: rest) d2 (init 1) h2.1 s2 h2.2 hnl
        have e1 := within_line_elem_field f1.1 f1.2 (f2.1 ++ (f2.2 ++ '\n' :: rest)) d1 (init 0)
          h1.1 s1 h1.2 (starts_space_blanks_append _ _ h2.1 s2)
        have hsp : spaced [f1, f2] ++ '\n' :: rest
            = f1.1 ++ (f1.2 ++ (f2.1 ++ (f2.2 ++ '\n' :: rest))) := by
          simp [spaced, List.append_assoc]
        rw [hsp]
        simp only [parse_vec_within_line, e1, e2, within_line_elem_newline]
      | cons d3 ds =>
        obtain ⟨f3, r3, h3, hr3, rfl⟩ := List.forall₂_cons_right_iff.1 hr2
        have s3 : f3.1 ≠ [] := hsep f3 (by simp)
        cases k with
        | v3 =>
          simp only [VecKind.size, List.length_cons] at hlen
          omega
        | v4 =>
          cases ds with
          | nil =>
            obtain rfl := List.forall₂_nil_right_iff.1 hr3
            have e3 := within_line_elem_field f3.1 f3.2 ('\n' :: rest) d3 (init 2)
              h3.1 s3 h3.2 hnl
            have e2 := within_line_elem_field f2.1 f2.2 (f3.1 ++ (f3.2 ++ '\n' :: rest)) d2
              (init 1) h2.1 s2 h2.2 (starts_space_blanks_append _ _ h3.1 s3)
            have e1 := within_line_elem_field f1.1 f1.2
              (f2.1 ++ (f2.2 ++ (f3.1 ++ (f3.2 ++ '\n' :: rest)))) d1 (init 0)
              h1.1 s1 h1.2 (starts_space_blanks_append _ _ h2.1 s2)
            have hsp : spaced [f1, f2, f3] ++ '\n' :: rest
                = f1.1 ++ (f1.2 ++ (f2.1 ++ (f2.2 ++ (f3.1 ++ (f3.2 ++ '\n' :: rest))))) := by
              simp [spaced, List.append_assoc]
            rw [hsp]
            simp only [parse_vec_within_line, e1, e2, e3, within_line_elem_newline]
          | cons d4 ds =>
            simp only [VecKind.size, List.length_cons] at hlen
            omega

/-- A line with the position fields and fewer colour fields than the colour has channels, ended
at once by its newline, is a record of the optional-coloured vertex shape with the colour
absent: the colour tokens read are dropped and the next line is left for the next record. -/
theorem vertex_record_optional_partial (position : Vec) (ck : VecKind)
    (pf cf : List (List Char × List Char)) (ds : List Decimal)
    (hp : ScalarFields pf position.toList) (hsep : Separated pf.tail)
    (hc : ScalarFields cf ds) (hcsep : Separated cf) (hlen : ds.length < ck.size) :
    VertexRecord (.optional_colored_vertex position.kind ck) (spaced pf ++ spaced cf)
      (.optional_colored_vertex position none) := by
  intro u i rest
  obtain ⟨c, l, hc0, h1, h2⟩ :=
    scalar_fields_head position pf (spaced cf ++ '\n' :: rest) hp
  have hstop := ignore_comment_stop c l h1 h2
  rw [← hc0] at hstop
  have e := parse_vec_fields position pf (spaced cf ++ '\n' :: rest) (u.position i) hp hsep
    (starts_space_spaced cf ('\n' :: rest) (scalar_fields_blanks hc) hcsep
      (starts_space_newline rest))
  have e2 := parse_vec_within_line_partial ck cf ds (u.vertex_color i) rest hc hcsep hlen
  have hig : ignore_until_newline (IStream.fresh ('\n' :: rest)) = IStream.fresh rest :=
    ignore_until_newline_fresh [] rest (by simp)
  rw [List.append_assoc]
  simp only [parse_vertex, hstop, VertexShape.position_type, e, e2, hig]

/-- A line with the count, that many index fields and fewer colour fields than the colour has
channels, ended at once by its newline, is a record of the optional-coloured face shape with
the colour absent. -/
theorem face_record_optional_partial (w : Nat) (ck : VecKind) (tk : List Char)
    (idxf cf : List (List Char × List Char)) (ns : List Nat) (ds : List Decimal)
    (hk : UnsignedToken 64 tk ns.length) (hi : UnsignedFields w idxf ns) (hsep : Separated idxf)
    (hc : ScalarFields cf ds) (hcsep : Separated cf) (hlen : ds.length < ck.size) :
    FaceRecord (.optional_colored_face w ck) (tk ++ (spaced idxf ++ spaced cf))
      (.optional_colored_face ns none) := by
  intro u i rest
  obtain ⟨p1, p2, p3⟩ := parse_face_prefix w u i tk idxf ns ns.length (u.n_vertices_in_face i)
    (spaced cf ++ '\n' :: rest) hk hi hsep
    (starts_space_spaced cf ('\n' :: rest) (scalar_fields_blanks hc) hcsep
      (starts_space_newline rest)) (Or.inl rfl)
  have e2 := parse_vec_within_line_partial ck cf ds (u.face_color i) rest hc hcsep hlen
  have hig : ignore_until_newline (IStream.fresh ('\n' :: rest)) = IStream.fresh rest :=
    ignore_until_newline_fresh [] rest (by simp)
  simp only [List.append_assoc]
  simp only [parse_face, p1, p2, FaceShape.index_bits, p3, e2, hig]

end OffParser

namespace OffParser

/-- With the optional-coloured vertex shape of 3 channels, the line `0 0 0 7 8` followed by one
space before its newline is read together with the next line `1 1 1`: the third colour component
is taken from the next line, and the stream is left after that next line. -/
theorem partial_color_trailing_blank_record :
    VertexRecord (.optional_colored_vertex .v3 .v3) "0 0 0 7 8 \n1 1 1".toList
      (.optional_colored_vertex (.vec3 (.ofNat 0) (.ofNat 0) (.ofNat 0))
        (some (.vec3 (.ofNat 7) (.ofNat 8) (.ofNat 1)))) := by
  intro u i rest
  have s0 : ScalarToken ['0'] (Decimal.ofNat 0) :=
    scalar_token_nat ['0'] 0 (by decide) (by decide) (by decide) (by decide)
  have s1 : ScalarToken ['1'] (Decimal.ofNat 1) :=
    scalar_token_nat ['1'] 1 (by decide) (by decide) (by decide) (by decide)
  have s7 : ScalarToken ['7'] (Decimal.ofNat 7) :=
    scalar_token_nat ['7'] 7 (by decide) (by decide) (by decide) (by decide)
  have s8 : ScalarToken ['8'] (Decimal.ofNat 8) :=
    scalar_token_nat ['8'] 8 (by decide) (by decide) (by decide) (by decide)
  have hstop := ignore_comment_stop '0'
    (' ' :: '0' :: ' ' :: '0' :: ' ' :: '7' :: ' ' :: '8' :: ' ' :: '\n' :: '1' :: ' ' :: '1'
      :: ' ' :: '1' :: '\n' :: rest)
    (by decide) (by decide)
  have e := parse_vec_fields (.vec3 (.ofNat 0) (.ofNat 0) (.ofNat 0))
    [([], ['0']), ([' '], ['0']), ([' '], ['0'])]
    (' ' :: '7' :: ' ' :: '8' :: ' ' :: '\n' :: '1' :: ' ' :: '1' :: ' ' :: '1' :: '\n' :: rest)
    (u.position i)
    (List.Forall₂.cons ⟨blanks_nil, s0⟩ (List.Forall₂.cons ⟨blanks_one_space, s0⟩
      (List.Forall₂.cons ⟨blanks_one_space, s0⟩ List.Forall₂.nil)))
    (by intro f hf; simp at hf; subst hf; simp)
    (starts_space_cons _ _ (by decide))
  have w1 := within_line_elem_field [' '] ['7']
    (' ' :: '8' :: ' ' :: '\n' :: '1' :: ' ' :: '1' :: ' ' :: '1' :: '\n' :: rest)
    (Decimal.ofNat 7) (u.vertex_color i 0) blanks_one_space (by decide) s7
    (starts_space_cons _ _ (by decide))
  have w2 := within_line_elem_field [' '] ['8']
    (' ' :: '\n' :: '1' :: ' ' :: '1' :: ' ' :: '1' :: '\n' :: rest)
    (Decimal.ofNat 8) (u.vertex_color i 1) blanks_one_space (by decide) s8
    (starts_space_cons _ _ (by decide))
  have w3 := within_line_elem_ws ' ' ['\n'] ['1'] (' ' :: '1' :: ' ' :: '1' :: '\n' :: rest)
    (Decimal.ofNat 1) (u.vertex_color i 2) (by decide) (by decide) (by decide) s1
    (starts_space_cons _ _ (by decide))
  have hig : ignore_until_newline (IStream.fresh (' ' :: '1' :: ' ' :: '1' :: '\n' :: rest))
      = IStream.fresh rest :=
    ignore_until_newline_fresh [' ', '1', ' ', '1'] rest (by decide)
  simp only [spaced, Vec.kind, List.nil_append, List.cons_append, List.append_nil,
    List.singleton_append] at e w1 w2 w3
  have htext : "0 0 0 7 8 \n1 1 1".toList ++ '\n' :: rest
      = '0' :: ' ' :: '0' :: ' ' :: '0' :: ' ' :: '7' :: ' ' :: '8' :: ' ' :: '\n' :: '1' :: ' '
          :: '1' :: ' ' :: '1' :: '\n' :: rest := by
    simp
  rw [htext]
  simp only [parse_vertex, hstop, VertexShape.position_type, e, parse_vec_within_line, w1, w2,
    w3, hig]

/-- C24 (behaviour of the code). With the optional-coloured vertex shape of 3 channels, the
input `OFF / 3 0 0 / 0 0 0 7 8 / 1 1 1 / 2 2 2`, whose first vertex line carries two colour
tokens directly followed by the newline, gives a first vertex without colour and takes the next
lines as the next records.  With one space between the second colour token and the newline,
the input `OFF / 2 0 0 / 0 0 0 7 8␠ / 1 1 1 / 2 2 2` gives a first vertex with the colour
(7, 8, 1), completed from the following line, and a second vertex at (2, 2, 2): the line `1 1 1`
is not parsed as the next record. -/
theorem partial_color_trailing_blank_crosses_line (u : Uninit) :
    parse_text (.optional_colored_vertex .v3 .v3) (.face 16) u
        "OFF\n3 0 0\n0 0 0 7 8\n1 1 1\n2 2 2\n"
      = ⟨[.optional_colored_vertex (.vec3 (.ofNat 0) (.ofNat 0) (.ofNat 0)) none,
          .optional_colored_vertex (.vec3 (.ofNat 1) (.ofNat 1) (.ofNat 1)) none,
          .optional_colored_vertex (.vec3 (.ofNat 2) (.ofNat 2) (.ofNat 2)) none],
         [], 0⟩ ∧
    parse_text (.optional_colored_vertex .v3 .v3) (.face 16) u
        "OFF\n2 0 0\n0 0 0 7 8 \n1 1 1\n2 2 2\n"
      = ⟨[.optional_colored_vertex (.vec3 (.ofNat 0) (.ofNat 0) (.ofNat 0))
            (some (.vec3 (.ofNat 7) (.ofNat 8) (.ofNat 1))),
          .optional_colored_vertex (.vec3 (.ofNat 2) (.ofNat 2) (.ofNat 2)) none],
         [], 0⟩ := by
  have s0 : ScalarToken ['0'] (Decimal.ofNat 0) :=
    scalar_token_nat ['0'] 0 (by decide) (by decide) (by decide) (by decide)
  have s1 : ScalarToken ['1'] (Decimal.ofNat 1) :=
    scalar_token_nat ['1'] 1 (by decide) (by decide) (by decide) (by decide)
  have s2 : ScalarToken ['2'] (Decimal.ofNat 2) :=
    scalar_token_nat ['2'] 2 (by decide) (by decide) (by decide) (by decide)
  have s7 : ScalarToken ['7'] (Decimal.ofNat 7) :=
    scalar_token_nat ['7'] 7 (by decide) (by decide) (by decide) (by decide)
  have s8 : ScalarToken ['8'] (Decimal.ofNat 8) :=
    scalar_token_nat ['8'] 8 (by decide) (by decide) (by decide) (by decide)
  have c0 : UnsignedToken 64 ['0'] 0 :=
    unsigned_token_nat 64 ['0'] 0 (by decide) (by decide) (by decide) (by decide)
  have c2 : UnsignedToken 64 ['2'] 2 :=
    unsigned_token_nat 64 ['2'] 2 (by decide) (by decide) (by decide) (by decide)
  have c3 : UnsignedToken 64 ['3'] 3 :=
    unsigned_token_nat 64 ['3'] 3 (by decide) (by decide) (by decide) (by decide)
  have hsep2 : Separated ([([], ['0']), ([' '], ['0']), ([' '], ['0'])] :
      List (List Char × List Char)).tail := by
    intro f hf; simp at hf; subst hf; simp
  have r0 := vertex_record_optional_partial (.vec3 (.ofNat 0) (.ofNat 0) (.ofNat 0)) .v3
    [([], ['0']), ([' '], ['0']), ([' '], ['0'])] [([' '], ['7']), ([' '], ['8'])]
    [Decimal.ofNat 7, Decimal.ofNat 8]
    (List.Forall₂.cons ⟨blanks_nil, s0⟩ (List.Forall₂.cons ⟨blanks_one_space, s0⟩
      (List.Forall₂.cons ⟨blanks_one_space, s0⟩ List.Forall₂.nil)))
    hsep2
    (List.Forall₂.cons ⟨blanks_one_space, s7⟩
      (List.Forall₂.cons ⟨blanks_one_space, s8⟩ List.Forall₂.nil))
    (by intro f hf; simp at hf; rcases hf with rfl | rfl <;> simp) (by decide)
  have r1 := vertex_record_optional_absent (.vec3 (.ofNat 1) (.ofNat 1) (.ofNat 1)) .v3
    [([], ['1']), ([' '], ['1']), ([' '], ['1'])]
    (List.Forall₂.cons ⟨blanks_nil, s1⟩ (List.Forall₂.cons ⟨blanks_one_space, s1⟩
      (List.Forall₂.cons ⟨blanks_one_space, s1⟩ List.Forall₂.nil)))
    (by intro f hf; simp at hf; subst hf; simp)
  have r2 := vertex_record_optional_absent (.vec3 (.ofNat 2) (.ofNat 2) (.ofNat 2)) .v3
    [([], ['2']), ([' '], ['2']), ([' '], ['2'])]
    (List.Forall₂.cons ⟨blanks_nil, s2⟩ (List.Forall₂.cons ⟨blanks_one_space, s2⟩
      (List.Forall₂.cons ⟨blanks_one_space, s2⟩ List.Forall₂.nil)))
    (by intro f hf; simp at hf; subst hf; simp)
  have t1 : "OFF\n3 0 0\n0 0 0 7 8\n1 1 1\n2 2 2\n".toList
      = off_text ['O', 'F', 'F'] (counts_line ['3'] [' '] ['0'] [' '] ['0'] [])
          [([], spaced [([], ['0']), ([' '], ['0']), ([' '], ['0'])]
              ++ spaced [([' '], ['7']), ([' '], ['8'])]),
           ([], spaced [([], ['1']), ([' '], ['1']), ([' '], ['1'])]),
           ([], spaced [([], ['2']), ([' '], ['2']), ([' '], ['2'])])] [] [] := by
    decide
  have t2 : "OFF\n2 0 0\n0 0 0 7 8 \n1 1 1\n2 2 2\n".toList
      = off_text ['O', 'F', 'F'] (counts_line ['2'] [' '] ['0'] [' '] ['0'] [])
          [([], "0 0 0 7 8 \n1 1 1".toList),
           ([], spaced [([], ['2']), ([' '], ['2']), ([' '], ['2'])])] [] [] := by
    decide
  unfold parse_text
  rw [t1, t2]
  exact ⟨parse_off_text (.optional_colored_vertex .v3 .v3) (.face 16) u ['O', 'F', 'F'] ['3']
      [' '] ['0'] [' '] ['0'] [] [] 0 _ _
      [.optional_colored_vertex (.vec3 (.ofNat 0) (.ofNat 0) (.ofNat 0)) none,
       .optional_colored_vertex (.vec3 (.ofNat 1) (.ofNat 1) (.ofNat 1)) none,
       .optional_colored_vertex (.vec3 (.ofNat 2) (.ofNat 2) (.ofNat 2)) none]
      []
      (by decide) c3 c0 c0 blanks_one_space (by decide) blanks_one_space (by decide)
      (line_rest_of_blanks blanks_nil)
      (List.Forall₂.cons ⟨⟨[], by simp, rfl⟩, r0⟩
        (List.Forall₂.cons ⟨⟨[], by simp, rfl⟩, r1⟩
          (List.Forall₂.cons ⟨⟨[], by simp, rfl⟩, r2⟩ List.Forall₂.nil)))
      List.Forall₂.nil,
    parse_off_text (.optional_colored_vertex .v3 .v3) (.face 16) u ['O', 'F', 'F'] ['2']
      [' '] ['0'] [' '] ['0'] [] [] 0 _ _
      [.optional_colored_vertex (.vec3 (.ofNat 0) (.ofNat 0) (.ofNat 0))
          (some (.vec3 (.ofNat 7) (.ofNat 8) (.ofNat 1))),
       .optional_colored_vertex (.vec3 (.ofNat 2) (.ofNat 2) (.ofNat 2)) none]
      []
      (by decide) c2 c0 c0 blanks_one_space (by decide) blanks_one_space (by decide)
      (line_rest_of_blanks blanks_nil)
      (List.Forall₂.cons ⟨⟨[], by simp, rfl⟩, partial_color_trailing_blank_record⟩
        (List.Forall₂.cons ⟨⟨[], by simp, rfl⟩, r2⟩ List.Forall₂.nil))
      List.Forall₂.nil⟩

end OffParser

namespace OffParser

/-! ## `parse` with its `reserve` calls: what is returned and what is thrown -/

theorem parse_face_outcome_eq (st : Storage) (sh : FaceShape) (u : Uninit) (i : Nat)
    (input : IStream) :
    parse_face_outcome st sh u i input
      = (reserve st.indices_max_size (st.indices_alloc i)
          (declared_index_count u i input)).map (fun _ => parse_face sh u i input) := by
  unfold parse_face_outcome declared_index_count
  cases h : reserve st.indices_max_size (st.indices_alloc i)
      ((ignore_comment_or_empty_lines input).extract_unsigned 64 (u.n_vertices_in_face i)).1 with
  | returned x => cases sh <;> simp [Outcome.map, parse_face, h]
  | length_error => simp [Outcome.map, h]
  | bad_alloc => simp [Outcome.map, h]

theorem parse_faces_outcome_eq (st : Storage) (sh : FaceShape) (u : Uninit) (n : Nat) :
    ∀ (i : Nat) (input : IStream),
      parse_faces_outcome st sh u n i input
        = (reserve_indices st i (declared_index_counts sh u n i input)).map
            (fun _ => parse_faces sh u n i input) := by
  induction n with
  | zero => intro i input; rfl
  | succ n ih =>
    intro i input
    simp only [parse_faces_outcome, declared_index_counts, reserve_indices, parse_faces,
      parse_face_outcome_eq]
    cases h : reserve st.indices_max_size (st.indices_alloc i)
        (declared_index_count u i input) with
    | returned x =>
      simp only [Outcome.map, ih]
      cases h2 : reserve_indices st (i + 1)
          (declared_index_counts sh u n (i + 1) (parse_face sh u i input).2) with
      | returned y => simp [Outcome.map, h2]
      | length_error => simp [Outcome.map, h2]
      | bad_alloc => simp [Outcome.map, h2]
    | length_error => simp [Outcome.map, h]
    | bad_alloc => simp [Outcome.map, h]

/-- A run of `parse` ends with the first exception of its `reserve` calls, and when none of
them throws it returns the mesh `parse` builds. -/
theorem parse_outcome_eq (st : Storage) (vs : VertexShape) (fs : FaceShape) (u : Uninit)
    (input : IStream) :
    parse_outcome st vs fs u input
      = (reserve_all st (parse_counts u input).n_vertices (parse_counts u input).n_faces
          (parse_declared_index_counts vs fs u input)).map (fun _ => parse vs fs u input) := by
  simp only [parse_outcome, reserve_all, parse_declared_index_counts, parse,
    parse_faces_outcome_eq]
  cases h : reserve st.vertices_max_size st.vertices_alloc (parse_counts u input).n_vertices with
  | returned x =>
    cases h2 : reserve st.faces_max_size st.faces_alloc (parse_counts u input).n_faces with
    | returned y =>
      cases h3 : reserve_indices st 0 (declared_index_counts fs u (parse_counts u input).n_faces 0
          (parse_vertices vs u (parse_counts u input).n_vertices 0
            (ignore_until_newline (parse_counts u input).input)).2) with
      | returned z => simp [Outcome.map, h3]
      | length_error => simp [Outcome.map, h3]
      | bad_alloc => simp [Outcome.map, h3]
    | length_error => simp [Outcome.map]
    | bad_alloc => simp [Outcome.map]
  | length_error => simp [Outcome.map]
  | bad_alloc => simp [Outcome.map]

end OffParser

namespace OffParser

/-! ## Counts and `reserve` -/

/-- C5 (as the code behaves). When the counts line reads as the three unsigned integers `V`,
`F`, `E`, a run of `parse` ends with the first exception of its `reserve` calls (for `V`, for
`F`, for the count of each face), and otherwise returns the mesh built by the two loops.  Every
mesh returned has exactly `V` vertices and `F` faces (the loops ran `V` and `F` times) and
`n_edges = E`, whatever text follows the third count.  When `V` exceeds the `max_size()` of the
vertex vector, `std::length_error` leaves `parse` before any record is read, and likewise for
`F` once the reserve for `V` has succeeded. -/
theorem counts_respected_when_returned (st : Storage) (vs : VertexShape) (fs : FaceShape)
    (u : Uninit) (header tV w1 tF w2 tE tail : List Char) (V F E : Nat)
    (hh : '\n' ∉ header)
    (hV : UnsignedToken 64 tV V) (hF : UnsignedToken 64 tF F) (hE : UnsignedToken 64 tE E)
    (hw1 : ∀ c ∈ w1, isspace c = true) (h1 : w1 ≠ [])
    (hw2 : ∀ c ∈ w2, isspace c = true) (h2 : w2 ≠ [])
    (htail : starts_space tail = true) :
    parse_outcome st vs fs u
        (IStream.fresh (header ++ '\n' :: counts_line tV w1 tF w2 tE tail))
      = (reserve_all st V F (parse_declared_index_counts vs fs u
          (IStream.fresh (header ++ '\n' :: counts_line tV w1 tF w2 tE tail)))).map
          (fun _ => parse vs fs u
            (IStream.fresh (header ++ '\n' :: counts_line tV w1 tF w2 tE tail))) ∧
    (∀ m, parse_outcome st vs fs u
        (IStream.fresh (header ++ '\n' :: counts_line tV w1 tF w2 tE tail)) = .returned m →
      m.vertices.length = V ∧ m.faces.length = F ∧ m.n_edges = E) ∧
    (st.vertices_max_size < V →
      parse_outcome st vs fs u
        (IStream.fresh (header ++ '\n' :: counts_line tV w1 tF w2 tE tail)) = .length_error) ∧
    (reserve st.vertices_max_size st.vertices_alloc V = .returned () → st.faces_max_size < F →
      parse_outcome st vs fs u
        (IStream.fresh (header ++ '\n' :: counts_line tV w1 tF w2 tE tail)) = .length_error) := by
  have hc := parse_counts_text u header tV w1 tF w2 tE tail V F E hh hV hF hE hw1 h1 hw2 h2 htail
  have hlen := parse_counts_respected vs fs u header tV w1 tF w2 tE tail V F E hh hV hF hE
    hw1 h1 hw2 h2 htail
  have heq := parse_outcome_eq st vs fs u
    (IStream.fresh (header ++ '\n' :: counts_line tV w1 tF w2 tE tail))
  rw [hc] at heq
  dsimp only at heq
  refine ⟨heq, ?_, ?_, ?_⟩
  · intro m hm
    rw [heq] at hm
    cases hr : reserve_all st V F (parse_declared_index_counts vs fs u
        (IStream.fresh (header ++ '\n' :: counts_line tV w1 tF w2 tE tail))) with
    | returned x =>
      rw [hr] at hm
      simp only [Outcome.map, Outcome.returned.injEq] at hm
      rw [← hm]
      exact hlen
    | length_error => rw [hr] at hm; cases hm
    | bad_alloc => rw [hr] at hm; cases hm
  · intro hlt
    rw [heq]
    simp [reserve_all, reserve, hlt, Outcome.map]
  · intro hres hlt
    rw [heq]
    simp only [reserve_all, hres]
    simp [reserve, hlt, Outcome.map]

/-- Counterexample to C5: with the counts line `18446744073709551615 0 0` no mesh is returned and
the vertex loop does not run: `mesh.vertices.reserve` throws `std::length_error`, whatever the
indeterminate values are. -/
theorem counts_reserve_counterexample :
    parse_text_outcome (ample_storage 24 24 2) (.vertex .v3) (.face 16) uninit_zero
        "OFF\n18446744073709551615 0 0\n" = .length_error ∧
    parse_text_outcome (ample_storage 24 24 2) (.vertex .v3) (.face 16) uninit_large
        "OFF\n18446744073709551615 0 0\n" = .length_error := by
  decide!

/-- Instance of C5 as the code behaves, on the counts line `4 2 5` followed by text that is not
a list of records: every `reserve` succeeds and the mesh built by the loops is returned. -/
theorem counts_respected_when_returned_witness :
    parse_outcome (ample_storage 24 24 2) (.vertex .v3) (.face 16) uninit_zero
        (IStream.fresh ("OFF".toList ++ '\n' ::
          counts_line ['4'] [' '] ['2'] [' ', ' '] ['5'] "\nnot a record".toList))
      = .returned (parse (.vertex .v3) (.face 16) uninit_zero
        (IStream.fresh ("OFF".toList ++ '\n' ::
          counts_line ['4'] [' '] ['2'] [' ', ' '] ['5'] "\nnot a record".toList))) := by
  have h := (counts_respected_when_returned (ample_storage 24 24 2) (.vertex .v3) (.face 16)
    uninit_zero "OFF".toList ['4'] [' '] ['2'] [' ', ' '] ['5'] "\nnot a record".toList 4 2 5
    (by decide)
    (unsigned_token_nat 64 ['4'] 4 (by decide) (by decide) (by decide) (by decide))
    (unsigned_token_nat 64 ['2'] 2 (by decide) (by decide) (by decide) (by decide))
    (unsigned_token_nat 64 ['5'] 5 (by decide) (by decide) (by decide) (by decide))
    (by decide) (by decide) (by decide) (by decide) (by decide)).1
  have hr : reserve_all (ample_storage 24 24 2) 4 2
      (parse_declared_index_counts (.vertex .v3) (.face 16) uninit_zero
        (IStream.fresh ("OFF".toList ++ '\n' ::
          counts_line ['4'] [' '] ['2'] [' ', ' '] ['5'] "\nnot a record".toList)))
      = .returned () := by
    decide!
  rw [h, hr]
  rfl

end OffParser

namespace OffParser

/-! ## Short face records -/

/-- C8 (as the code behaves). A face line declares `k` indices and carries only `m < k` index
tokens, the newline following the last of them at once.  The body of the face loop then ends
with the exception of `reserve(k)`, if it throws, and otherwise keeps a face whose indices are
exactly those `m` indices in order.  With the plain and the optional-coloured face shapes (the
colour is then absent) the stream is left at the beginning of the next line, so the next line
is read as the next record.  With the mandatory-coloured face shape the colour is read across
the newline from the following line or lines, and the stream is left behind the line on which
the colour ends: the line after the short record is not read as a record. -/
theorem short_face_record_outcome (st : Storage) (w : Nat) (tk : List Char)
    (idxf : List (List Char × List Char)) (ns : List Nat) (k : Nat)
    (hk : UnsignedToken 64 tk k) (hi : UnsignedFields w idxf ns) (hsep : Separated idxf)
    (hlen : ns.length < k) :
    (∀ (u : Uninit) (i : Nat) (rest : List Char),
      parse_face_outcome st (.face w) u i (IStream.fresh ((tk ++ spaced idxf) ++ '\n' :: rest))
        = (reserve st.indices_max_size (st.indices_alloc i) k).map
            (fun _ => (.face ns, IStream.fresh rest))) ∧
    (∀ (ck : VecKind) (u : Uninit) (i : Nat) (rest : List Char),
      parse_face_outcome st (.optional_colored_face w ck) u i
          (IStream.fresh ((tk ++ spaced idxf) ++ '\n' :: rest))
        = (reserve st.indices_max_size (st.indices_alloc i) k).map
            (fun _ => (.optional_colored_face ns none, IStream.fresh rest))) ∧
    (∀ (color : Vec) (cf : List (List Char × List Char)) (trail : List Char) (u : Uninit)
        (i : Nat) (rest : List Char),
      WsScalarFields cf color.toList → Separated cf.tail → LineRest trail →
      parse_face_outcome st (.colored_face w color.kind) u i
          (IStream.fresh ((tk ++ spaced idxf) ++ '\n' :: (spaced cf ++ (trail ++ '\n' :: rest))))
        = (reserve st.indices_max_size (st.indices_alloc i) k).map
            (fun _ => (.colored_face ns color, IStream.fresh rest))) := by
  have hcount : ∀ (u : Uninit) (i : Nat) (rest : List Char),
      declared_index_count u i (IStream.fresh ((tk ++ spaced idxf) ++ '\n' :: rest)) = k := by
    intro u i rest
    rw [List.append_assoc]
    exact declared_index_count_token u i tk _ k hk
      (starts_space_spaced idxf _ (unsigned_fields_blanks hi) hsep (starts_space_newline rest))
  have hold := short_face_record_tolerated w tk idxf ns k hk hi hsep hlen
  refine ⟨?_, ?_, ?_⟩
  · intro u i rest
    rw [parse_face_outcome_eq, hcount, hold.1]
  · intro ck u i rest
    rw [parse_face_outcome_eq, hcount, hold.2.1]
  · intro color cf trail u i rest hc hcsep ht
    rw [parse_face_outcome_eq, hcount]
    obtain ⟨p1, p2, p3⟩ := parse_face_prefix w u i tk idxf ns k (u.n_vertices_in_face i)
      ('\n' :: (spaced cf ++ (trail ++ '\n' :: rest))) hk hi hsep (starts_space_newline _)
      (Or.inr ⟨hlen, _, rfl⟩)
    have hne : ∃ f fs', cf = f :: fs' := by
      cases cf with
      | nil => cases color <;> exact absurd hc (by simp [WsScalarFields, Vec.toList])
      | cons f fs' => exact ⟨f, fs', rfl⟩
    obtain ⟨f, fs', rfl⟩ := hne
    have hc2 : WsScalarFields (('\n' :: f.1, f.2) :: fs') color.toList := by
      unfold WsScalarFields at hc ⊢
      generalize color.toList = l at hc ⊢
      cases hc with
      | cons hd htl =>
        refine List.Forall₂.cons ⟨?_, hd.2⟩ htl
        intro x hx
        rcases List.mem_cons.1 hx with rfl | hx
        · decide
        · exact hd.1 x hx
    have e2 := parse_vec_ws_fields color (('\n' :: f.1, f.2) :: fs') (trail ++ '\n' :: rest)
      (u.face_color i) hc2 hcsep (line_rest_starts ht rest)
    have hsp : spaced (('\n' :: f.1, f.2) :: fs') ++ (trail ++ '\n' :: rest)
        = '\n' :: (spaced (f :: fs') ++ (trail ++ '\n' :: rest)) := by
      simp [spaced, List.append_assoc]
    rw [hsp] at e2
    simp only [List.append_assoc]
    simp only [parse_face, p1, p2, FaceShape.index_bits, p3, e2, line_rest_ignore ht]

/-- Counterexample to C8: with the mandatory-coloured face shape, the face line `3 0 1` declares
three indices and carries two; the colour of that face is read from the next line
`3 0 1 2 7 8 9`, which is therefore not parsed as the next record, and the second face comes
from the line after it. -/
theorem short_face_record_counterexample :
    parse_text_outcome (ample_storage 24 48 2) (.vertex .v3) (.colored_face 16 .v3) uninit_zero
        "OFF\n0 2 0\n3 0 1\n3 0 1 2 7 8 9\n2 5 6 1 1 1\n"
      = .returned ⟨[],
          [.colored_face [0, 1] (.vec3 (.ofNat 3) (.ofNat 0) (.ofNat 1)),
           .colored_face [5, 6] (.vec3 (.ofNat 1) (.ofNat 1) (.ofNat 1))], 0⟩ ∧
    parse_text_outcome (ample_storage 24 48 2) (.vertex .v3) (.colored_face 16 .v3) uninit_large
        "OFF\n0 2 0\n3 0 1\n3 0 1 2 7 8 9\n2 5 6 1 1 1\n"
      = .returned ⟨[],
          [.colored_face [0, 1] (.vec3 (.ofNat 3) (.ofNat 0) (.ofNat 1)),
           .colored_face [5, 6] (.vec3 (.ofNat 1) (.ofNat 1) (.ofNat 1))], 0⟩ := by
  decide!

/-- Instance of C8 as the code behaves: the face line `4 0 1 2` declares four indices and
carries three; `reserve(4)` succeeds and the next line `3 4 5 6` is left in the stream. -/
theorem short_face_record_outcome_witness :
    parse_face_outcome (ample_storage 24 24 2) (.face 16) uninit_zero 0
        (IStream.fresh "4 0 1 2\n3 4 5 6\n".toList)
      = .returned (.face [0, 1, 2], IStream.fresh "3 4 5 6\n".toList) := by
  have c4 : UnsignedToken 64 ['4'] 4 :=
    unsigned_token_nat 64 ['4'] 4 (by decide) (by decide) (by decide) (by decide)
  have i0 : UnsignedToken 16 ['0'] 0 :=
    unsigned_token_nat 16 ['0'] 0 (by decide) (by decide) (by decide) (by decide)
  have i1 : UnsignedToken 16 ['1'] 1 :=
    unsigned_token_nat 16 ['1'] 1 (by decide) (by decide) (by decide) (by decide)
  have i2 : UnsignedToken 16 ['2'] 2 :=
    unsigned_token_nat 16 ['2'] 2 (by decide) (by decide) (by decide) (by decide)
  have h := short_face_record_outcome (ample_storage 24 24 2) 16 ['4']
    [([' '], ['0']), ([' '], ['1']), ([' '], ['2'])] [0, 1, 2] 4 c4
    (List.Forall₂.cons ⟨blanks_one_space, i0⟩ (List.Forall₂.cons ⟨blanks_one_space, i1⟩
      (List.Forall₂.cons ⟨blanks_one_space, i2⟩ List.Forall₂.nil)))
    (by intro f hf; simp at hf; rcases hf with rfl | rfl | rfl <;> simp)
    (by decide)
  have h2 := h.1 uninit_zero 0 "3 4 5 6\n".toList
  have hr : reserve (ample_storage 24 24 2).indices_max_size
      ((ample_storage 24 24 2).indices_alloc 0) 4 = .returned () := by
    decide!
  rw [hr] at h2
  exact h2

end OffParser

namespace OffParser

/-! ## The counts handed to `reserve` once the stream has nothing more to give -/

theorem declared_index_count_failed (u : Uninit) (i : Nat) (s : IStream)
    (h : s.failbit = true) : declared_index_count u i s = u.n_vertices_in_face i := by
  rw [declared_index_count, ignore_comment_failed s h, extract_unsigned_failed _ s _ h]

theorem declared_index_count_exhausted (u : Uninit) (i : Nat) (s : IStream)
    (h : Exhausted s) : declared_index_count u i s = u.n_vertices_in_face i := by
  rw [declared_index_count, extract_unsigned_not_good 64 _ _ (ignore_comment_exhausted s h)]

theorem declared_index_counts_failed (fs : FaceShape) (u : Uninit) (n : Nat) :
    ∀ (i : Nat) (s : IStream), s.failbit = true →
      declared_index_counts fs u n i s = (List.range' i n).map u.n_vertices_in_face := by
  induction n with
  | zero => intro i s _; rfl
  | succ n ih =>
    intro i s h
    simp [declared_index_counts, declared_index_count_failed u i s h,
      parse_face_failed fs u i s h, ih (i + 1) s h, List.range'_succ]

/-- On an exhausted stream every iteration of the face loop hands the never-stored
`n_vertices_in_face` to `reserve`. -/
theorem declared_index_counts_exhausted (fs : FaceShape) (u : Uninit) (n i : Nat)
    (s : IStream) (h : Exhausted s) :
    declared_index_counts fs u n i s = (List.range' i n).map u.n_vertices_in_face := by
  cases n with
  | zero => rfl
  | succ n =>
    obtain ⟨t, ht, hv⟩ := parse_face_exhausted fs u i s h
    simp [declared_index_counts, declared_index_count_exhausted u i s h, hv,
      declared_index_counts_failed fs u n (i + 1) t ht, List.range'_succ]

theorem declared_index_counts_length (fs : FaceShape) (u : Uninit) (n : Nat) :
    ∀ (i : Nat) (s : IStream), (declared_index_counts fs u n i s).length = n := by
  induction n with
  | zero => intro i s; rfl
  | succ n ih => intro i s; simp [declared_index_counts, ih]

theorem declared_index_counts_add (fs : FaceShape) (u : Uninit) (a b : Nat) :
    ∀ (i : Nat) (s : IStream),
      declared_index_counts fs u (a + b) i s
        = declared_index_counts fs u a i s
            ++ declared_index_counts fs u b (i + a) (parse_faces fs u a i s).2 := by
  induction a with
  | zero => intro i s; simp [declared_index_counts, parse_faces]
  | succ a ih =>
    intro i s
    have e : a + 1 + b = (a + b) + 1 := by omega
    have e2 : i + (a + 1) = i + 1 + a := by omega
    rw [e]
    simp only [declared_index_counts, parse_faces, ih, e2, List.cons_append]

/-- The counts handed to `reserve` in the face loop on truncated input: those of the face lines
that are there, then the never-stored `n_vertices_in_face` of every missing face. -/
theorem truncated_input_counts (vs : VertexShape) (fs : FaceShape) (u : Uninit)
    (header tV w1 tF w2 tE trail : List Char) (V F E : Nat)
    (vrecs frecs : List (List Char × List Char)) (vl : List Vertex) (fl : List Face)
    (hh : '\n' ∉ header)
    (hV : UnsignedToken 64 tV V) (hF : UnsignedToken 64 tF F) (hE : UnsignedToken 64 tE E)
    (hw1 : Blanks w1) (h1 : w1 ≠ []) (hw2 : Blanks w2) (h2 : w2 ≠ []) (ht : LineRest trail)
    (hv : List.Forall₂ (fun r v => SkippedBlock r.1 ∧ VertexRecord vs r.2 v) vrecs vl)
    (hf : List.Forall₂ (fun r f => SkippedBlock r.1 ∧ FaceRecord fs r.2 f) frecs fl)
    (hVle : vl.length ≤ V) (hFle : fl.length ≤ F)
    (hfaces : vl.length < V → frecs = []) :
    ∃ ks : List Nat, ks.length = fl.length ∧
      parse_declared_index_counts vs fs u
          (IStream.fresh (off_text header (counts_line tV w1 tF w2 tE trail) vrecs frecs []))
        = ks ++ (List.range' fl.length (F - fl.length)).map u.n_vertices_in_face := by
  have hc := parse_counts_text u header tV w1 tF w2 tE
    (trail ++ '\n' :: (records_text vrecs ++ (records_text frecs ++ [])))
    V F E hh hV hF hE (blanks_space hw1) h1 (blanks_space hw2) h2 (line_rest_starts ht _)
  have htext : off_text header (counts_line tV w1 tF w2 tE trail) vrecs frecs []
      = header ++ '\n' :: counts_line tV w1 tF w2 tE
          (trail ++ '\n' :: (records_text vrecs ++ (records_text frecs ++ []))) := by
    simp [off_text, counts_line, List.append_assoc]
  have eV : V = vl.length + (V - vl.length) := by omega
  have eF : F = fl.length + (F - fl.length) := by omega
  have hvs := parse_vertices_records_then vs u vrecs vl (V - vl.length)
    (records_text frecs ++ []) hv
  rw [← eV] at hvs
  rw [htext]
  simp only [parse_declared_index_counts, hc, line_rest_ignore ht, hvs]
  by_cases hlt : vl.length < V
  · have hnil := hfaces hlt
    subst hnil
    cases hf
    obtain ⟨t, ht, ht2⟩ := parse_vertices_exhausted vs u (V - vl.length) vl.length
      (IStream.fresh (records_text [] ++ [])) (Or.inr (by simp [IStream.fresh, records_text]))
    rw [ht2]
    exact ⟨[], rfl, by simpa using declared_index_counts_exhausted fs u F 0 t ht⟩
  · have hz : V - vl.length = 0 := by omega
    rw [hz]
    simp only [parse_vertices]
    refine ⟨declared_index_counts fs u fl.length 0 (IStream.fresh (records_text frecs ++ [])),
      declared_index_counts_length fs u _ _ _, ?_⟩
    have hsplit := declared_index_counts_add fs u fl.length (F - fl.length) 0
      (IStream.fresh (records_text frecs ++ []))
    rw [← eF, parse_faces_records fs u frecs fl hf 0 [], Nat.zero_add] at hsplit
    rw [hsplit, declared_index_counts_exhausted fs u (F - fl.length) fl.length (IStream.fresh [])
      (Or.inr (by simp [IStream.fresh]))]

/-- C13 (as the code behaves). The input ends after fewer vertex and face record lines than the
counts line declares.  `parse` has no check for this: the run ends with the first exception of
its `reserve` calls, if one throws (`std::length_error` or `std::bad_alloc`), and otherwise
returns a mesh with the declared numbers of records: the records of the lines that are there,
followed by records in which nothing was stored (they hold the indeterminate values of the
uninitialised locals), and `n_edges` from the counts line.  The counts handed to `reserve` in
the face loop are those of the face lines that are there, followed by the never-stored
`n_vertices_in_face` of every missing face. -/
theorem truncated_input_outcome (st : Storage) (vs : VertexShape) (fs : FaceShape) (u : Uninit)
    (header tV w1 tF w2 tE trail : List Char) (V F E : Nat)
    (vrecs frecs : List (List Char × List Char)) (vl : List Vertex) (fl : List Face)
    (hh : '\n' ∉ header)
    (hV : UnsignedToken 64 tV V) (hF : UnsignedToken 64 tF F) (hE : UnsignedToken 64 tE E)
    (hw1 : Blanks w1) (h1 : w1 ≠ []) (hw2 : Blanks w2) (h2 : w2 ≠ []) (ht : LineRest trail)
    (hv : List.Forall₂ (fun r v => SkippedBlock r.1 ∧ VertexRecord vs r.2 v) vrecs vl)
    (hf : List.Forall₂ (fun r f => SkippedBlock r.1 ∧ FaceRecord fs r.2 f) frecs fl)
    (hVle : vl.length ≤ V) (hFle : fl.length ≤ F)
    (hmissing : vl.length < V ∨ fl.length < F)
    (hfaces : vl.length < V → frecs = []) :
    ∃ ks : List Nat, ks.length = fl.length ∧
      parse_outcome st vs fs u
          (IStream.fresh (off_text header (counts_line tV w1 tF w2 tE trail) vrecs frecs []))
        = (reserve_all st V F
            (ks ++ (List.range' fl.length (F - fl.length)).map u.n_vertices_in_face)).map
            (fun _ => ⟨vl ++ (List.range' vl.length (V - vl.length)).map (uninit_vertex vs u),
              fl ++ (List.range' fl.length (F - fl.length)).map (uninit_face fs u), E⟩) := by
  obtain ⟨ks, hks, hcounts⟩ := truncated_input_counts vs fs u header tV w1 tF w2 tE trail V F E
    vrecs frecs vl fl hh hV hF hE hw1 h1 hw2 h2 ht hv hf hVle hFle hfaces
  have hmesh := truncated_input_returns_mesh vs fs u header tV w1 tF w2 tE trail V F E
    vrecs frecs vl fl hh hV hF hE hw1 h1 hw2 h2 ht hv hf hVle hFle hmissing hfaces
  have hc := parse_counts_text u header tV w1 tF w2 tE
    (trail ++ '\n' :: (records_text vrecs ++ (records_text frecs ++ [])))
    V F E hh hV hF hE (blanks_space hw1) h1 (blanks_space hw2) h2 (line_rest_starts ht _)
  have htext : off_text header (counts_line tV w1 tF w2 tE trail) vrecs frecs []
      = header ++ '\n' :: counts_line tV w1 tF w2 tE
          (trail ++ '\n' :: (records_text vrecs ++ (records_text frecs ++ []))) := by
    simp [off_text, counts_line, List.append_assoc]
  refine ⟨ks, hks, ?_⟩
  rw [parse_outcome_eq, hcounts, hmesh, htext, hc]

/-- Counterexample to C13: the counts line declares four vertices and no face, and the input
ends after three vertex lines.  No error is raised: a mesh with four vertices is returned,
whose fourth vertex holds whatever the uninitialised position held (shown for two choices of
the indeterminate values).  No never-stored count reaches `reserve` on this input. -/
theorem truncated_input_returned_mesh :
    parse_text_outcome (ample_storage 24 24 2) (.vertex .v3) (.face 16) uninit_zero
        "OFF\n4 0 5\n0 0 0\n1 0 0\n1 1 0\n"
      = .returned ⟨[.vertex (.vec3 (.ofNat 0) (.ofNat 0) (.ofNat 0)),
          .vertex (.vec3 (.ofNat 1) (.ofNat 0) (.ofNat 0)),
          .vertex (.vec3 (.ofNat 1) (.ofNat 1) (.ofNat 0)),
          .vertex (.vec3 (.ofNat 0) (.ofNat 0) (.ofNat 0))], [], 5⟩ ∧
    parse_text_outcome (ample_storage 24 24 2) (.vertex .v3) (.face 16) uninit_large
        "OFF\n4 0 5\n0 0 0\n1 0 0\n1 1 0\n"
      = .returned ⟨[.vertex (.vec3 (.ofNat 0) (.ofNat 0) (.ofNat 0)),
          .vertex (.vec3 (.ofNat 1) (.ofNat 0) (.ofNat 0)),
          .vertex (.vec3 (.ofNat 1) (.ofNat 1) (.ofNat 0)),
          .vertex (.vec3 (.ofNat 7) (.ofNat 7) (.ofNat 7))], [], 5⟩ := by
  decide!

/-- Instance of C13 as the code behaves, on the counts line `4 2 5` followed by three vertex
lines: when the never-stored count of the first missing face is the largest `std::size_t`,
`reserve` throws `std::length_error`; when the never-stored values are zero, a mesh with four
vertices and two faces without indices is returned. -/
theorem truncated_input_outcome_witness :
    parse_text_outcome (ample_storage 24 24 2) (.vertex .v3) (.face 16) uninit_large
        "OFF\n4 2 5\n0 0 0\n1 0 0\n1 1 0\n" = .length_error ∧
    parse_text_outcome (ample_storage 24 24 2) (.vertex .v3) (.face 16) uninit_zero
        "OFF\n4 2 5\n0 0 0\n1 0 0\n1 1 0\n"
      = .returned ⟨[.vertex (.vec3 (.ofNat 0) (.ofNat 0) (.ofNat 0)),
          .vertex (.vec3 (.ofNat 1) (.ofNat 0) (.ofNat 0)),
          .vertex (.vec3 (.ofNat 1) (.ofNat 1) (.ofNat 0)),
          .vertex (.vec3 (.ofNat 0) (.ofNat 0) (.ofNat 0))], [.face [], .face []], 5⟩ := by
  have s0 : ScalarToken ['0'] (Decimal.ofNat 0) :=
    scalar_token_nat ['0'] 0 (by decide) (by decide) (by decide) (by decide)
  have s1 : ScalarToken ['1'] (Decimal.ofNat 1) :=
    scalar_token_nat ['1'] 1 (by decide) (by decide) (by decide) (by decide)
  have c2 : UnsignedToken 64 ['2'] 2 :=
    unsigned_token_nat 64 ['2'] 2 (by decide) (by decide) (by decide) (by decide)
  have c4 : UnsignedToken 64 ['4'] 4 :=
    unsigned_token_nat 64 ['4'] 4 (by decide) (by decide) (by decide) (by decide)
  have c5 : UnsignedToken 64 ['5'] 5 :=
    unsigned_token_nat 64 ['5'] 5 (by decide) (by decide) (by decide) (by decide)
  have htext : "OFF\n4 2 5\n0 0 0\n1 0 0\n1 1 0\n".toList
      = off_text ['O', 'F', 'F'] (counts_line ['4'] [' '] ['2'] [' '] ['5'] [])
          [([], ['0'] ++ ' ' :: (['0'] ++ ' ' :: ['0'])),
           ([], ['1'] ++ ' ' :: (['0'] ++ ' ' :: ['0'])),
           ([], ['1'] ++ ' ' :: (['1'] ++ ' ' :: ['0']))] [] [] := by
    decide
  have hrecs : List.Forall₂
      (fun r v => SkippedBlock r.1 ∧ VertexRecord (.vertex .v3) r.2 v)
      [([], ['0'] ++ ' ' :: (['0'] ++ ' ' :: ['0'])),
       ([], ['1'] ++ ' ' :: (['0'] ++ ' ' :: ['0'])),
       ([], ['1'] ++ ' ' :: (['1'] ++ ' ' :: ['0']))]
      [.vertex (.vec3 (.ofNat 0) (.ofNat 0) (.ofNat 0)),
       .vertex (.vec3 (.ofNat 1) (.ofNat 0) (.ofNat 0)),
       .vertex (.vec3 (.ofNat 1) (.ofNat 1) (.ofNat 0))] :=
    List.Forall₂.cons ⟨⟨[], by simp, rfl⟩, vertex_record_plain3 _ _ _ _ _ _ s0 s0 s0⟩
      (List.Forall₂.cons ⟨⟨[], by simp, rfl⟩, vertex_record_plain3 _ _ _ _ _ _ s1 s0 s0⟩
        (List.Forall₂.cons ⟨⟨[], by simp, rfl⟩, vertex_record_plain3 _ _ _ _ _ _ s1 s1 s0⟩
          List.Forall₂.nil))
  obtain ⟨k1, hk1, e1⟩ := truncated_input_outcome (ample_storage 24 24 2) (.vertex .v3)
    (.face 16) uninit_large ['O', 'F', 'F'] ['4'] [' '] ['2'] [' '] ['5'] [] 4 2 5 _ []
    _ [] (by decide) c4 c2 c5 blanks_one_space (by simp) blanks_one_space (by simp)
    (line_rest_of_blanks blanks_nil) hrecs List.Forall₂.nil (by decide) (by decide)
    (Or.inl (by decide)) (fun _ => rfl)
  obtain ⟨k2, hk2, e2⟩ := truncated_input_outcome (ample_storage 24 24 2) (.vertex .v3)
    (.face 16) uninit_zero ['O', 'F', 'F'] ['4'] [' '] ['2'] [' '] ['5'] [] 4 2 5 _ []
    _ [] (by decide) c4 c2 c5 blanks_one_space (by simp) blanks_one_space (by simp)
    (line_rest_of_blanks blanks_nil) hrecs List.Forall₂.nil (by decide) (by decide)
    (Or.inl (by decide)) (fun _ => rfl)
  obtain rfl := List.length_eq_zero.1 hk1
  obtain rfl := List.length_eq_zero.1 hk2
  unfold parse_text_outcome
  rw [htext, e1, e2]
  decide!

end OffParser

namespace OffParser

/-! ## A malformed number and `reserve` -/

end OffParser
